import Mathlib

/-! # Terrain height map (`astria/HeightMap.cpp`): a shallow embedding

The embedding follows `CHeightMap` block by block.

* `float` values are elements of a linearly ordered field `K` with a floor function
  (so `K = ℚ` runs, and `K = ℝ` is covered by every theorem): arithmetic is exact.
  A quotient whose divisor is zero has no value in exact arithmetic, so every division
  by a run-time quantity goes through `fdiv`, which returns `none` there (the IEEE
  result would be an infinity or a NaN, and its conversion to `int` is undefined).
* The height query `GetHeight` truncates a quotient, so that its result depends on the
  rounding of the machine and on the values that are not numbers. It has a second
  model, in binary32 (`F32`, `round32`, `GetHeight32`): every operation rounds to
  nearest, an infinity or a NaN is `none`, and a conversion to `int` that C++ leaves
  undefined takes the value that a parameter `undef` gives (`integerIndefinite` is the
  one of x86). The statements about every position and every extents, and about the
  positions of the vertices, where the quotient is a whole number up to rounding, are
  proved on that model; the exact model serves where the quotient is half a cell away
  from the next whole number.
* `sqrt` (reached through `glm::normalize`) is a parameter `sqrt : K → K`; theorems
  that depend on it state what they need of it as a hypothesis.
* `int` values are mathematical integers (`Int`): signed overflow is undefined in C++,
  and the index arithmetic only reaches it with `2^31` vertices or more. `unsigned int`
  arithmetic (the pixel offset) wraps modulo `2^32`, as C++ defines it.
* `std::vector<std::vector<T>>` is a list of rows; `v[i][j]` is `Grid.at`, which is
  `none` outside the vector.
* `for (int i = 0; i < n; i++)` is `forLoop` when the body updates a value, and
  `tabulate` when iteration `i` writes cell `i` of a vector.
* The OpenGL context is a record of the object names that are alive.
-/

/-! ## glm -/

namespace glm

/-- The type `glm::vec2`. -/
structure vec2 (K : Type) where
  x : K
  y : K

/-- The type `glm::vec3`. -/
@[ext]
structure vec3 (K : Type) where
  x : K
  y : K
  z : K

/-- The type `glm::vec4`. -/
structure vec4 (K : Type) where
  x : K
  y : K
  z : K
  w : K

/-- The type `glm::mat3`, stored by columns. -/
structure mat3 (K : Type) where
  c0 : vec3 K
  c1 : vec3 K
  c2 : vec3 K

/-- The type `glm::mat4`, stored by columns. -/
structure mat4 (K : Type) where
  c0 : vec4 K
  c1 : vec4 K
  c2 : vec4 K
  c3 : vec4 K

section Vectors

variable {K : Type} [LinearOrderedField K] [FloorRing K]

instance : Zero (vec3 K) := ⟨⟨0, 0, 0⟩⟩

instance : Add (vec3 K) := ⟨fun a b => ⟨a.x + b.x, a.y + b.y, a.z + b.z⟩⟩

instance : Sub (vec3 K) := ⟨fun a b => ⟨a.x - b.x, a.y - b.y, a.z - b.z⟩⟩

/-- Product of a vector with a scalar, `v * s`. -/
def vec3.scale (v : vec3 K) (s : K) : vec3 K := ⟨v.x * s, v.y * s, v.z * s⟩

/-- The function `glm::dot` on `vec3`. -/
def dot (a b : vec3 K) : K := a.x * b.x + a.y * b.y + a.z * b.z

/-- The function `glm::cross`. -/
def cross (a b : vec3 K) : vec3 K :=
  ⟨a.y * b.z - b.y * a.z, a.z * b.x - b.z * a.x, a.x * b.y - b.x * a.y⟩

/-- Division of floats by a run-time divisor: no value when the divisor is zero. -/
def fdiv (a b : K) : Option K := if b = 0 then none else some (a / b)

/-- The function `glm::normalize`: `v * inversesqrt(dot(v, v))`, with
`inversesqrt(x) = 1 / sqrt(x)`. -/
def normalize (sqrt : K → K) (v : vec3 K) : Option (vec3 K) :=
  (fdiv 1 (sqrt (dot v v))).map (fun s => v.scale s)

/-- The function `glm::scale(glm::mat4(1.0), v)`. -/
def scale (v : vec3 K) : mat4 K :=
  ⟨⟨v.x, 0, 0, 0⟩, ⟨0, v.y, 0, 0⟩, ⟨0, 0, v.z, 0⟩, ⟨0, 0, 0, 1⟩⟩

/-- The product `M * v` of a `glm::mat3` and a `glm::vec3`. -/
def mulVec (M : mat3 K) (v : vec3 K) : vec3 K :=
  ⟨M.c0.x * v.x + M.c1.x * v.y + M.c2.x * v.z,
   M.c0.y * v.x + M.c1.y * v.y + M.c2.y * v.z,
   M.c0.z * v.x + M.c1.z * v.y + M.c2.z * v.z⟩

/-- The direction `glm::vec3(M * glm::vec4(v, 0))` for a `glm::mat4`. -/
def mulDir (M : mat4 K) (v : vec3 K) : vec3 K :=
  ⟨M.c0.x * v.x + M.c1.x * v.y + M.c2.x * v.z,
   M.c0.y * v.x + M.c1.y * v.y + M.c2.y * v.z,
   M.c0.z * v.x + M.c1.z * v.y + M.c2.z * v.z⟩

/-- Conversion `int(f)` of a float whose truncation is an `int`: truncation towards
zero. The exact model applies it to every quotient; `F32.toInt` is the conversion in
binary32, with the floats that have no `int` value. -/
def truncate (f : K) : Int := if 0 ≤ f then Int.floor f else Int.ceil f

end Vectors

end glm

open glm

/-! ## Loops and vectors -/

/-- The loop `for (int i = 0; i < n; i++) s = body(i, s)`. -/
def forLoop {σ : Type} (n : Int) (body : Int → σ → σ) (s : σ) : σ :=
  List.foldl (fun (acc : σ) (i : Nat) => body (i : Int) acc) s (List.range n.toNat)

/-- All values of a list of results, when every one of them is defined. -/
def allSome {α : Type} : List (Option α) → Option (List α)
  | [] => some []
  | none :: _ => none
  | some a :: l => (allSome l).map (fun r => a :: r)

/-- The loop `for (int i = 0; i < n; i++) v[i] = f(i)` over a vector of size `n`. -/
def tabulate {α : Type} (n : Int) (f : Int → Option α) : Option (List α) :=
  allSome ((List.range n.toNat).map (fun (i : Nat) => f (i : Int)))

/-- A `std::vector<std::vector<T>>`. -/
abbrev Grid (α : Type) := List (List α)

/-- The access `g[i][j]`; `none` when an index is outside its vector. -/
def Grid.at {α : Type} (g : Grid α) (i j : Int) : Option α :=
  if 0 ≤ i ∧ 0 ≤ j then (g[i.toNat]?).bind (fun row => row[j.toNat]?) else none

/-- The nested loop `for i < n, for j < m: g[i][j] = f(i, j)`. -/
def tabulate2 {α : Type} (n m : Int) (f : Int → Int → Option α) : Option (Grid α) :=
  tabulate n (fun i => tabulate m (fun j => f i j))

/-- The grid of `n` rows and `m` columns with entry `g i j` in cell `(i, j)`. -/
def Grid.ofFn {α : Type} (n m : Int) (g : Int → Int → α) : Grid α :=
  (List.range n.toNat).map (fun (i : Nat) => (List.range m.toNat).map (fun (j : Nat) => g i j))

/-- A grid has `rows` rows of `cols` entries each. -/
def Grid.Shape {α : Type} (g : Grid α) (rows cols : Int) : Prop :=
  (g.length : Int) = rows ∧ ∀ r ∈ g, (r.length : Int) = cols

/-- Value of an `unsigned int` expression: reduction modulo `2^32`. -/
def u32 (x : Int) : Nat := (x % 4294967296).toNat

/-! ## OpenGL objects -/

/-- The names of the GL objects that are alive, and the next unused name. -/
structure GLContext where
  nextName : Nat
  vertexArrays : List Nat
  buffers : List Nat

/-- The call `glGenVertexArrays(1, &vao)`. -/
def glGenVertexArrays (gl : GLContext) : Nat × GLContext :=
  (gl.nextName,
    { gl with nextName := gl.nextName + 1, vertexArrays := gl.nextName :: gl.vertexArrays })

/-- The call `glDeleteVertexArrays(1, &vao)`. -/
def glDeleteVertexArrays (gl : GLContext) (vao : Nat) : GLContext :=
  { gl with vertexArrays := gl.vertexArrays.filter (fun n => n != vao) }

/-- Modelled from the spec: the class `CVertexBufferObject`, which is implemented outside
`HeightMap.cpp`, is the GPU sink of section 9, with the capabilities `create`,
`appendBytes`, `bind`, `uploadToDevice` and `release`. The record keeps the name of the
GL buffer, the values appended so far, and whether they were uploaded. -/
structure CVertexBufferObject (α : Type) where
  buffer : Nat
  data : List α
  dataUploaded : Bool

/-- Modelled from the spec: `Create` of `CVertexBufferObject` takes a fresh GL buffer and
starts with no data. -/
def CVertexBufferObject.Create {α : Type} (gl : GLContext) :
    CVertexBufferObject α × GLContext :=
  ({ buffer := gl.nextName, data := [], dataUploaded := false },
    { gl with nextName := gl.nextName + 1, buffers := gl.nextName :: gl.buffers })

/-- Modelled from the spec: `AddData` of `CVertexBufferObject` appends the values. -/
def CVertexBufferObject.AddData {α : Type} (b : CVertexBufferObject α) (xs : List α) :
    CVertexBufferObject α :=
  { b with data := b.data ++ xs }

/-- Modelled from the spec: `UploadGPU` of `CVertexBufferObject` hands the data to the
device. -/
def CVertexBufferObject.UploadGPU {α : Type} (b : CVertexBufferObject α) :
    CVertexBufferObject α :=
  { b with dataUploaded := true }

/-- Modelled from the spec: `Release` of `CVertexBufferObject` deletes the GL buffer and
forgets the data. -/
def CVertexBufferObject.Release {α : Type} (b : CVertexBufferObject α) (gl : GLContext) :
    CVertexBufferObject α × GLContext :=
  ({ b with data := [], dataUploaded := false },
    { gl with buffers := gl.buffers.filter (fun n => n != b.buffer) })

/-! ## The image -/

/-- The fields of `SDL_Surface` that `Load` reads: `pixels` (`none` is `NULL`, otherwise
the bytes from that address on), `h`, `w` and `format->BytesPerPixel`. -/
structure SDL_Surface where
  pixels : Option (Nat → Fin 256)
  h : Int
  w : Int
  BytesPerPixel : Nat

/-! ## The mesh -/

/-- The data members of `CHeightMap`. -/
structure CHeightMap (K : Type) where
  loaded : Bool
  rows : Int
  cols : Int
  VertexData : Grid (vec3 K)
  RenderScale : vec3 K
  RenderScaleMatrix : mat4 K
  NormalScaleMatrix : mat3 K
  vao : Nat
  HeightMapData : CVertexBufferObject K
  HeightMapIndices : CVertexBufferObject Int

section Mesh

variable {K : Type} [LinearOrderedField K] [FloorRing K]

/-- The format test of `Load` (line 34): the condition under which it returns `false`. -/
def formatRejected (Surf_Load : SDL_Surface) : Bool :=
  Surf_Load.pixels.isNone || Surf_Load.h == 0 || Surf_Load.w == 0 ||
    (Surf_Load.BytesPerPixel != 3 && Surf_Load.BytesPerPixel != 1 &&
      Surf_Load.BytesPerPixel != 4)

/-- The height sample of cell `(i, j)` (line 57): the byte at
`DataPtr + row_step*i + j*ptr_inc`, divided by `255.0f`. Both products are
`unsigned int` values, added to the pointer one after the other. -/
def VertexHeight (DataPtr : Nat → Fin 256) (ptr_inc row_step : Nat) (i j : Int) : K :=
  ((DataPtr (u32 ((row_step : Int) * i) + u32 (j * (ptr_inc : Int)))).val : K) / 255

/-- The body of the sampling loop (lines 55-59) for cell `(i, j)`, given the height
sample of every cell: the position and the texture coordinate. -/
def sampleCell (rows cols : Int) (height : Int → Int → K) (i j : Int) :
    Option (vec3 K × vec2 K) := do
  let textureU : K := (cols : K) * 0.1
  let textureV : K := (rows : K) * 0.1
  let scaleC ← fdiv (j : K) ((cols - 1 : Int) : K)
  let scaleR ← fdiv (i : K) ((rows - 1 : Int) : K)
  pure (⟨-0.5 + scaleC, height i j, -0.5 + scaleR⟩, ⟨textureU * scaleC, textureV * scaleR⟩)

/-- The sampling loop (lines 51-61): `VertexData` and `CoordsData`. -/
def sampleGrids (rows cols : Int) (height : Int → Int → K) :
    Option (Grid (vec3 K) × Grid (vec2 K)) :=
  (tabulate2 rows cols (sampleCell rows cols height)).map
    (fun g => (g.map (fun r => r.map Prod.fst), g.map (fun r => r.map Prod.snd)))

/-- The grid positions of the corners of `Triangle0` (`k = 0`) and `Triangle1`
(otherwise) of quad `(i, j)`, in the order of the initializers (lines 74-85). -/
def triangleCorners (k : Nat) (i j : Int) : (Int × Int) × (Int × Int) × (Int × Int) :=
  if k = 0 then ((i, j), (i + 1, j), (i + 1, j + 1))
  else ((i + 1, j + 1), (i, j + 1), (i, j))

/-- The array `Triangle0` or `Triangle1` of quad `(i, j)` (lines 74-85). -/
def readTriangle (VertexData : Grid (vec3 K)) (k : Nat) (i j : Int) :
    Option (vec3 K × vec3 K × vec3 K) := do
  let c := triangleCorners k i j
  let v0 ← VertexData.at c.1.1 c.1.2
  let v1 ← VertexData.at c.2.1.1 c.2.1.2
  let v2 ← VertexData.at c.2.2.1 c.2.2.2
  pure (v0, v1, v2)

/-- The body of the face normal loop (lines 74-92) for quad `(i, j)`: the normals of
`Triangle0` and `Triangle1`. -/
def faceNormals (sqrt : K → K) (VertexData : Grid (vec3 K)) (i j : Int) :
    Option (vec3 K × vec3 K) := do
  let Triangle0 ← readTriangle VertexData 0 i j
  let Triangle1 ← readTriangle VertexData 1 i j
  let TriangleNorm0 := cross (Triangle0.1 - Triangle0.2.1) (Triangle0.2.1 - Triangle0.2.2)
  let TriangleNorm1 := cross (Triangle1.1 - Triangle1.2.1) (Triangle1.2.1 - Triangle1.2.2)
  let n0 ← normalize sqrt TriangleNorm0
  let n1 ← normalize sqrt TriangleNorm1
  pure (n0, n1)

/-- The face normal loop (lines 64-94): `Normals[0]` and `Normals[1]`, each of
`rows - 1` by `cols - 1` entries. -/
def buildNormals (sqrt : K → K) (rows cols : Int) (VertexData : Grid (vec3 K)) :
    Option (List (Grid (vec3 K))) :=
  (tabulate2 (rows - 1) (cols - 1) (faceNormals sqrt VertexData)).map
    (fun g => [g.map (fun r => r.map Prod.fst), g.map (fun r => r.map Prod.snd)])

/-- Vertex `(i, j)` is a corner of triangle `k` of quad `(r, c)`. -/
def isCorner (k : Nat) (r c i j : Int) : Prop :=
  (i, j) = (triangleCorners k r c).1 ∨ (i, j) = (triangleCorners k r c).2.1 ∨
    (i, j) = (triangleCorners k r c).2.2

/-- The operands `Normals[k][r][c]` that the averaging loop (lines 104-131) adds to
`FinalNormal` for vertex `(i, j)`, as triples `(k, r, c)` in the order of the code. -/
def accumulated (rows cols i j : Int) : List (Nat × Int × Int) :=
  (if j ≠ 0 ∧ i ≠ 0 then (List.range 2).map (fun k => (k, i - 1, j - 1)) else []) ++
  (if i ≠ 0 ∧ j ≠ cols - 1 then [(0, i - 1, j)] else []) ++
  (if i ≠ rows - 1 ∧ j ≠ cols - 1 then (List.range 2).map (fun k => (k, i, j)) else []) ++
  (if i ≠ rows - 1 ∧ j ≠ 0 then [(1, i, j - 1)] else [])

/-- The access `Normals[k][r][c]`. -/
def normalAt (Normals : List (Grid (vec3 K))) (a : Nat × Int × Int) : Option (vec3 K) :=
  (Normals[a.1]?).bind (fun g => g.at a.2.1 a.2.2)

/-- The sum `FinalNormal` of vertex `(i, j)` before it is normalized (lines 104-131). -/
def normalSum (Normals : List (Grid (vec3 K))) (rows cols i j : Int) : Option (vec3 K) :=
  (allSome ((accumulated rows cols i j).map (normalAt Normals))).map
    (fun ns => ns.foldl (fun acc n => acc + n) 0)

/-- The body of the averaging loop (lines 104-133) for vertex `(i, j)`. -/
def finalNormal (sqrt : K → K) (Normals : List (Grid (vec3 K))) (rows cols i j : Int) :
    Option (vec3 K) :=
  (normalSum Normals rows cols i j).bind (normalize sqrt)

/-- The averaging loop (lines 96-135): `FinalNormals`. -/
def buildFinalNormals (sqrt : K → K) (rows cols : Int) (Normals : List (Grid (vec3 K))) :
    Option (Grid (vec3 K)) :=
  tabulate2 rows cols (finalNormal sqrt Normals rows cols)

/-- The values appended to `HeightMapData` (lines 139-148): position, texture
coordinate and normal of every vertex, row by row. -/
def interleave (rows cols : Int) (VertexData : Grid (vec3 K)) (CoordsData : Grid (vec2 K))
    (FinalNormals : Grid (vec3 K)) : Option (List K) :=
  (tabulate2 rows cols (fun i j => do
    let p ← VertexData.at i j
    let t ← CoordsData.at i j
    let n ← FinalNormals.at i j
    pure [p.x, p.y, p.z, t.x, t.y, n.x, n.y, n.z])).map (fun g => g.flatten.flatten)

/-- The index loop (lines 152-167): the values appended to `HeightMapIndices`, after
the contents `buf`. -/
def emitIndices (rows cols : Int) (buf : List Int) : List Int :=
  let PrimitiveRestartIndex := rows * cols
  forLoop (rows - 1) (fun i buf =>
    let buf := forLoop cols (fun j buf =>
      forLoop 2 (fun k buf =>
        let row := i + (1 - k)
        let index := row * cols + j
        buf ++ [index]) buf) buf
    buf ++ [PrimitiveRestartIndex]) buf

/-- The method `CHeightMap::Release` (lines 192-200). -/
def Release (m : CHeightMap K) (gl : GLContext) : CHeightMap K × GLContext :=
  if !m.loaded then (m, gl)
  else
    let (d, gl) := m.HeightMapData.Release gl
    let (ix, gl) := m.HeightMapIndices.Release gl
    let gl := glDeleteVertexArrays gl m.vao
    ({ m with HeightMapData := d, HeightMapIndices := ix, loaded := false }, gl)

/-- The method `CHeightMap::Load` (lines 13-190). `Surf_Load` is what `IMG_Load`
returned (`none` is `NULL`). The result is the returned `bool` with the new state of
the mesh and of the GL context; it is `none` when an arithmetic step or a vector access
has no value. -/
def Load (sqrt : K → K) (m : CHeightMap K) (gl : GLContext) (Surf_Load : Option SDL_Surface) :
    Option (Bool × CHeightMap K × GLContext) :=
  let (m, gl) := if m.loaded then Release { m with loaded := false } gl else (m, gl)
  match Surf_Load with
  | none => some (false, m, gl)
  | some Surf_Load =>
    let m := { m with rows := Surf_Load.h, cols := Surf_Load.w }
    if formatRejected Surf_Load then some (false, m, gl)
    else
      match Surf_Load.pixels with
      | none => some (false, m, gl)  -- excluded by the format test
      | some DataPtr => do
        let rows := m.rows
        let cols := m.cols
        let ptr_inc : Nat := u32 Surf_Load.BytesPerPixel
        let row_step : Nat := u32 ((ptr_inc : Int) * cols)
        let (VertexData, CoordsData) ←
          sampleGrids rows cols (VertexHeight DataPtr ptr_inc row_step)
        let m := { m with VertexData := VertexData }
        let Normals ← buildNormals sqrt rows cols VertexData
        let FinalNormals ← buildFinalNormals sqrt rows cols Normals
        let (d, gl) := CVertexBufferObject.Create gl
        let vertices ← interleave rows cols VertexData CoordsData FinalNormals
        let d := d.AddData vertices
        let (ix, gl) := CVertexBufferObject.Create gl
        let ix : CVertexBufferObject Int := { ix with data := emitIndices rows cols ix.data }
        let (vao, gl) := glGenVertexArrays gl
        let d := d.UploadGPU
        let ix := ix.UploadGPU
        pure (true,
          { m with HeightMapData := d, HeightMapIndices := ix, vao := vao, loaded := true },
          gl)

/-- The method `CHeightMap::SetSize(float x, float h, float z)` (lines 228-233). -/
def SetSize (m : CHeightMap K) (x h z : K) : Option (CHeightMap K) := do
  let RenderScale : vec3 K := ⟨x, h, z⟩
  let a ← fdiv x (m.rows : K)
  let b ← fdiv h (m.cols : K)
  let c ← fdiv z (m.rows : K)
  pure { m with
    RenderScale := RenderScale
    RenderScaleMatrix := glm.scale RenderScale
    NormalScaleMatrix := ⟨⟨a, 0, 0⟩, ⟨0, b, 0⟩, ⟨0, 0, c⟩⟩ }

/-- The method `CHeightMap::SetSize(float QuadSize, float Height)` (lines 235-240). -/
def SetSizeQuad (m : CHeightMap K) (QuadSize Height : K) : Option (CHeightMap K) := do
  let RenderScale : vec3 K := ⟨(m.cols : K) * QuadSize, Height, (m.rows : K) * QuadSize⟩
  let a ← fdiv QuadSize (m.rows : K)
  let b ← fdiv Height (m.cols : K)
  let c ← fdiv QuadSize (m.rows : K)
  pure { m with
    RenderScale := RenderScale
    RenderScaleMatrix := glm.scale RenderScale
    NormalScaleMatrix := ⟨⟨a, 0, 0⟩, ⟨0, b, 0⟩, ⟨0, 0, c⟩⟩ }

/-- The method `CHeightMap::GetRows`. -/
def GetRows (m : CHeightMap K) : Int := m.rows

/-- The method `CHeightMap::GetCols`. -/
def GetCols (m : CHeightMap K) : Int := m.cols

/-- The draw issued by `Render`: restart index and number of indices. -/
structure DrawElements where
  restartIndex : Int
  NumIndices : Int

/-- The method `CHeightMap::Render` (lines 263-268): the primitive restart index it
sets and the number of indices it passes to `glDrawElements`. -/
def Render (m : CHeightMap K) : DrawElements :=
  { restartIndex := m.rows * m.cols
    NumIndices := (m.rows - 1) * m.cols * 2 + m.rows - 1 }

/-- The column computed by `GetHeight` (lines 273, 276, 279), in exact arithmetic: no
value when the width is zero. The column in binary32 is `heightColumn32`. -/
def heightColumn (m : CHeightMap K) (position : vec3 K) : Option Int := do
  let f ← fdiv ((position.x + m.RenderScale.x * 0.5) * (m.cols : K)) m.RenderScale.x
  let column := truncate f
  let column := min column (m.cols - 1)
  let column := max column 0
  pure column

/-- The row computed by `GetHeight` (lines 274, 277, 280), in exact arithmetic: no
value when the depth is zero. The row in binary32 is `heightRow32`. -/
def heightRow (m : CHeightMap K) (position : vec3 K) : Option Int := do
  let f ← fdiv ((position.z + m.RenderScale.z * 0.5) * (m.rows : K)) m.RenderScale.z
  let row := truncate f
  let row := min row (m.rows - 1)
  let row := max row 0
  pure row

/-- The method `CHeightMap::GetHeight` (lines 271-283) in exact arithmetic: the returned
value and the state of the mesh after the call. The method in binary32 is
`GetHeight32`. -/
def GetHeight (m : CHeightMap K) (position : vec3 K) : Option (K × CHeightMap K) := do
  let column ← heightColumn m position
  let row ← heightRow m position
  let v ← m.VertexData.at row column
  pure (v.y * m.RenderScale.y, m)

end Mesh

/-! ## The vertex buffer -/

/-- The index of vertex `(i, j)` in `HeightMapData`: the vertex loop (lines 139-148)
appends the vertices row by row, `cols` to a row. -/
def vertexIndex (cols i j : Int) : Int := i * cols + j

/-- The indices in `HeightMapData` of the corners of triangle `k` of quad `(i, j)`. -/
def triangleIndices (cols : Int) (k : Nat) (i j : Int) : List Int :=
  [vertexIndex cols (triangleCorners k i j).1.1 (triangleCorners k i j).1.2,
   vertexIndex cols (triangleCorners k i j).2.1.1 (triangleCorners k i j).2.1.2,
   vertexIndex cols (triangleCorners k i j).2.2.1 (triangleCorners k i j).2.2.2]


/-! ## Binary32 arithmetic

The height query is also modelled with the rounding of the machine: every operation on
`float` rounds its exact result to binary32 (round to nearest, ties to even, no
extended intermediate precision and no fused multiply-add, as the SSE code of an x86-64
build computes). -/

/-- Rounding of an exact value to the nearest integer, a tie to the even one. -/
def roundHalfEven (x : ℚ) : Int :=
  if x - (Int.floor x : ℚ) < 1 / 2 then Int.floor x
  else if 1 / 2 < x - (Int.floor x : ℚ) then Int.floor x + 1
  else if Int.floor x % 2 = 0 then Int.floor x else Int.floor x + 1

/-- Rounding of an exact result to binary32 (24 significant bits, exponents from -126 on,
subnormal values below, round to nearest, ties to even): the rounded value, or `none`
when it overflows to an infinity, that is when it reaches `2^128`. -/
def round32 (q : ℚ) : Option ℚ :=
  if q = 0 then some 0
  else
    let r : ℚ := (roundHalfEven (q / (2 : ℚ) ^ (max (Int.log 2 |q| - 23) (-149))) : ℚ)
      * (2 : ℚ) ^ (max (Int.log 2 |q| - 23) (-149))
    if 340282366920938463463374607431768211456 ≤ |r| then none else some r

/-- A `float`: a finite value, or `none` for an infinity or a NaN. -/
abbrev F32 := Option ℚ

/-- The sum `a + b` of two floats. A non-finite operand gives a non-finite result. -/
def F32.add (a b : F32) : F32 := a.bind (fun x => b.bind (fun y => round32 (x + y)))

/-- The product `a * b` of two floats. A non-finite operand gives a non-finite
result. -/
def F32.mul (a b : F32) : F32 := a.bind (fun x => b.bind (fun y => round32 (x * y)))

/-- The quotient `a / b` of two floats: not finite when `b` is zero. A non-finite operand
gives a non-finite result; that is the IEEE rule except for a finite value divided by
an infinity (a zero in IEEE), a case that the code modelled here does not meet: when
the divisor `RenderScale.x` of `GetHeight` is infinite, the dividend, which contains
`RenderScale.x*0.5f`, is not finite either, and the sampling loop divides by the
conversion of an `int`. -/
def F32.div (a b : F32) : F32 :=
  a.bind (fun x => b.bind (fun y => if y = 0 then none else round32 (x / y)))

/-- The conversion `float(n)` of an `int`. -/
def F32.ofInt (n : Int) : F32 := round32 (n : ℚ)

/-- The conversion `int(f)` of a float: truncation towards zero when the result is an
`int`. For any other float (too large, infinite or NaN) the conversion is undefined in
C++; `undef f` is the `int` that the platform leaves. -/
def F32.toInt (undef : F32 → Int) (f : F32) : Int :=
  match f with
  | some q => if -2147483649 < q ∧ q < 2147483648 then truncate q else undef f
  | none => undef f

/-- The result of the x86 conversion instruction `cvttss2si` for a float that has no
`int` value: the integer indefinite value `INT_MIN`. -/
def integerIndefinite (_ : F32) : Int := -2147483648

/-- The column computed by `GetHeight` (lines 273, 276, 279), in binary32. -/
def heightColumn32 (undef : F32 → Int) (m : CHeightMap F32) (position : vec3 F32) : Int :=
  let column := F32.toInt undef
    (F32.div (F32.mul (F32.add position.x (F32.mul m.RenderScale.x (some (1 / 2))))
      (F32.ofInt m.cols)) m.RenderScale.x)
  let column := min column (m.cols - 1)
  max column 0

/-- The row computed by `GetHeight` (lines 274, 277, 280), in binary32. -/
def heightRow32 (undef : F32 → Int) (m : CHeightMap F32) (position : vec3 F32) : Int :=
  let row := F32.toInt undef
    (F32.div (F32.mul (F32.add position.z (F32.mul m.RenderScale.z (some (1 / 2))))
      (F32.ofInt m.rows)) m.RenderScale.z)
  let row := min row (m.rows - 1)
  max row 0

/-- The method `CHeightMap::GetHeight` (lines 271-283) in binary32: the returned float
and the state of the mesh after the call; `none` when the access to `VertexData` is
outside the vector. -/
def GetHeight32 (undef : F32 → Int) (m : CHeightMap F32) (position : vec3 F32) :
    Option (F32 × CHeightMap F32) :=
  (m.VertexData.at (heightRow32 undef m position) (heightColumn32 undef m position)).map
    (fun v => (F32.mul v.y m.RenderScale.y, m))

/-- The X coordinate that `Load` stores for column `j` (lines 55 and 58), in binary32. -/
def vertexX32 (cols j : Int) : F32 :=
  F32.add (some (-1 / 2)) (F32.div (F32.ofInt j) (F32.ofInt (cols - 1)))

/-- The Z coordinate that `Load` stores for row `i` (lines 56 and 58), in binary32. -/
def vertexZ32 (rows i : Int) : F32 :=
  F32.add (some (-1 / 2)) (F32.div (F32.ofInt i) (F32.ofInt (rows - 1)))

/-! ## Concrete inputs -/

/-- A loaded mesh over `ℚ` with a 2 by 2 vertex grid, 10 wide, 4 high and 10 deep. -/
def sampleMesh : CHeightMap ℚ :=
  { loaded := true
    rows := 2
    cols := 2
    VertexData := [[⟨-1 / 2, 0, -1 / 2⟩, ⟨1 / 2, 1 / 5, -1 / 2⟩],
                   [⟨-1 / 2, 2 / 5, 1 / 2⟩, ⟨1 / 2, 1, 1 / 2⟩]]
    RenderScale := ⟨10, 4, 10⟩
    RenderScaleMatrix := glm.scale ⟨10, 4, 10⟩
    NormalScaleMatrix := ⟨⟨5, 0, 0⟩, ⟨0, 2, 0⟩, ⟨0, 0, 5⟩⟩
    vao := 3
    HeightMapData := ⟨1, [], true⟩
    HeightMapIndices := ⟨2, [2, 0, 3, 1, 4], true⟩ }

/-- A GL context in which the objects of `sampleMesh` are alive. -/
def sampleContext : GLContext := ⟨4, [3], [2, 1]⟩

/-- A decoded 3 by 2 image with 1 byte per pixel. -/
def sampleImage : SDL_Surface :=
  { pixels := some (fun n => ⟨(n * 50) % 256, Nat.mod_lt _ (by decide)⟩)
    h := 2, w := 3, BytesPerPixel := 1 }

/-- A decoded 2 by 2 image with 2 bytes per pixel. -/
def twoBytesImage : SDL_Surface :=
  { pixels := some (fun _ => 0), h := 2, w := 2, BytesPerPixel := 2 }

/-- A decoded 5 by 7 image with 2 bytes per pixel. -/
def rejectedImage : SDL_Surface :=
  { pixels := some (fun _ => 0), h := 5, w := 7, BytesPerPixel := 2 }

/-- The mesh `sampleMesh` after `Load` rejected `rejectedImage`. -/
def staleMesh : CHeightMap ℚ :=
  { sampleMesh with loaded := false, rows := 5, cols := 7 }

/-- A decoded image of one row of 4 pixels with 1 byte per pixel. -/
def singleRowImage : SDL_Surface :=
  { pixels := some (fun _ => 0), h := 1, w := 4, BytesPerPixel := 1 }

/-- The elevation grid of the 3 by 3 image `[[0,0,0],[0,255,0],[0,0,0]]`. -/
def peakHeights (i j : Int) : ℚ := if i = 1 ∧ j = 1 then 255 / 255 else 0 / 255

/-- A loaded mesh over binary32 with a 2 by 2 vertex grid, 10 wide, 4 high and 10 deep;
its heights are the bytes 0, 255, 255 and 0. -/
def sampleMesh32 : CHeightMap F32 :=
  { loaded := true
    rows := 2
    cols := 2
    VertexData := [[⟨some (-1 / 2), some 0, some (-1 / 2)⟩, ⟨some (1 / 2), some 1, some (-1 / 2)⟩],
                   [⟨some (-1 / 2), some 1, some (1 / 2)⟩, ⟨some (1 / 2), some 0, some (1 / 2)⟩]]
    RenderScale := ⟨some 10, some 4, some 10⟩
    RenderScaleMatrix :=
      ⟨⟨some 10, some 0, some 0, some 0⟩, ⟨some 0, some 4, some 0, some 0⟩,
        ⟨some 0, some 0, some 10, some 0⟩, ⟨some 0, some 0, some 0, some 1⟩⟩
    NormalScaleMatrix :=
      ⟨⟨some 5, some 0, some 0⟩, ⟨some 0, some 2, some 0⟩, ⟨some 0, some 0, some 5⟩⟩
    vao := 3
    HeightMapData := ⟨1, [], true⟩
    HeightMapIndices := ⟨2, [2, 0, 3, 1, 4], true⟩ }

/-- The mesh `sampleMesh32` after `SetSize(0, 4, 10)`: its width is zero. -/
def zeroWidthMesh32 : CHeightMap F32 :=
  { sampleMesh32 with
    RenderScale := ⟨some 0, some 4, some 10⟩
    RenderScaleMatrix :=
      ⟨⟨some 0, some 0, some 0, some 0⟩, ⟨some 0, some 4, some 0, some 0⟩,
        ⟨some 0, some 0, some 10, some 0⟩, ⟨some 0, some 0, some 0, some 1⟩⟩
    NormalScaleMatrix :=
      ⟨⟨some 0, some 0, some 0⟩, ⟨some 0, some 2, some 0⟩, ⟨some 0, some 0, some 5⟩⟩ }

/-- A loaded mesh over binary32 with 2 rows of 4096 vertices, 10 wide, 4 high and 10
deep; the heights of a row alternate between the bytes 0 and 255. -/
def wideMesh32 : CHeightMap F32 :=
  { loaded := true
    rows := 2
    cols := 4096
    VertexData := Grid.ofFn 2 4096 (fun i j =>
      ⟨vertexX32 4096 j, some (if j % 2 = 0 then 0 else 1), vertexZ32 2 i⟩)
    RenderScale := ⟨some 10, some 4, some 10⟩
    RenderScaleMatrix :=
      ⟨⟨some 10, some 0, some 0, some 0⟩, ⟨some 0, some 4, some 0, some 0⟩,
        ⟨some 0, some 0, some 10, some 0⟩, ⟨some 0, some 0, some 0, some 1⟩⟩
    NormalScaleMatrix :=
      ⟨⟨some 5, some 0, some 0⟩, ⟨some 0, some (1 / 1024), some 0⟩, ⟨some 0, some 0, some 5⟩⟩
    vao := 3
    HeightMapData := ⟨1, [], true⟩
    HeightMapIndices := ⟨2, [], true⟩ }

/-! # Theorems -/

/-! ## Loops -/

theorem forLoop_append {α : Type} (f : Int → List α) (n : Int) (s : List α) :
    forLoop n (fun i buf => buf ++ f i) s
      = s ++ (List.range n.toNat).flatMap (fun i => f (i : Int)) := by
  unfold forLoop
  generalize n.toNat = m
  induction m with
  | zero => simp
  | succ m ih => simp [List.range_succ, List.foldl_append, ih]

/-- One strip of the index loop: the two indices of every column, then the restart
index. -/
theorem emitIndices_eq (rows cols : Int) (buf : List Int) :
    emitIndices rows cols buf = buf ++ (List.range (rows - 1).toNat).flatMap (fun i =>
      (List.range cols.toNat).flatMap
          (fun j => [((i : Int) + 1) * cols + (j : Int), (i : Int) * cols + j])
        ++ [rows * cols]) := by
  unfold emitIndices
  have h2 : ∀ (i j : Int) (b : List Int),
      forLoop 2 (fun k buf => buf ++ [(i + (1 - k)) * cols + j]) b
        = b ++ [(i + 1) * cols + j, i * cols + j] := by
    intro i j b
    simp [forLoop, List.range_succ]
  simp only [h2]
  have h3 : ∀ (i : Int) (b : List Int),
      forLoop cols (fun j buf => buf ++ [(i + 1) * cols + j, i * cols + j]) b
        = b ++ (List.range cols.toNat).flatMap
            (fun j => [(i + 1) * cols + (j : Int), i * cols + j]) := by
    intro i b
    exact forLoop_append (fun j => [(i + 1) * cols + j, i * cols + j]) cols b
  simp only [h3, List.append_assoc]
  exact forLoop_append (fun i => (List.range cols.toNat).flatMap
    (fun j => [(i + 1) * cols + (j : Int), i * cols + j]) ++ [rows * cols]) (rows - 1) buf

theorem length_flatMap_block {α : Type} (f : Nat → List α) (L : Nat)
    (hL : ∀ i, (f i).length = L) (n : Nat) : ((List.range n).flatMap f).length = n * L := by
  induction n with
  | zero => simp
  | succ n ih => simp [List.range_succ, ih, hL, Nat.succ_mul]

theorem flatMap_block_get {α : Type} (f : Nat → List α) (L : Nat)
    (hL : ∀ i, (f i).length = L) :
    ∀ (n i p : Nat), i < n → p < L → ((List.range n).flatMap f)[i * L + p]? = (f i)[p]? := by
  intro n
  induction n with
  | zero => intro i p hi; omega
  | succ n ih =>
    intro i p hi hp
    have hlen := length_flatMap_block f L hL n
    rw [List.range_succ, List.flatMap_append]
    by_cases h : i < n
    · have h1 : (i + 1) * L ≤ n * L := Nat.mul_le_mul_right L h
      rw [Nat.succ_mul] at h1
      rw [List.getElem?_append_left (by rw [hlen]; omega)]
      exact ih i p h hp
    · have hi' : i = n := by omega
      subst hi'
      rw [List.getElem?_append_right (by rw [hlen]; omega)]
      simp [hlen]

theorem count_flatMap_block {α : Type} [DecidableEq α] (a : α) (f : Nat → List α) (c : Nat) :
    ∀ n : Nat, (∀ i, i < n → (f i).count a = c) → ((List.range n).flatMap f).count a = n * c := by
  intro n
  induction n with
  | zero => intro _; simp
  | succ n ih =>
    intro h
    rw [List.range_succ, List.flatMap_append, List.count_append, ih (fun i hi => h i (by omega))]
    simp [h n (by omega), Nat.succ_mul]

/-- The strip of row `i`, as emitted by the index loop. -/
theorem strip_length (rows cols : Int) (i : Nat) :
    ((List.range cols.toNat).flatMap
        (fun j => [((i : Int) + 1) * cols + (j : Int), (i : Int) * cols + j])
      ++ [rows * cols]).length = 2 * cols.toNat + 1 := by
  rw [List.length_append, length_flatMap_block
    (fun j : Nat => [((i : Int) + 1) * cols + (j : Int), (i : Int) * cols + j]) 2 (fun _ => rfl)]
  simp; omega

theorem strip_get (rows cols : Int) (i j : Nat) (hj : j < cols.toNat) :
    ((List.range cols.toNat).flatMap
        (fun j => [((i : Int) + 1) * cols + (j : Int), (i : Int) * cols + j])
      ++ [rows * cols])[2 * j]? = some (((i : Int) + 1) * cols + j) ∧
    ((List.range cols.toNat).flatMap
        (fun j => [((i : Int) + 1) * cols + (j : Int), (i : Int) * cols + j])
      ++ [rows * cols])[2 * j + 1]? = some ((i : Int) * cols + j) := by
  have hlen := length_flatMap_block
    (fun j : Nat => [((i : Int) + 1) * cols + (j : Int), (i : Int) * cols + j]) 2 (fun _ => rfl)
    cols.toNat
  constructor
  · rw [List.getElem?_append_left (by rw [hlen]; omega)]
    have := flatMap_block_get
      (fun j : Nat => [((i : Int) + 1) * cols + (j : Int), (i : Int) * cols + j]) 2
      (fun _ => rfl) cols.toNat j 0 hj (by omega)
    rw [show 2 * j = j * 2 + 0 by omega, this]; rfl
  · rw [List.getElem?_append_left (by rw [hlen]; omega)]
    have := flatMap_block_get
      (fun j : Nat => [((i : Int) + 1) * cols + (j : Int), (i : Int) * cols + j]) 2
      (fun _ => rfl) cols.toNat j 1 hj (by omega)
    rw [show 2 * j + 1 = j * 2 + 1 by omega, this]; rfl

theorem strip_get_last (rows cols : Int) (i : Nat) :
    ((List.range cols.toNat).flatMap
        (fun j => [((i : Int) + 1) * cols + (j : Int), (i : Int) * cols + j])
      ++ [rows * cols])[2 * cols.toNat]? = some (rows * cols) := by
  have hlen := length_flatMap_block
    (fun j : Nat => [((i : Int) + 1) * cols + (j : Int), (i : Int) * cols + j]) 2 (fun _ => rfl)
    cols.toNat
  rw [List.getElem?_append_right (by rw [hlen]; omega)]
  simp [hlen, Nat.mul_comm]

/-- Entry `i * (2 * cols + 1) + q` of the emitted sequence is entry `q` of strip `i`. -/
theorem emitIndices_get (rows cols : Int) (i q : Nat) (hi : i < (rows - 1).toNat)
    (hq : q < 2 * cols.toNat + 1) :
    (emitIndices rows cols [])[i * (2 * cols.toNat + 1) + q]? =
      ((List.range cols.toNat).flatMap
        (fun j => [((i : Int) + 1) * cols + (j : Int), (i : Int) * cols + j])
      ++ [rows * cols])[q]? := by
  rw [emitIndices_eq, List.nil_append]
  exact flatMap_block_get _ (2 * cols.toNat + 1) (fun i => strip_length rows cols i)
    (rows - 1).toNat i q hi hq

/-- C1. For `rows ≥ 2` and `cols ≥ 1` the index sequence emitted by `Load` is laid
out row by row: for `i ≤ rows - 2` and `j ≤ cols - 1`, position
`i * (2 * cols + 1) + 2 * j` holds `(i + 1) * cols + j` and the next position holds
`i * cols + j`. -/
theorem emitIndices_layout (rows cols i j : Nat) (hr : 2 ≤ rows) (hc : 1 ≤ cols)
    (hi : i ≤ rows - 2) (hj : j ≤ cols - 1) :
    (emitIndices (rows : Int) (cols : Int) [])[i * (2 * cols + 1) + 2 * j]?
        = some (((i : Int) + 1) * (cols : Int) + (j : Int)) ∧
    (emitIndices (rows : Int) (cols : Int) [])[i * (2 * cols + 1) + 2 * j + 1]?
        = some ((i : Int) * (cols : Int) + (j : Int)) := by
  have hi' : i < ((rows : Int) - 1).toNat := by omega
  have hj' : j < ((cols : Int)).toNat := by simp; omega
  have h0 := emitIndices_get rows cols i (2 * j) hi' (by omega)
  have h1 := emitIndices_get rows cols i (2 * j + 1) hi' (by omega)
  simp only [Int.toNat_ofNat] at h0 h1
  rw [Nat.add_assoc, h0, h1]
  simpa using strip_get rows cols i j hj'

theorem emitIndices_layout_witness :
    (emitIndices ((3 : Nat) : Int) ((2 : Nat) : Int) [])[1 * (2 * 2 + 1) + 2 * 1]?
        = some ((((1 : Nat) : Int) + 1) * ((2 : Nat) : Int) + ((1 : Nat) : Int)) ∧
    (emitIndices ((3 : Nat) : Int) ((2 : Nat) : Int) [])[1 * (2 * 2 + 1) + 2 * 1 + 1]?
        = some (((1 : Nat) : Int) * ((2 : Nat) : Int) + ((1 : Nat) : Int)) :=
  emitIndices_layout 3 2 1 1 (by decide) (by decide) (by decide) (by decide)

theorem emitIndices_length (rows cols : Int) :
    (emitIndices rows cols []).length = (rows - 1).toNat * (2 * cols.toNat + 1) := by
  rw [emitIndices_eq, List.nil_append]
  exact length_flatMap_block _ (2 * cols.toNat + 1) (fun i => strip_length rows cols i) _

/-- A vertex index of strip `i` is below the restart index. -/
theorem strip_index_lt (rows cols i j : Nat) (hi : i + 1 < rows) (hj : j < cols) :
    ((i : Int) + 1) * (cols : Int) + (j : Int) < (rows : Int) * (cols : Int) ∧
    (i : Int) * (cols : Int) + (j : Int) < (rows : Int) * (cols : Int) ∧
    0 ≤ (i : Int) * (cols : Int) + (j : Int) := by
  have h1 : (i + 1) * cols + j < rows * cols := by
    have : (i + 2) * cols ≤ rows * cols := Nat.mul_le_mul_right cols (by omega)
    have e : (i + 2) * cols = (i + 1) * cols + cols := by ring
    omega
  have h2 : i * cols + j ≤ (i + 1) * cols + j := by
    have : i * cols ≤ (i + 1) * cols := Nat.mul_le_mul_right cols (by omega)
    omega
  refine ⟨?_, ?_, ?_⟩
  · exact_mod_cast h1
  · exact_mod_cast (lt_of_le_of_lt h2 h1)
  · positivity

/-- C2. For `rows ≥ 1` and `cols ≥ 1` the number of indices that `Load` appends to the
index buffer is `(rows - 1) * (2 * cols + 1)`, and it equals the count
`(rows - 1) * cols * 2 + (rows - 1)` that `Render` passes to the draw call. -/
theorem emitIndices_count_eq_NumIndices {K : Type} [LinearOrderedField K] [FloorRing K]
    (m : CHeightMap K) (hr : 1 ≤ m.rows) (hc : 1 ≤ m.cols) :
    ((emitIndices m.rows m.cols []).length : Int) = (m.rows - 1) * (2 * m.cols + 1) ∧
    ((emitIndices m.rows m.cols []).length : Int) = (Render m).NumIndices ∧
    (Render m).NumIndices = (m.rows - 1) * m.cols * 2 + (m.rows - 1) := by
  have h : ((emitIndices m.rows m.cols []).length : Int) = (m.rows - 1) * (2 * m.cols + 1) := by
    rw [emitIndices_length]
    push_cast
    rw [Int.toNat_of_nonneg (by omega), Int.toNat_of_nonneg (by omega)]
  refine ⟨h, ?_, ?_⟩
  · rw [h]; simp only [Render]; ring
  · simp only [Render]; ring

/-- C3. For `rows ≥ 2` and `cols ≥ 1` the restart index `rows * cols` occurs `rows - 1`
times in the emitted sequence, at position `(i + 1) * (2 * cols + 1) - 1` for every row
`i ≤ rows - 2`; an entry anywhere else is a vertex index in `[0, rows * cols)`. -/
theorem restart_index_positions (rows cols : Nat) (hr : 2 ≤ rows) (hc : 1 ≤ cols) :
    (emitIndices (rows : Int) (cols : Int) []).count ((rows : Int) * (cols : Int)) = rows - 1 ∧
    (∀ i : Nat, i ≤ rows - 2 →
      (emitIndices (rows : Int) (cols : Int) [])[(i + 1) * (2 * cols + 1) - 1]?
        = some ((rows : Int) * (cols : Int))) ∧
    (∀ (p : Nat) (v : Int), (emitIndices (rows : Int) (cols : Int) [])[p]? = some v →
      (v = (rows : Int) * (cols : Int) ∧ ∃ i : Nat, i ≤ rows - 2 ∧ p = (i + 1) * (2 * cols + 1) - 1)
      ∨ ((∀ i : Nat, p ≠ (i + 1) * (2 * cols + 1) - 1) ∧ 0 ≤ v ∧ v < (rows : Int) * (cols : Int))) := by
  have hrn : ((rows : Int) - 1).toNat = rows - 1 := by omega
  have hcn : ((cols : Int)).toNat = cols := by simp
  refine ⟨?_, ?_, ?_⟩
  · rw [emitIndices_eq, List.nil_append, hrn, hcn]
    rw [count_flatMap_block _ _ 1, Nat.mul_one]
    intro i hi
    rw [List.count_append]
    have hz : List.count ((rows : Int) * (cols : Int)) ((List.range cols).flatMap
        (fun j : Nat => [((i : Int) + 1) * (cols : Int) + (j : Int), (i : Int) * (cols : Int) + j])) = 0 := by
      rw [List.count_eq_zero]
      intro hmem
      rw [List.mem_flatMap] at hmem
      obtain ⟨j, hj, hv⟩ := hmem
      rw [List.mem_range] at hj
      have hb := strip_index_lt rows cols i j (by omega) hj
      simp only [List.mem_cons, List.mem_singleton, List.not_mem_nil, or_false] at hv
      rcases hv with hv | hv
      · rw [hv] at hb; exact absurd hb.1 (lt_irrefl _)
      · rw [hv] at hb; exact absurd hb.2.1 (lt_irrefl _)
    rw [hz]; simp
  · intro i hi
    have h := emitIndices_get rows cols i (2 * cols) (by omega) (by omega)
    rw [hcn] at h
    rw [show (i + 1) * (2 * cols + 1) - 1 = i * (2 * cols + 1) + 2 * cols by
      have : (i + 1) * (2 * cols + 1) = i * (2 * cols + 1) + (2 * cols + 1) := by ring
      omega, h]
    have := strip_get_last rows cols i
    rw [hcn] at this
    exact this
  · intro p v hp
    have hlt : p < (rows - 1) * (2 * cols + 1) := by
      have := emitIndices_length (rows : Int) (cols : Int)
      rw [hrn, hcn] at this
      rw [← this]
      by_contra hge
      rw [List.getElem?_eq_none (by omega)] at hp
      exact absurd hp (by simp)
    have hL : 0 < 2 * cols + 1 := by omega
    have hi : p / (2 * cols + 1) < rows - 1 := by
      rw [Nat.div_lt_iff_lt_mul hL]; exact hlt
    have hq : p % (2 * cols + 1) < 2 * cols + 1 := Nat.mod_lt _ hL
    have hpe : p = p / (2 * cols + 1) * (2 * cols + 1) + p % (2 * cols + 1) := by
      rw [Nat.mul_comm]; exact (Nat.div_add_mod p (2 * cols + 1)).symm
    generalize p / (2 * cols + 1) = i at hi hpe
    generalize p % (2 * cols + 1) = q at hq hpe
    have h := emitIndices_get rows cols i q (by omega) (by omega)
    rw [hcn, ← hpe, hp] at h
    by_cases hlast : q = 2 * cols
    · left
      have := strip_get_last rows cols i
      rw [hcn, ← hlast, ← h] at this
      refine ⟨Option.some.inj this, i, by omega, ?_⟩
      have e1 : (i + 1) * (2 * cols + 1) = i * (2 * cols + 1) + (2 * cols + 1) := by ring
      omega
    · right
      have hb := strip_index_lt rows cols i (q / 2) (by omega) (by omega)
      have hne : ∀ i' : Nat, p ≠ (i' + 1) * (2 * cols + 1) - 1 := by
        intro i' he
        have e1 : (i' + 1) * (2 * cols + 1) - 1 = i' * (2 * cols + 1) + 2 * cols := by
          have : (i' + 1) * (2 * cols + 1) = i' * (2 * cols + 1) + (2 * cols + 1) := by ring
          omega
        rw [e1, hpe] at he
        have hm := congrArg (fun n => n % (2 * cols + 1)) he
        simp only [Nat.mul_add_mod_of_lt hq, Nat.mul_add_mod_of_lt (show 2 * cols < 2 * cols + 1 by omega)] at hm
        exact hlast hm
      refine ⟨hne, ?_⟩
      have hs := strip_get rows cols i (q / 2) (by rw [hcn]; omega)
      rw [hcn] at hs
      rcases Nat.mod_two_eq_zero_or_one q with hpar | hpar
      · have hq2 : q = 2 * (q / 2) := by omega
        rw [hq2, hs.1] at h
        have hv := Option.some.inj h
        rw [hv]
        constructor
        · positivity
        · exact hb.1
      · have hq2 : q = 2 * (q / 2) + 1 := by omega
        rw [hq2, hs.2] at h
        have hv := Option.some.inj h
        rw [hv]
        exact ⟨hb.2.2, hb.2.1⟩

/-! ## The height query -/

theorem fdiv_of_ne {K : Type} [LinearOrderedField K] (a b : K) (h : b ≠ 0) : fdiv a b = some (a / b) := by
  simp [fdiv, h]

theorem fdiv_zero {K : Type} [LinearOrderedField K] (a : K) : fdiv a (0 : K) = none := by
  simp [fdiv]

theorem Grid.at_of_shape {α : Type} (g : Grid α) (rows cols i j : Int) (h : g.Shape rows cols)
    (hi0 : 0 ≤ i) (hi : i < rows) (hj0 : 0 ≤ j) (hj : j < cols) :
    ∃ v, g.at i j = some v := by
  obtain ⟨hlen, hrow⟩ := h
  have hi' : i.toNat < g.length := by omega
  have hmem : g[i.toNat] ∈ g := List.getElem_mem hi'
  have hj' : j.toNat < (g[i.toNat]).length := by
    have := hrow _ hmem
    omega
  refine ⟨(g[i.toNat])[j.toNat], ?_⟩
  simp [Grid.at, hi0, hj0, List.getElem?_eq_getElem hi', List.getElem?_eq_getElem hj']

theorem heightColumn_eq {K : Type} [LinearOrderedField K] [FloorRing K] (m : CHeightMap K) (position : vec3 K) (hx : m.RenderScale.x ≠ 0) :
    heightColumn m position = some (max (min (truncate
      ((position.x + m.RenderScale.x * 0.5) * (m.cols : K) / m.RenderScale.x)) (m.cols - 1)) 0) := by
  simp [heightColumn, fdiv_of_ne _ _ hx]

theorem heightRow_eq {K : Type} [LinearOrderedField K] [FloorRing K] (m : CHeightMap K) (position : vec3 K) (hz : m.RenderScale.z ≠ 0) :
    heightRow m position = some (max (min (truncate
      ((position.z + m.RenderScale.z * 0.5) * (m.rows : K) / m.RenderScale.z)) (m.rows - 1)) 0) := by
  simp [heightRow, fdiv_of_ne _ _ hz]

theorem accumulated_in_range (rows cols i j : Int) (hi0 : 0 ≤ i) (hi : i < rows)
    (hj0 : 0 ≤ j) (hj : j < cols) (a : Nat × Int × Int) (ha : a ∈ accumulated rows cols i j) :
    a.1 < 2 ∧ 0 ≤ a.2.1 ∧ a.2.1 < rows - 1 ∧ 0 ≤ a.2.2 ∧ a.2.2 < cols - 1 := by
  unfold accumulated at ha
  simp only [List.mem_append, List.mem_ite_nil_right, List.mem_map, List.mem_range,
    List.mem_singleton] at ha
  rcases ha with ((⟨h, k, hk, rfl⟩ | ⟨h, rfl⟩) | ⟨h, k, hk, rfl⟩) | ⟨h, rfl⟩ <;>
    (simp only; omega)

theorem accumulated_length (rows cols i j : Int) :
    (accumulated rows cols i j).length =
      (if j ≠ 0 ∧ i ≠ 0 then 2 else 0) + (if i ≠ 0 ∧ j ≠ cols - 1 then 1 else 0) +
      (if i ≠ rows - 1 ∧ j ≠ cols - 1 then 2 else 0) + (if i ≠ rows - 1 ∧ j ≠ 0 then 1 else 0) := by
  unfold accumulated
  simp only [List.length_append]
  congr 1
  · congr 1
    · congr 1
      · split <;> simp
      · split <;> simp
    · split <;> simp
  · split <;> simp

theorem accumulated_length_pos (rows cols i j : Int) (hr : 2 ≤ rows) (hc : 2 ≤ cols) :
    0 < (accumulated rows cols i j).length := by
  rw [accumulated_length]
  split_ifs <;> omega

/-- C7, as amended. For `rows ≥ 2` and `cols ≥ 2` the corner vertices `(0, 0)` and
`(rows - 1, cols - 1)` accumulate exactly 2 face normals in the averaging loop, and the
corner vertices `(0, cols - 1)` and `(rows - 1, 0)` accumulate exactly 1. -/
theorem corner_normal_counts (rows cols : Int) (hr : 2 ≤ rows) (hc : 2 ≤ cols) :
    (accumulated rows cols 0 0).length = 2 ∧
    (accumulated rows cols (rows - 1) (cols - 1)).length = 2 ∧
    (accumulated rows cols 0 (cols - 1)).length = 1 ∧
    (accumulated rows cols (rows - 1) 0).length = 1 := by
  have h1 : rows - 1 ≠ 0 := by omega
  have h2 : cols - 1 ≠ 0 := by omega
  have h3 : (0 : Int) ≠ rows - 1 := by omega
  have h4 : (0 : Int) ≠ cols - 1 := by omega
  refine ⟨?_, ?_, ?_, ?_⟩ <;> rw [accumulated_length] <;> simp [h1, h2, h3, h4]

/-- C7 fails as stated: in the 2 by 2 grid the corner `(0, cols - 1)` accumulates one
face normal, not two. -/
theorem corner_normal_count_counterexample :
    (2 : Int) ≤ 2 ∧ (accumulated 2 2 0 (2 - 1)).length = 1 ∧
      (accumulated 2 2 0 (2 - 1)).length ≠ 2 := by
  decide

/-- C8. For `rows ≥ 3` and `cols ≥ 3`, a vertex on the border of the grid that is not
a corner accumulates exactly 3 face normals in the averaging loop, and an interior
vertex (`0 < i < rows - 1`, `0 < j < cols - 1`) accumulates exactly 6. -/
theorem edge_and_interior_normal_counts (rows cols i j : Int) (hr : 3 ≤ rows) (hc : 3 ≤ cols)
    (hi0 : 0 ≤ i) (hi : i < rows) (hj0 : 0 ≤ j) (hj : j < cols) :
    ((i = 0 ∨ i = rows - 1 ∨ j = 0 ∨ j = cols - 1) →
      ¬ ((i = 0 ∨ i = rows - 1) ∧ (j = 0 ∨ j = cols - 1)) →
      (accumulated rows cols i j).length = 3) ∧
    (0 < i → i < rows - 1 → 0 < j → j < cols - 1 →
      (accumulated rows cols i j).length = 6) := by
  rw [accumulated_length]
  constructor
  · intro hedge hcorner
    split_ifs <;> omega
  · intro a b c d
    have h1 : i ≠ 0 := by omega
    have h2 : j ≠ 0 := by omega
    have h3 : i ≠ rows - 1 := by omega
    have h4 : j ≠ cols - 1 := by omega
    simp [h1, h2, h3, h4]

theorem edge_and_interior_normal_counts_witness :
    (((1 : Int) = 0 ∨ (1 : Int) = 3 - 1 ∨ (0 : Int) = 0 ∨ (0 : Int) = 3 - 1) →
      ¬ (((1 : Int) = 0 ∨ (1 : Int) = 3 - 1) ∧ ((0 : Int) = 0 ∨ (0 : Int) = 3 - 1)) →
      (accumulated 3 3 1 0).length = 3) ∧
    ((0 : Int) < 1 → (1 : Int) < 3 - 1 → (0 : Int) < 0 → (0 : Int) < 3 - 1 →
      (accumulated 3 3 1 0).length = 6) :=
  edge_and_interior_normal_counts 3 3 1 0 (by decide) (by decide) (by decide) (by decide)
    (by decide) (by decide)

/-- C9. For `rows ≥ 2`, `cols ≥ 2` and a vertex `(i, j)` of the grid, the operands
`Normals[k][r][c]` that the quadrant tests add to the normal of the vertex are the
triangles `k` of the quads `(r, c)` of the mesh that have `(i, j)` as a corner, where
triangle 0 of quad `(r, c)` is `(r, c), (r+1, c), (r+1, c+1)` and triangle 1 is
`(r+1, c+1), (r, c+1), (r, c)`; each of them is added once. -/
theorem accumulated_iff_incident (rows cols i j : Int) (_hr : 2 ≤ rows) (_hc : 2 ≤ cols)
    (hi0 : 0 ≤ i) (hi : i < rows) (hj0 : 0 ≤ j) (hj : j < cols) :
    (∀ (k : Nat) (r c : Int), (k, r, c) ∈ accumulated rows cols i j ↔
      (k < 2 ∧ 0 ≤ r ∧ r < rows - 1 ∧ 0 ≤ c ∧ c < cols - 1 ∧ isCorner k r c i j)) ∧
    (accumulated rows cols i j).Nodup ∧
    triangleCorners 0 = (fun r c => ((r, c), (r + 1, c), (r + 1, c + 1))) ∧
    triangleCorners 1 = (fun r c => ((r + 1, c + 1), (r, c + 1), (r, c))) := by
  refine ⟨?_, ?_, ?_, ?_⟩
  · intro k r c
    constructor
    · intro hmem
      have hrange := accumulated_in_range rows cols i j hi0 hi hj0 hj _ hmem
      refine ⟨hrange.1, hrange.2.1, hrange.2.2.1, hrange.2.2.2.1, hrange.2.2.2.2, ?_⟩
      unfold accumulated at hmem
      simp only [List.mem_append, List.mem_ite_nil_right, List.mem_map, List.mem_range,
        List.mem_singleton, Prod.mk.injEq] at hmem
      unfold isCorner triangleCorners
      rcases hmem with ((⟨h, k', hk, rfl, rfl, rfl⟩ | ⟨h, rfl, rfl, rfl⟩) |
        ⟨h, k', hk, rfl, rfl, rfl⟩) | ⟨h, rfl, rfl, rfl⟩
      · by_cases hk0 : k' = 0 <;> simp [hk0]
      · simp
      · by_cases hk0 : k' = 0 <;> simp [hk0]
      · simp
    · rintro ⟨hk, hr0, hr1, hc0, hc1, hcorner⟩
      unfold accumulated
      simp only [List.mem_append, List.mem_ite_nil_right, List.mem_map, List.mem_range,
        List.mem_singleton, Prod.mk.injEq]
      unfold isCorner triangleCorners at hcorner
      have hk' : k = 0 ∨ k = 1 := by omega
      rcases hk' with rfl | rfl
      · simp only [if_true, Prod.mk.injEq] at hcorner
        rcases hcorner with ⟨rfl, rfl⟩ | ⟨rfl, rfl⟩ | ⟨rfl, rfl⟩
        · left; right
          exact ⟨⟨by omega, by omega⟩, 0, by omega, rfl, rfl, rfl⟩
        · left; left; right
          exact ⟨⟨by omega, by omega⟩, rfl, by omega, rfl⟩
        · left; left; left
          exact ⟨⟨by omega, by omega⟩, 0, by omega, rfl, by omega, by omega⟩
      · simp only [one_ne_zero, if_false, Prod.mk.injEq] at hcorner
        rcases hcorner with ⟨rfl, rfl⟩ | ⟨rfl, rfl⟩ | ⟨rfl, rfl⟩
        · left; left; left
          exact ⟨⟨by omega, by omega⟩, 1, by omega, rfl, by omega, by omega⟩
        · right
          exact ⟨⟨by omega, by omega⟩, rfl, rfl, by omega⟩
        · left; right
          exact ⟨⟨by omega, by omega⟩, 1, by omega, rfl, rfl, rfl⟩
  · unfold accumulated
    split_ifs <;> simp [List.range_succ] <;> omega
  · funext r c; simp [triangleCorners]
  · funext r c; simp [triangleCorners]

/-! ## Vectors built by loops -/

theorem allSome_map_some {α β : Type} (f : α → Option β) (g : α → β) :
    ∀ l : List α, (∀ x ∈ l, f x = some (g x)) → allSome (l.map f) = some (l.map g) := by
  intro l
  induction l with
  | nil => intro _; rfl
  | cons a l ih =>
    intro h
    have ha := h a (List.mem_cons_self a l)
    have hl := ih (fun x hx => h x (List.mem_cons_of_mem a hx))
    simp [allSome, ha, hl]

theorem tabulate_eq_some {α : Type} (n : Int) (f : Int → Option α) (g : Int → α)
    (h : ∀ i : Nat, i < n.toNat → f (i : Int) = some (g (i : Int))) :
    tabulate n f = some ((List.range n.toNat).map (fun (i : Nat) => g (i : Int))) := by
  unfold tabulate
  exact allSome_map_some (fun (i : Nat) => f (i : Int)) (fun (i : Nat) => g (i : Int)) _
    (fun i hi => h i (List.mem_range.mp hi))

theorem tabulate2_eq_some {α : Type} (n m : Int) (f : Int → Int → Option α)
    (g : Int → Int → α)
    (h : ∀ i j : Nat, i < n.toNat → j < m.toNat → f (i : Int) (j : Int) = some (g i j)) :
    tabulate2 n m f = some (Grid.ofFn n m g) := by
  unfold tabulate2 Grid.ofFn
  exact tabulate_eq_some n _ (fun i => (List.range m.toNat).map (fun (j : Nat) => g i (j : Int)))
    (fun i hi => tabulate_eq_some m _ (fun j => g i j) (fun j hj => h i j hi hj))

theorem Grid.ofFn_at {α : Type} (n m : Int) (g : Int → Int → α) (i j : Int)
    (hi0 : 0 ≤ i) (hi : i < n) (hj0 : 0 ≤ j) (hj : j < m) :
    (Grid.ofFn n m g).at i j = some (g i j) := by
  have hi' : i.toNat < n.toNat := by omega
  have hj' : j.toNat < m.toNat := by omega
  simp [Grid.at, Grid.ofFn, hi0, hj0, hi', hj', List.getElem?_range,
    Int.toNat_of_nonneg hi0, Int.toNat_of_nonneg hj0]

theorem Grid.ofFn_map {α β : Type} (n m : Int) (g : Int → Int → α) (φ : α → β) :
    (Grid.ofFn n m g).map (fun r => r.map φ) = Grid.ofFn n m (fun i j => φ (g i j)) := by
  simp [Grid.ofFn, Function.comp_def]

theorem Grid.ofFn_shape {α : Type} (n m : Int) (g : Int → Int → α) (hn : 0 ≤ n) (hm : 0 ≤ m) :
    (Grid.ofFn n m g).Shape n m := by
  constructor
  · simp [Grid.ofFn, Int.toNat_of_nonneg hn]
  · intro r hr
    simp only [Grid.ofFn, List.mem_map] at hr
    obtain ⟨i, _, rfl⟩ := hr
    simp [Int.toNat_of_nonneg hm]

/-! ## Normals of a flat grid -/

theorem vec3.sub_def {K : Type} [LinearOrderedField K] (a b : vec3 K) : a - b = ⟨a.x - b.x, a.y - b.y, a.z - b.z⟩ := rfl

theorem vec3.add_def {K : Type} [LinearOrderedField K] (a b : vec3 K) : a + b = ⟨a.x + b.x, a.y + b.y, a.z + b.z⟩ := rfl

theorem vec3.zero_def {K : Type} [LinearOrderedField K] : (0 : vec3 K) = ⟨0, 0, 0⟩ := rfl

/-- Normalizing a positive multiple of the Y axis gives the Y axis. -/
theorem normalize_axis {K : Type} [LinearOrderedField K] (sqrt : K → K) (hsqrt : ∀ x : K, 0 ≤ x → sqrt (x * x) = x)
    (c : K) (hc : 0 < c) : glm.normalize sqrt (⟨0, c, 0⟩ : vec3 K) = some ⟨0, 1, 0⟩ := by
  have hd : dot (⟨0, c, 0⟩ : vec3 K) ⟨0, c, 0⟩ = c * c := by simp [dot]
  have hne : c ≠ 0 := ne_of_gt hc
  simp [glm.normalize, hd, hsqrt c (le_of_lt hc), fdiv_of_ne _ _ hne, vec3.scale, hne]

theorem sampleGrids_eq {K : Type} [LinearOrderedField K] (rows cols : Int) (height : Int → Int → K) (hr : 2 ≤ rows)
    (hc : 2 ≤ cols) :
    sampleGrids rows cols height = some
      (Grid.ofFn rows cols (fun i j =>
          (⟨-0.5 + (j : K) / ((cols - 1 : Int) : K), height i j,
            -0.5 + (i : K) / ((rows - 1 : Int) : K)⟩ : vec3 K)),
       Grid.ofFn rows cols (fun i j =>
          (⟨(cols : K) * 0.1 * ((j : K) / ((cols - 1 : Int) : K)),
            (rows : K) * 0.1 * ((i : K) / ((rows - 1 : Int) : K))⟩ : vec2 K))) := by
  have hcK : ((cols - 1 : Int) : K) ≠ 0 := by
    exact_mod_cast (by omega : cols - 1 ≠ 0)
  have hrK : ((rows - 1 : Int) : K) ≠ 0 := by
    exact_mod_cast (by omega : rows - 1 ≠ 0)
  unfold sampleGrids
  rw [tabulate2_eq_some rows cols (sampleCell rows cols height) (fun i j =>
      ((⟨-0.5 + (j : K) / ((cols - 1 : Int) : K), height i j,
            -0.5 + (i : K) / ((rows - 1 : Int) : K)⟩ : vec3 K),
       (⟨(cols : K) * 0.1 * ((j : K) / ((cols - 1 : Int) : K)),
            (rows : K) * 0.1 * ((i : K) / ((rows - 1 : Int) : K))⟩ : vec2 K)))]
  · simp only [Option.map_some', Grid.ofFn_map]
  · intro i j _ _
    unfold sampleCell
    rw [fdiv_of_ne _ _ hcK, fdiv_of_ne _ _ hrK]
    rfl

/-- An image whose bytes are all `b` gives the flat elevation grid of height `b / 255`. -/
theorem VertexHeight_const {K : Type} [LinearOrderedField K] (b : Fin 256)
    (ptr_inc row_step : Nat) :
    (VertexHeight (fun _ => b) ptr_inc row_step : Int → Int → K)
      = fun _ _ => ((b.val : K) / 255) := rfl

theorem readTriangle_ofFn {K : Type} (rows cols : Int) (P : Int → Int → vec3 K) (k : Nat) (i j : Int)
    (hi0 : 0 ≤ i) (hi : i < rows - 1) (hj0 : 0 ≤ j) (hj : j < cols - 1) :
    readTriangle (Grid.ofFn rows cols P) k i j = some
      (P (triangleCorners k i j).1.1 (triangleCorners k i j).1.2,
       P (triangleCorners k i j).2.1.1 (triangleCorners k i j).2.1.2,
       P (triangleCorners k i j).2.2.1 (triangleCorners k i j).2.2.2) := by
  unfold readTriangle
  by_cases hk : k = 0
  · simp only [triangleCorners, hk, if_true]
    rw [Grid.ofFn_at _ _ _ _ _ hi0 (by omega) hj0 (by omega),
      Grid.ofFn_at _ _ _ _ _ (by omega) (by omega) hj0 (by omega),
      Grid.ofFn_at _ _ _ _ _ (by omega) (by omega) (by omega) (by omega)]
    rfl
  · simp only [triangleCorners, hk, if_false]
    rw [Grid.ofFn_at _ _ _ _ _ (by omega) (by omega) (by omega) (by omega),
      Grid.ofFn_at _ _ _ _ _ hi0 (by omega) (by omega) (by omega),
      Grid.ofFn_at _ _ _ _ _ hi0 (by omega) hj0 (by omega)]
    rfl

theorem faceNormals_flat {K : Type} [LinearOrderedField K] (sqrt : K → K) (hsqrt : ∀ x : K, 0 ≤ x → sqrt (x * x) = x)
    (rows cols : Int) (h : K) (i j : Int)
    (hi0 : 0 ≤ i) (hi : i < rows - 1) (hj0 : 0 ≤ j) (hj : j < cols - 1) :
    faceNormals sqrt (Grid.ofFn rows cols (fun i j =>
          (⟨-0.5 + (j : K) / ((cols - 1 : Int) : K), h,
            -0.5 + (i : K) / ((rows - 1 : Int) : K)⟩ : vec3 K))) i j
      = some (⟨0, 1, 0⟩, ⟨0, 1, 0⟩) := by
  have hcK : (0 : K) < ((cols - 1 : Int) : K) := by
    exact_mod_cast (by omega : 0 < cols - 1)
  have hrK : (0 : K) < ((rows - 1 : Int) : K) := by
    exact_mod_cast (by omega : 0 < rows - 1)
  have hpos : (0 : K) < 1 / (((rows - 1 : Int) : K) * ((cols - 1 : Int) : K)) := by
    positivity
  unfold faceNormals
  rw [readTriangle_ofFn rows cols _ 0 i j hi0 hi hj0 hj,
    readTriangle_ofFn rows cols _ 1 i j hi0 hi hj0 hj]
  have e0 : ∀ (x0 x1 z0 z1 : K), cross ((⟨x0, h, z0⟩ : vec3 K) - ⟨x0, h, z1⟩)
      ((⟨x0, h, z1⟩ : vec3 K) - ⟨x1, h, z1⟩) = ⟨0, (z0 - z1) * (x0 - x1), 0⟩ := by
    intro x0 x1 z0 z1
    simp [cross, vec3.sub_def]
  have e1 : ∀ (x0 x1 z0 z1 : K), cross ((⟨x1, h, z1⟩ : vec3 K) - ⟨x1, h, z0⟩)
      ((⟨x1, h, z0⟩ : vec3 K) - ⟨x0, h, z0⟩) = ⟨0, (z1 - z0) * (x1 - x0), 0⟩ := by
    intro x0 x1 z0 z1
    simp [cross, vec3.sub_def]
  have hi1 : ((i + 1 : Int) : K) = (i : K) + 1 := by push_cast; ring
  have hj1 : ((j + 1 : Int) : K) = (j : K) + 1 := by push_cast; ring
  have ec : ∀ R C : K, R ≠ 0 → C ≠ 0 →
      (-0.5 + (i : K) / R - (-0.5 + ((i : K) + 1) / R))
        * (-0.5 + (j : K) / C - (-0.5 + ((j : K) + 1) / C)) = 1 / (R * C) := by
    intro R C hR hC
    field_simp
  have ec' : ∀ R C : K, R ≠ 0 → C ≠ 0 →
      (-0.5 + ((i : K) + 1) / R - (-0.5 + (i : K) / R))
        * (-0.5 + ((j : K) + 1) / C - (-0.5 + (j : K) / C)) = 1 / (R * C) := by
    intro R C hR hC
    field_simp
  simp only [triangleCorners, if_true, one_ne_zero, if_false, Option.bind_eq_bind,
    Option.some_bind]
  rw [e0, e1, hi1, hj1, ec _ _ (ne_of_gt hrK) (ne_of_gt hcK),
    ec' _ _ (ne_of_gt hrK) (ne_of_gt hcK), normalize_axis sqrt hsqrt _ hpos]
  rfl

theorem foldl_add_axis {K : Type} [LinearOrderedField K] :
    ∀ (l : List (vec3 K)) (a : K), (∀ n ∈ l, n = (⟨0, 1, 0⟩ : vec3 K)) →
      l.foldl (fun acc n => acc + n) (⟨0, a, 0⟩ : vec3 K) = ⟨0, a + (l.length : K), 0⟩ := by
  intro l
  induction l with
  | nil => intro a _; simp
  | cons n l ih =>
    intro a h
    have hn := h n (List.mem_cons_self n l)
    rw [List.foldl_cons, hn, vec3.add_def]
    simp only [add_zero]
    rw [ih (a + 1) (fun x hx => h x (List.mem_cons_of_mem n hx))]
    simp only [List.length_cons]
    push_cast
    congr 1
    ring

theorem normalAt_pair {K : Type} (g : Grid (vec3 K × vec3 K)) (k : Nat) (r c : Int) (hk : k < 2) :
    normalAt [g.map (fun row => row.map Prod.fst), g.map (fun row => row.map Prod.snd)] (k, r, c)
      = (g.at r c).map (fun p => if k = 0 then p.1 else p.2) := by
  have hk' : k = 0 ∨ k = 1 := by omega
  rcases hk' with rfl | rfl
  · simp only [normalAt, List.getElem?_cons_zero, Option.some_bind, if_true]
    unfold Grid.at
    split
    · cases h1 : g[r.toNat]? with
      | none => simp [h1]
      | some row => cases h2 : row[c.toNat]? <;> simp [h1, h2]
    · rfl
  · simp only [normalAt, List.getElem?_cons_succ, List.getElem?_cons_zero, Option.some_bind,
      one_ne_zero, if_false]
    unfold Grid.at
    split
    · cases h1 : g[r.toNat]? with
      | none => simp [h1]
      | some row => cases h2 : row[c.toNat]? <;> simp [h1, h2]
    · rfl

/-- C6. For `rows ≥ 2`, `cols ≥ 2` and a flat elevation grid (every sample equal to
the same value `h`), the loops of `Load` yield the face normal `(0, 1, 0)` for both
triangles of every quad and the final normal `(0, 1, 0)` for every vertex, in exact
arithmetic with a square root for which `sqrt (x * x) = x` when `0 ≤ x`. -/
theorem flat_grid_normals {K : Type} [LinearOrderedField K] (sqrt : K → K)
    (hsqrt : ∀ x : K, 0 ≤ x → sqrt (x * x) = x) (rows cols : Int)
    (hr : 2 ≤ rows) (hc : 2 ≤ cols) (h : K) :
    ∃ (VertexData : Grid (vec3 K)) (CoordsData : Grid (vec2 K))
      (Normals : List (Grid (vec3 K))) (FinalNormals : Grid (vec3 K)),
      sampleGrids rows cols (fun _ _ => h) = some (VertexData, CoordsData) ∧
      buildNormals sqrt rows cols VertexData = some Normals ∧
      buildFinalNormals sqrt rows cols Normals = some FinalNormals ∧
      (∀ (k : Nat) (r c : Int), k < 2 → 0 ≤ r → r < rows - 1 → 0 ≤ c → c < cols - 1 →
        normalAt Normals (k, r, c) = some ⟨0, 1, 0⟩) ∧
      (∀ i j : Int, 0 ≤ i → i < rows → 0 ≤ j → j < cols →
        FinalNormals.at i j = some ⟨0, 1, 0⟩) := by
  have hN : buildNormals sqrt rows cols (Grid.ofFn rows cols (fun i j =>
          (⟨-0.5 + (j : K) / ((cols - 1 : Int) : K), h,
            -0.5 + (i : K) / ((rows - 1 : Int) : K)⟩ : vec3 K)))
      = some [(Grid.ofFn (rows - 1) (cols - 1)
            (fun _ _ => ((⟨0, 1, 0⟩ : vec3 K), (⟨0, 1, 0⟩ : vec3 K)))).map
              (fun row => row.map Prod.fst),
          (Grid.ofFn (rows - 1) (cols - 1)
            (fun _ _ => ((⟨0, 1, 0⟩ : vec3 K), (⟨0, 1, 0⟩ : vec3 K)))).map
              (fun row => row.map Prod.snd)] := by
    unfold buildNormals
    rw [tabulate2_eq_some (rows - 1) (cols - 1) _
      (fun _ _ => ((⟨0, 1, 0⟩ : vec3 K), (⟨0, 1, 0⟩ : vec3 K)))]
    · rfl
    · intro i j hi hj
      exact faceNormals_flat sqrt hsqrt rows cols h i j (by omega) (by omega) (by omega)
        (by omega)
  have hAt : ∀ (k : Nat) (r c : Int), k < 2 → 0 ≤ r → r < rows - 1 → 0 ≤ c → c < cols - 1 →
      normalAt [(Grid.ofFn (rows - 1) (cols - 1)
            (fun _ _ => ((⟨0, 1, 0⟩ : vec3 K), (⟨0, 1, 0⟩ : vec3 K)))).map
              (fun row => row.map Prod.fst),
          (Grid.ofFn (rows - 1) (cols - 1)
            (fun _ _ => ((⟨0, 1, 0⟩ : vec3 K), (⟨0, 1, 0⟩ : vec3 K)))).map
              (fun row => row.map Prod.snd)] (k, r, c) = some ⟨0, 1, 0⟩ := by
    intro k r c hk hr0 hr1 hc0 hc1
    rw [normalAt_pair _ k r c hk, Grid.ofFn_at _ _ _ _ _ hr0 hr1 hc0 hc1]
    simp
  have hF : ∀ i j : Int, 0 ≤ i → i < rows → 0 ≤ j → j < cols →
      finalNormal sqrt [(Grid.ofFn (rows - 1) (cols - 1)
            (fun _ _ => ((⟨0, 1, 0⟩ : vec3 K), (⟨0, 1, 0⟩ : vec3 K)))).map
              (fun row => row.map Prod.fst),
          (Grid.ofFn (rows - 1) (cols - 1)
            (fun _ _ => ((⟨0, 1, 0⟩ : vec3 K), (⟨0, 1, 0⟩ : vec3 K)))).map
              (fun row => row.map Prod.snd)] rows cols i j = some ⟨0, 1, 0⟩ := by
    intro i j hi0 hi hj0 hj
    unfold finalNormal normalSum
    rw [allSome_map_some _ (fun _ => (⟨0, 1, 0⟩ : vec3 K)) (accumulated rows cols i j)
      (fun a ha => by
        have hin := accumulated_in_range rows cols i j hi0 hi hj0 hj a ha
        exact hAt a.1 a.2.1 a.2.2 hin.1 hin.2.1 hin.2.2.1 hin.2.2.2.1 hin.2.2.2.2)]
    simp only [Option.map_some', Option.some_bind, vec3.zero_def]
    rw [foldl_add_axis _ 0 (fun n hn => by
      obtain ⟨_, _, rfl⟩ := List.mem_map.mp hn
      rfl)]
    apply normalize_axis sqrt hsqrt
    have hlen := accumulated_length_pos rows cols i j hr hc
    simp only [List.length_map, zero_add]
    exact_mod_cast hlen
  refine ⟨_, _, _, Grid.ofFn rows cols (fun _ _ => (⟨0, 1, 0⟩ : vec3 K)),
    sampleGrids_eq rows cols (fun _ _ => h) hr hc, hN, ?_, hAt, ?_⟩
  · unfold buildFinalNormals
    exact tabulate2_eq_some rows cols _ _
      (fun i j hi hj => hF i j (by omega) (by omega) (by omega) (by omega))
  · intro i j hi0 hi hj0 hj
    exact Grid.ofFn_at _ _ _ _ _ hi0 hi hj0 hj

theorem flat_grid_normals_witness :
    ∃ (VertexData : Grid (vec3 ℚ)) (CoordsData : Grid (vec2 ℚ))
      (Normals : List (Grid (vec3 ℚ))) (FinalNormals : Grid (vec3 ℚ)),
      sampleGrids 2 2 (fun _ _ => (1 / 2 : ℚ)) = some (VertexData, CoordsData) ∧
      buildNormals Rat.sqrt 2 2 VertexData = some Normals ∧
      buildFinalNormals Rat.sqrt 2 2 Normals = some FinalNormals ∧
      (∀ (k : Nat) (r c : Int), k < 2 → 0 ≤ r → r < 2 - 1 → 0 ≤ c → c < 2 - 1 →
        normalAt Normals (k, r, c) = some ⟨0, 1, 0⟩) ∧
      (∀ i j : Int, 0 ≤ i → i < 2 → 0 ≤ j → j < 2 →
        FinalNormals.at i j = some ⟨0, 1, 0⟩) :=
  flat_grid_normals Rat.sqrt (fun x hx => by rw [Rat.sqrt_eq, abs_of_nonneg hx]) 2 2
    (by decide) (by decide) (1 / 2)

/-! ## The format test of `Load` -/

theorem formatRejected_iff (s : SDL_Surface) :
    formatRejected s = true ↔
      (s.pixels = none ∨ s.h = 0 ∨ s.w = 0 ∨
        (s.BytesPerPixel ≠ 1 ∧ s.BytesPerPixel ≠ 3 ∧ s.BytesPerPixel ≠ 4)) := by
  unfold formatRejected
  simp only [Bool.or_eq_true, Bool.and_eq_true, Option.isNone_iff_eq_none, beq_iff_eq,
    bne_iff_ne, ne_eq]
  tauto

/-- The state in which `Load` reaches the image: a loaded mesh is marked as not loaded,
and nothing else changes. -/
theorem Load_prologue {K : Type} [LinearOrderedField K] (m : CHeightMap K) (gl : GLContext) :
    (if m.loaded then Release { m with loaded := false } gl else (m, gl))
      = ({ m with loaded := false }, gl) := by
  cases h : m.loaded
  · simp only [Bool.false_eq_true, if_false]
    cases m
    simp_all
  · simp [Release]

/-- `Load` returns `false` on a rejected image, and leaves grid, buffers, vertex array
and GL context as they were. -/
theorem Load_of_rejected {K : Type} [LinearOrderedField K] (sqrt : K → K) (m : CHeightMap K)
    (gl : GLContext) (s : SDL_Surface) (h : formatRejected s = true) :
    Load sqrt m gl (some s)
      = some (false, { m with loaded := false, rows := s.h, cols := s.w }, gl) := by
  unfold Load
  rw [Load_prologue]
  simp [h]

/-- `Load` does not return `false` on an image that passes the format test. -/
theorem Load_of_accepted {K : Type} [LinearOrderedField K] (sqrt : K → K) (m : CHeightMap K)
    (gl : GLContext) (s : SDL_Surface) (h : formatRejected s = false)
    (r : Bool × CHeightMap K × GLContext) (hr : Load sqrt m gl (some s) = some r) :
    r.1 = true ∧ r.2.1.loaded = true := by
  unfold Load at hr
  rw [Load_prologue] at hr
  simp only [h, Bool.false_eq_true, if_false] at hr
  have hp : s.pixels ≠ none := by
    intro hn
    have := (formatRejected_iff s).mpr (Or.inl hn)
    rw [h] at this
    exact absurd this (by decide)
  cases hpix : s.pixels with
  | none => exact absurd hpix hp
  | some DataPtr =>
    simp only [hpix, Option.bind_eq_bind, Option.bind_eq_some, Option.pure_def,
      Option.some.injEq] at hr
    obtain ⟨a, _, b, _, c, _, d, _, rfl⟩ := hr
    exact ⟨rfl, rfl⟩

/-! ## `Load` on a well-formed image -/

theorem tabulate2_defined {α : Type} (n m : Int) (f : Int → Int → Option α) (d : α)
    (h : ∀ i j : Nat, i < n.toNat → j < m.toNat → (f (i : Int) (j : Int)).isSome = true) :
    tabulate2 n m f = some (Grid.ofFn n m (fun i j => (f i j).getD d)) := by
  apply tabulate2_eq_some
  intro i j hi hj
  obtain ⟨v, hv⟩ := Option.isSome_iff_exists.mp (h i j hi hj)
  simp [hv]

theorem Grid.ofFn_getD_at {α : Type} (n m : Int) (f : Int → Int → Option α) (d : α)
    (i j : Int) (hi0 : 0 ≤ i) (hi : i < n) (hj0 : 0 ≤ j) (hj : j < m)
    (h : (f i j).isSome = true) :
    (Grid.ofFn n m (fun i j => (f i j).getD d)).at i j = f i j := by
  rw [Grid.ofFn_at _ _ _ _ _ hi0 hi hj0 hj]
  obtain ⟨v, hv⟩ := Option.isSome_iff_exists.mp h
  simp [hv]

/-- A vector with positive Y has a normalized value, also with positive Y. -/
theorem normalize_pos_y {K : Type} [LinearOrderedField K] (sqrt : K → K)
    (hsqrt : ∀ x : K, 0 < x → 0 < sqrt x) (v : vec3 K) (hv : 0 < v.y) :
    ∃ n : vec3 K, glm.normalize sqrt v = some n ∧ 0 < n.y := by
  have hd : 0 < dot v v := by
    unfold dot
    have h1 : 0 ≤ v.x * v.x := mul_self_nonneg _
    have h2 : 0 < v.y * v.y := mul_pos hv hv
    have h3 : 0 ≤ v.z * v.z := mul_self_nonneg _
    linarith
  have hs := hsqrt _ hd
  refine ⟨v.scale (1 / sqrt (dot v v)), ?_, ?_⟩
  · simp [glm.normalize, fdiv_of_ne _ _ (ne_of_gt hs)]
  · simp only [vec3.scale]
    positivity

/-- Both face normals of a quad are defined and point upwards, whatever the heights. -/
theorem faceNormals_defined {K : Type} [LinearOrderedField K] (sqrt : K → K)
    (hsqrt : ∀ x : K, 0 < x → 0 < sqrt x) (rows cols : Int) (height : Int → Int → K)
    (i j : Int) (hi0 : 0 ≤ i) (hi : i < rows - 1) (hj0 : 0 ≤ j) (hj : j < cols - 1) :
    ∃ n0 n1 : vec3 K,
      faceNormals sqrt (Grid.ofFn rows cols (fun i j =>
          (⟨-0.5 + (j : K) / ((cols - 1 : Int) : K), height i j,
            -0.5 + (i : K) / ((rows - 1 : Int) : K)⟩ : vec3 K))) i j = some (n0, n1) ∧
      0 < n0.y ∧ 0 < n1.y := by
  have hcK : (0 : K) < ((cols - 1 : Int) : K) := by
    exact_mod_cast (by omega : 0 < cols - 1)
  have hrK : (0 : K) < ((rows - 1 : Int) : K) := by
    exact_mod_cast (by omega : 0 < rows - 1)
  have hpos : (0 : K) < 1 / (((rows - 1 : Int) : K) * ((cols - 1 : Int) : K)) := by
    positivity
  have hi1 : ((i + 1 : Int) : K) = (i : K) + 1 := by push_cast; ring
  have hj1 : ((j + 1 : Int) : K) = (j : K) + 1 := by push_cast; ring
  have ec : ∀ R C : K, R ≠ 0 → C ≠ 0 →
      (-0.5 + (i : K) / R - (-0.5 + ((i : K) + 1) / R))
        * (-0.5 + (j : K) / C - (-0.5 + ((j : K) + 1) / C)) = 1 / (R * C) := by
    intro R C hR hC
    field_simp
  have ec' : ∀ R C : K, R ≠ 0 → C ≠ 0 →
      (-0.5 + ((i : K) + 1) / R - (-0.5 + (i : K) / R))
        * (-0.5 + ((j : K) + 1) / C - (-0.5 + (j : K) / C)) = 1 / (R * C) := by
    intro R C hR hC
    field_simp
  have t0 : ∀ (x0 x1 z0 z1 a b c : K), 0 < (z0 - z1) * (x0 - x1) →
      ∃ n : vec3 K, glm.normalize sqrt (cross ((⟨x0, a, z0⟩ : vec3 K) - ⟨x0, b, z1⟩)
        ((⟨x0, b, z1⟩ : vec3 K) - ⟨x1, c, z1⟩)) = some n ∧ 0 < n.y := by
    intro x0 x1 z0 z1 a b c hp
    apply normalize_pos_y sqrt hsqrt
    simpa [cross, vec3.sub_def] using hp
  have t1 : ∀ (x0 x1 z0 z1 a b c : K), 0 < (z1 - z0) * (x1 - x0) →
      ∃ n : vec3 K, glm.normalize sqrt (cross ((⟨x1, a, z1⟩ : vec3 K) - ⟨x1, b, z0⟩)
        ((⟨x1, b, z0⟩ : vec3 K) - ⟨x0, c, z0⟩)) = some n ∧ 0 < n.y := by
    intro x0 x1 z0 z1 a b c hp
    apply normalize_pos_y sqrt hsqrt
    simpa [cross, vec3.sub_def] using hp
  have p0 : 0 < (-0.5 + (i : K) / ((rows - 1 : Int) : K)
        - (-0.5 + ((i + 1 : Int) : K) / ((rows - 1 : Int) : K)))
      * (-0.5 + (j : K) / ((cols - 1 : Int) : K)
        - (-0.5 + ((j + 1 : Int) : K) / ((cols - 1 : Int) : K))) := by
    rw [hi1, hj1, ec _ _ (ne_of_gt hrK) (ne_of_gt hcK)]; exact hpos
  have p1 : 0 < (-0.5 + ((i + 1 : Int) : K) / ((rows - 1 : Int) : K)
        - (-0.5 + (i : K) / ((rows - 1 : Int) : K)))
      * (-0.5 + ((j + 1 : Int) : K) / ((cols - 1 : Int) : K)
        - (-0.5 + (j : K) / ((cols - 1 : Int) : K))) := by
    rw [hi1, hj1, ec' _ _ (ne_of_gt hrK) (ne_of_gt hcK)]; exact hpos
  unfold faceNormals
  rw [readTriangle_ofFn rows cols _ 0 i j hi0 hi hj0 hj,
    readTriangle_ofFn rows cols _ 1 i j hi0 hi hj0 hj]
  simp only [triangleCorners, if_true, one_ne_zero, if_false, Option.bind_eq_bind,
    Option.some_bind]
  obtain ⟨n0, hn0, hy0⟩ := t0 _ _ _ _ (height i j) (height (i + 1) j)
    (height (i + 1) (j + 1)) p0
  obtain ⟨n1, hn1, hy1⟩ := t1 _ _ _ _ (height (i + 1) (j + 1)) (height i (j + 1))
    (height i j) p1
  refine ⟨n0, n1, ?_, hy0, hy1⟩
  rw [hn0, hn1]
  rfl

theorem buildNormals_defined {K : Type} [LinearOrderedField K] (sqrt : K → K)
    (hsqrt : ∀ x : K, 0 < x → 0 < sqrt x) (rows cols : Int) (height : Int → Int → K) :
    ∃ Normals : List (Grid (vec3 K)),
      buildNormals sqrt rows cols (Grid.ofFn rows cols (fun i j =>
          (⟨-0.5 + (j : K) / ((cols - 1 : Int) : K), height i j,
            -0.5 + (i : K) / ((rows - 1 : Int) : K)⟩ : vec3 K))) = some Normals ∧
      ∀ (k : Nat) (r c : Int), k < 2 → 0 ≤ r → r < rows - 1 → 0 ≤ c → c < cols - 1 →
        ∃ n : vec3 K, normalAt Normals (k, r, c) = some n ∧ 0 < n.y := by
  have hdef : ∀ i j : Int, 0 ≤ i → i < rows - 1 → 0 ≤ j → j < cols - 1 →
      (faceNormals sqrt (Grid.ofFn rows cols (fun i j =>
          (⟨-0.5 + (j : K) / ((cols - 1 : Int) : K), height i j,
            -0.5 + (i : K) / ((rows - 1 : Int) : K)⟩ : vec3 K))) i j).isSome = true := by
    intro i j hi0 hi hj0 hj
    obtain ⟨n0, n1, h, _⟩ := faceNormals_defined sqrt hsqrt rows cols height i j hi0 hi hj0 hj
    rw [h]
    rfl
  refine ⟨[(Grid.ofFn (rows - 1) (cols - 1) (fun i j =>
      (faceNormals sqrt (Grid.ofFn rows cols (fun i j =>
          (⟨-0.5 + (j : K) / ((cols - 1 : Int) : K), height i j,
            -0.5 + (i : K) / ((rows - 1 : Int) : K)⟩ : vec3 K))) i j).getD
        ((0 : vec3 K), (0 : vec3 K)))).map (fun row => row.map Prod.fst),
    (Grid.ofFn (rows - 1) (cols - 1) (fun i j =>
      (faceNormals sqrt (Grid.ofFn rows cols (fun i j =>
          (⟨-0.5 + (j : K) / ((cols - 1 : Int) : K), height i j,
            -0.5 + (i : K) / ((rows - 1 : Int) : K)⟩ : vec3 K))) i j).getD
        ((0 : vec3 K), (0 : vec3 K)))).map (fun row => row.map Prod.snd)], ?_, ?_⟩
  · unfold buildNormals
    rw [tabulate2_defined (rows - 1) (cols - 1) _ ((0 : vec3 K), (0 : vec3 K))
      (fun i j hi hj => hdef i j (by omega) (by omega) (by omega) (by omega))]
    rfl
  · intro k r c hk hr0 hr1 hc0 hc1
    rw [normalAt_pair _ k r c hk,
      Grid.ofFn_getD_at _ _ _ _ r c hr0 hr1 hc0 hc1 (hdef r c hr0 hr1 hc0 hc1)]
    obtain ⟨n0, n1, h, h0, h1⟩ :=
      faceNormals_defined sqrt hsqrt rows cols height r c hr0 hr1 hc0 hc1
    rw [h]
    by_cases hk0 : k = 0
    · exact ⟨n0, by simp [hk0], h0⟩
    · exact ⟨n1, by simp [hk0], h1⟩

theorem foldl_add_y {K : Type} [LinearOrderedField K] :
    ∀ (l : List (vec3 K)) (acc : vec3 K),
      (l.foldl (fun a n => a + n) acc).y = acc.y + (l.map (fun n => n.y)).sum := by
  intro l
  induction l with
  | nil => intro acc; simp
  | cons n l ih =>
    intro acc
    rw [List.foldl_cons, ih, vec3.add_def]
    simp only [List.map_cons, List.sum_cons]
    ring

theorem sum_pos_of_pos {K : Type} [LinearOrderedField K] :
    ∀ l : List K, (∀ x ∈ l, 0 < x) → l ≠ [] → 0 < l.sum := by
  intro l
  induction l with
  | nil => intro _ h; exact absurd rfl h
  | cons a l ih =>
    intro h _
    have ha := h a (List.mem_cons_self a l)
    rw [List.sum_cons]
    by_cases hl : l = []
    · subst hl; simpa using ha
    · have := ih (fun x hx => h x (List.mem_cons_of_mem a hx)) hl
      linarith

/-- The sum of the face normals of a vertex has positive Y, so it has a normalized
value. -/
theorem finalNormal_defined {K : Type} [LinearOrderedField K] (sqrt : K → K)
    (hsqrt : ∀ x : K, 0 < x → 0 < sqrt x) (rows cols : Int) (hr : 2 ≤ rows) (hc : 2 ≤ cols)
    (Normals : List (Grid (vec3 K)))
    (hN : ∀ (k : Nat) (r c : Int), k < 2 → 0 ≤ r → r < rows - 1 → 0 ≤ c → c < cols - 1 →
        ∃ n : vec3 K, normalAt Normals (k, r, c) = some n ∧ 0 < n.y)
    (i j : Int) (hi0 : 0 ≤ i) (hi : i < rows) (hj0 : 0 ≤ j) (hj : j < cols) :
    ∃ (s n : vec3 K), normalSum Normals rows cols i j = some s ∧ 0 < s.y ∧
      finalNormal sqrt Normals rows cols i j = some n ∧ 0 < n.y := by
  have hall : ∀ a ∈ accumulated rows cols i j,
      normalAt Normals a = some ((normalAt Normals a).getD 0) ∧
        0 < ((normalAt Normals a).getD 0).y := by
    intro a ha
    have hin := accumulated_in_range rows cols i j hi0 hi hj0 hj a ha
    obtain ⟨n, hn, hy⟩ := hN a.1 a.2.1 a.2.2 hin.1 hin.2.1 hin.2.2.1 hin.2.2.2.1 hin.2.2.2.2
    rw [hn]
    exact ⟨rfl, hy⟩
  have hsum : normalSum Normals rows cols i j = some
      (((accumulated rows cols i j).map (fun a => (normalAt Normals a).getD 0)).foldl
        (fun acc n => acc + n) 0) := by
    unfold normalSum
    rw [allSome_map_some _ (fun a => (normalAt Normals a).getD 0) _ (fun a ha => (hall a ha).1)]
    rfl
  have hy : 0 < (((accumulated rows cols i j).map (fun a => (normalAt Normals a).getD 0)).foldl
        (fun acc n => acc + n) (0 : vec3 K)).y := by
    rw [foldl_add_y, vec3.zero_def]
    simp only [zero_add]
    apply sum_pos_of_pos
    · intro x hx
      simp only [List.mem_map] at hx
      obtain ⟨n, ⟨a, ha, rfl⟩, rfl⟩ := hx
      exact (hall a ha).2
    · have hlen := accumulated_length_pos rows cols i j hr hc
      intro hnil
      have := congrArg List.length hnil
      simp only [List.length_map, List.length_nil] at this
      omega
  obtain ⟨n, hn, hny⟩ := normalize_pos_y sqrt hsqrt _ hy
  refine ⟨_, n, hsum, hy, ?_, hny⟩
  unfold finalNormal
  rw [hsum]
  exact hn

theorem buildFinalNormals_defined {K : Type} [LinearOrderedField K] (sqrt : K → K)
    (hsqrt : ∀ x : K, 0 < x → 0 < sqrt x) (rows cols : Int) (hr : 2 ≤ rows) (hc : 2 ≤ cols)
    (Normals : List (Grid (vec3 K)))
    (hN : ∀ (k : Nat) (r c : Int), k < 2 → 0 ≤ r → r < rows - 1 → 0 ≤ c → c < cols - 1 →
        ∃ n : vec3 K, normalAt Normals (k, r, c) = some n ∧ 0 < n.y) :
    buildFinalNormals sqrt rows cols Normals = some (Grid.ofFn rows cols
      (fun i j => (finalNormal sqrt Normals rows cols i j).getD 0)) := by
  unfold buildFinalNormals
  apply tabulate2_defined
  intro i j hi hj
  obtain ⟨_, n, _, _, hn, _⟩ := finalNormal_defined sqrt hsqrt rows cols hr hc Normals hN i j
    (by omega) (by omega) (by omega) (by omega)
  rw [hn]
  rfl

theorem interleave_defined {K : Type} [LinearOrderedField K] (rows cols : Int)
    (P N : Int → Int → vec3 K) (T : Int → Int → vec2 K) :
    ∃ vertices : List K, interleave rows cols (Grid.ofFn rows cols P) (Grid.ofFn rows cols T)
      (Grid.ofFn rows cols N) = some vertices := by
  unfold interleave
  rw [tabulate2_eq_some rows cols _ (fun i j =>
    [(P i j).x, (P i j).y, (P i j).z, (T i j).x, (T i j).y, (N i j).x, (N i j).y, (N i j).z])]
  · exact ⟨_, rfl⟩
  · intro i j hi hj
    rw [Grid.ofFn_at _ _ _ _ _ (by omega) (by omega) (by omega) (by omega),
      Grid.ofFn_at _ _ _ _ _ (by omega) (by omega) (by omega) (by omega),
      Grid.ofFn_at _ _ _ _ _ (by omega) (by omega) (by omega) (by omega)]
    rfl

/-- On an image of at least 2 by 2 pixels that passes the format test, `Load` returns
`true`: the mesh is loaded, `rows` and `cols` are the height and width of the image,
the vertex grid holds the sampled positions in `rows` rows of `cols` entries, and the
index buffer holds the sequence of the index loop. -/
theorem Load_succeeds {K : Type} [LinearOrderedField K] (sqrt : K → K)
    (hsqrt : ∀ x : K, 0 < x → 0 < sqrt x) (m : CHeightMap K) (gl : GLContext)
    (s : SDL_Surface) (DataPtr : Nat → Fin 256) (hp : s.pixels = some DataPtr)
    (hr : 2 ≤ s.h) (hc : 2 ≤ s.w)
    (hb : s.BytesPerPixel = 1 ∨ s.BytesPerPixel = 3 ∨ s.BytesPerPixel = 4) :
    ∃ (m' : CHeightMap K) (gl' : GLContext),
      Load sqrt m gl (some s) = some (true, m', gl') ∧ m'.loaded = true ∧
      m'.rows = s.h ∧ m'.cols = s.w ∧
      m'.VertexData = Grid.ofFn s.h s.w (fun i j =>
          (⟨-0.5 + (j : K) / ((s.w - 1 : Int) : K),
            VertexHeight DataPtr (u32 s.BytesPerPixel)
              (u32 (((u32 s.BytesPerPixel : Nat) : Int) * s.w)) i j,
            -0.5 + (i : K) / ((s.h - 1 : Int) : K)⟩ : vec3 K)) ∧
      m'.VertexData.Shape m'.rows m'.cols ∧
      m'.HeightMapIndices.data = emitIndices s.h s.w [] ∧
      m'.RenderScale = m.RenderScale := by
  have hacc : formatRejected s = false := by
    cases h : formatRejected s
    · rfl
    · have := (formatRejected_iff s).mp h
      rw [hp] at this
      simp only [reduceCtorEq, false_or] at this
      omega
  obtain ⟨Normals, hNeq, hN⟩ := buildNormals_defined sqrt hsqrt s.h s.w
    (VertexHeight DataPtr (u32 s.BytesPerPixel) (u32 (((u32 s.BytesPerPixel : Nat) : Int) * s.w)))
  have hF := buildFinalNormals_defined sqrt hsqrt s.h s.w hr hc Normals hN
  obtain ⟨vertices, hV⟩ := interleave_defined s.h s.w
    (fun i j => (⟨-0.5 + (j : K) / ((s.w - 1 : Int) : K),
            VertexHeight DataPtr (u32 s.BytesPerPixel)
              (u32 (((u32 s.BytesPerPixel : Nat) : Int) * s.w)) i j,
            -0.5 + (i : K) / ((s.h - 1 : Int) : K)⟩ : vec3 K))
    (fun i j => (finalNormal sqrt Normals s.h s.w i j).getD 0)
    (fun i j => (⟨(s.w : K) * 0.1 * ((j : K) / ((s.w - 1 : Int) : K)),
            (s.h : K) * 0.1 * ((i : K) / ((s.h - 1 : Int) : K))⟩ : vec2 K))
  unfold Load
  rw [Load_prologue]
  simp only [hacc, Bool.false_eq_true, if_false, hp]
  rw [sampleGrids_eq s.h s.w _ hr hc]
  simp only [Option.bind_eq_bind, Option.some_bind, hNeq, hF, hV]
  refine ⟨_, _, rfl, rfl, rfl, rfl, rfl, ?_, rfl, rfl⟩
  dsimp only
  exact Grid.ofFn_shape s.h s.w _ (by omega) (by omega)

/-- C10. For an image that was decoded, `Load` returns `false` if and only if the
pixel buffer is null, or `rows = 0`, or `cols = 0`, or the number of bytes per pixel is
not 1, 3 or 4. When it returns `false` the mesh is not loaded and its vertex grid, its
two buffers, its vertex array and the GL context are as before the call; when it returns
`true` the mesh is loaded. With 2 bytes per pixel `Load` returns `false`, and the mesh
is not loaded. An image of at least 2 by 2 pixels that passes the test makes `Load`
return `true`, for a square root that is positive on positive values. -/
theorem Load_returns_false_iff {K : Type} [LinearOrderedField K] (sqrt : K → K)
    (m : CHeightMap K) (gl : GLContext) (s : SDL_Surface) :
    ((∃ m' gl', Load sqrt m gl (some s) = some (false, m', gl')) ↔
      (s.pixels = none ∨ s.h = 0 ∨ s.w = 0 ∨
        (s.BytesPerPixel ≠ 1 ∧ s.BytesPerPixel ≠ 3 ∧ s.BytesPerPixel ≠ 4))) ∧
    (∀ m' gl', Load sqrt m gl (some s) = some (false, m', gl') →
      m'.loaded = false ∧ m'.VertexData = m.VertexData ∧
      m'.HeightMapData = m.HeightMapData ∧ m'.HeightMapIndices = m.HeightMapIndices ∧
      m'.vao = m.vao ∧ gl' = gl) ∧
    (∀ m' gl', Load sqrt m gl (some s) = some (true, m', gl') → m'.loaded = true) ∧
    (s.BytesPerPixel = 2 → ∃ m', Load sqrt m gl (some s) = some (false, m', gl) ∧
      m'.loaded = false) ∧
    ((∀ x : K, 0 < x → 0 < sqrt x) → s.pixels ≠ none → 2 ≤ s.h → 2 ≤ s.w →
      (s.BytesPerPixel = 1 ∨ s.BytesPerPixel = 3 ∨ s.BytesPerPixel = 4) →
      ∃ m' gl', Load sqrt m gl (some s) = some (true, m', gl') ∧ m'.loaded = true) := by
  have key : ∀ m' gl', Load sqrt m gl (some s) = some (false, m', gl') →
      formatRejected s = true := by
    intro m' gl' hL
    by_contra hacc
    have := (Load_of_accepted sqrt m gl s (by simpa using hacc) _ hL).1
    exact Bool.false_ne_true this
  refine ⟨⟨?_, ?_⟩, ?_, ?_, ?_, ?_⟩
  · rintro ⟨m', gl', hL⟩
    exact (formatRejected_iff s).mp (key m' gl' hL)
  · intro hbad
    exact ⟨_, _, Load_of_rejected sqrt m gl s ((formatRejected_iff s).mpr hbad)⟩
  · intro m' gl' hL
    have hrej := Load_of_rejected sqrt m gl s (key m' gl' hL)
    rw [hrej] at hL
    simp only [Option.some.injEq, Prod.mk.injEq, true_and] at hL
    obtain ⟨rfl, rfl⟩ := hL
    exact ⟨rfl, rfl, rfl, rfl, rfl, rfl⟩
  · intro m' gl' hL
    cases hrej : formatRejected s
    · exact (Load_of_accepted sqrt m gl s hrej _ hL).2
    · rw [Load_of_rejected sqrt m gl s hrej] at hL
      simp at hL
  · intro h2
    have hbad : formatRejected s = true :=
      (formatRejected_iff s).mpr (Or.inr (Or.inr (Or.inr (by omega))))
    exact ⟨_, Load_of_rejected sqrt m gl s hbad, rfl⟩
  · intro hsqrt hp hr hc hb
    cases hpix : s.pixels with
    | none => exact absurd hpix hp
    | some DataPtr =>
      obtain ⟨m', gl', hL, hl, _⟩ := Load_succeeds sqrt hsqrt m gl s DataPtr hpix hr hc hb
      exact ⟨m', gl', hL, hl⟩

/-! ## The theorems at concrete inputs -/

theorem emitIndices_count_eq_NumIndices_witness :
    ((emitIndices sampleMesh.rows sampleMesh.cols []).length : Int)
        = (sampleMesh.rows - 1) * (2 * sampleMesh.cols + 1) ∧
    ((emitIndices sampleMesh.rows sampleMesh.cols []).length : Int)
        = (Render sampleMesh).NumIndices ∧
    (Render sampleMesh).NumIndices
        = (sampleMesh.rows - 1) * sampleMesh.cols * 2 + (sampleMesh.rows - 1) :=
  emitIndices_count_eq_NumIndices sampleMesh (by decide) (by decide)

theorem restart_index_positions_witness :
    (emitIndices ((3 : Nat) : Int) ((2 : Nat) : Int) []).count
        (((3 : Nat) : Int) * ((2 : Nat) : Int)) = 3 - 1 :=
  (restart_index_positions 3 2 (by decide) (by decide)).1

theorem sampleMesh_shape : sampleMesh.VertexData.Shape sampleMesh.rows sampleMesh.cols := by
  constructor
  · rfl
  · intro r hr
    simp only [sampleMesh, List.mem_cons, List.mem_singleton, List.not_mem_nil, or_false] at hr
    rcases hr with rfl | rfl <;> rfl

theorem corner_normal_counts_witness :
    (accumulated 2 2 0 0).length = 2 ∧
    (accumulated 2 2 (2 - 1) (2 - 1)).length = 2 ∧
    (accumulated 2 2 0 (2 - 1)).length = 1 ∧
    (accumulated 2 2 (2 - 1) 0).length = 1 :=
  corner_normal_counts 2 2 (by decide) (by decide)

theorem accumulated_iff_incident_witness :
    (∀ (k : Nat) (r c : Int), (k, r, c) ∈ accumulated 3 3 1 1 ↔
      (k < 2 ∧ 0 ≤ r ∧ r < 3 - 1 ∧ 0 ≤ c ∧ c < 3 - 1 ∧ isCorner k r c 1 1)) ∧
    (accumulated 3 3 1 1).Nodup ∧
    triangleCorners 0 = (fun r c => ((r, c), (r + 1, c), (r + 1, c + 1))) ∧
    triangleCorners 1 = (fun r c => ((r + 1, c + 1), (r, c + 1), (r, c))) :=
  accumulated_iff_incident 3 3 1 1 (by decide) (by decide) (by decide) (by decide)
    (by decide) (by decide)

/-- The rational square root `Rat.sqrt` is positive on positive values. -/
theorem Rat_sqrt_pos (x : ℚ) (hx : 0 < x) : 0 < Rat.sqrt x := by
  unfold Rat.sqrt
  have hn : 0 < x.num := Rat.num_pos.mpr hx
  have h1 : 0 < Int.sqrt x.num := by
    unfold Int.sqrt
    have : 0 < Nat.sqrt x.num.toNat := Nat.sqrt_pos.mpr (by omega)
    exact_mod_cast this
  have h2 : 0 < Nat.sqrt x.den := Nat.sqrt_pos.mpr x.den_pos
  rw [Rat.mkRat_eq_div]
  positivity

theorem Load_returns_false_iff_witness :
    (∃ m', Load Rat.sqrt sampleMesh sampleContext (some twoBytesImage)
        = some (false, m', sampleContext) ∧ m'.loaded = false) ∧
    (∃ m' gl', Load Rat.sqrt sampleMesh sampleContext (some sampleImage)
        = some (true, m', gl') ∧ m'.loaded = true) :=
  ⟨(Load_returns_false_iff Rat.sqrt sampleMesh sampleContext twoBytesImage).2.2.2.1 rfl,
   (Load_returns_false_iff Rat.sqrt sampleMesh sampleContext sampleImage).2.2.2.2
      Rat_sqrt_pos (by simp [sampleImage]) (by decide) (by decide) (Or.inl rfl)⟩

/-! ## Reloading -/

/-- The GL objects after a successful `Load`: two new buffers and one new vertex array
on top of the objects that were alive when `Load` was called, whether or not the mesh
was loaded. -/
theorem Load_succeeds_objects {K : Type} [LinearOrderedField K] (sqrt : K → K)
    (hsqrt : ∀ x : K, 0 < x → 0 < sqrt x) (m : CHeightMap K) (gl : GLContext)
    (s : SDL_Surface) (DataPtr : Nat → Fin 256) (hp : s.pixels = some DataPtr)
    (hr : 2 ≤ s.h) (hc : 2 ≤ s.w)
    (hb : s.BytesPerPixel = 1 ∨ s.BytesPerPixel = 3 ∨ s.BytesPerPixel = 4) :
    ∃ m' : CHeightMap K,
      Load sqrt m gl (some s) = some (true, m',
        { nextName := gl.nextName + 3
          vertexArrays := (gl.nextName + 2) :: gl.vertexArrays
          buffers := (gl.nextName + 1) :: gl.nextName :: gl.buffers }) ∧
      m'.vao = gl.nextName + 2 ∧ m'.HeightMapData.buffer = gl.nextName ∧
      m'.HeightMapIndices.buffer = gl.nextName + 1 := by
  have hacc : formatRejected s = false := by
    cases h : formatRejected s
    · rfl
    · have := (formatRejected_iff s).mp h
      rw [hp] at this
      simp only [reduceCtorEq, false_or] at this
      omega
  obtain ⟨Normals, hNeq, hN⟩ := buildNormals_defined sqrt hsqrt s.h s.w
    (VertexHeight DataPtr (u32 s.BytesPerPixel) (u32 (((u32 s.BytesPerPixel : Nat) : Int) * s.w)))
  have hF := buildFinalNormals_defined sqrt hsqrt s.h s.w hr hc Normals hN
  obtain ⟨vertices, hV⟩ := interleave_defined s.h s.w
    (fun i j => (⟨-0.5 + (j : K) / ((s.w - 1 : Int) : K),
            VertexHeight DataPtr (u32 s.BytesPerPixel)
              (u32 (((u32 s.BytesPerPixel : Nat) : Int) * s.w)) i j,
            -0.5 + (i : K) / ((s.h - 1 : Int) : K)⟩ : vec3 K))
    (fun i j => (finalNormal sqrt Normals s.h s.w i j).getD 0)
    (fun i j => (⟨(s.w : K) * 0.1 * ((j : K) / ((s.w - 1 : Int) : K)),
            (s.h : K) * 0.1 * ((i : K) / ((s.h - 1 : Int) : K))⟩ : vec2 K))
  unfold Load
  rw [Load_prologue]
  simp only [hacc, Bool.false_eq_true, if_false, hp]
  rw [sampleGrids_eq s.h s.w _ hr hc]
  simp only [Option.bind_eq_bind, Option.some_bind, hNeq, hF, hV]
  exact ⟨_, rfl, rfl, rfl, rfl⟩

/-- `Load` on a loaded mesh behaves as on the same mesh with `loaded` cleared: the call
of `Release` in its first lines has no effect. -/
theorem Load_ignores_loaded {K : Type} [LinearOrderedField K] (sqrt : K → K)
    (m : CHeightMap K) (gl : GLContext) (Surf_Load : Option SDL_Surface) :
    Load sqrt m gl Surf_Load = Load sqrt { m with loaded := false } gl Surf_Load := by
  unfold Load
  rw [Load_prologue, Load_prologue]

/-- C11 fails on the code. `Load` on the loaded mesh `sampleMesh` returns `true` and
leaves the old vertex array 3 and the old buffers 1 and 2 alive next to the new objects
4, 5 and 6, while `Release` followed by `Load` of the same image deletes them. -/
theorem Load_on_loaded_mesh_keeps_old_objects :
    ∃ (m1 m2 : CHeightMap ℚ) (gl1 gl2 : GLContext),
      sampleMesh.loaded = true ∧
      Load Rat.sqrt sampleMesh sampleContext (some sampleImage) = some (true, m1, gl1) ∧
      Load Rat.sqrt (Release sampleMesh sampleContext).1 (Release sampleMesh sampleContext).2
        (some sampleImage) = some (true, m2, gl2) ∧
      gl1.vertexArrays = [6, 3] ∧ gl1.buffers = [5, 4, 2, 1] ∧
      gl2.vertexArrays = [6] ∧ gl2.buffers = [5, 4] ∧ gl1 ≠ gl2 := by
  obtain ⟨m1, h1, _⟩ := Load_succeeds_objects Rat.sqrt Rat_sqrt_pos sampleMesh sampleContext
    sampleImage _ rfl (by decide) (by decide) (Or.inl rfl)
  obtain ⟨m2, h2, _⟩ := Load_succeeds_objects Rat.sqrt Rat_sqrt_pos
    (Release sampleMesh sampleContext).1 (Release sampleMesh sampleContext).2
    sampleImage _ rfl (by decide) (by decide) (Or.inl rfl)
  refine ⟨m1, m2, _, _, rfl, h1, h2, rfl, rfl, ?_, ?_, ?_⟩
  · decide
  · decide
  · intro h
    have := congrArg GLContext.vertexArrays h
    revert this
    decide

/-- Truncation of a float that is a whole number. -/
theorem truncate_intCast {K : Type} [LinearOrderedField K] [FloorRing K] (n : Int) :
    truncate (n : K) = n := by
  unfold truncate
  split <;> simp

/-- C12 fails on the code. `Load` of the rejected 5 by 7 image on the loaded 2 by 2 mesh
`sampleMesh` returns `false` and leaves `staleMesh`: `rows = 5` and `cols = 7` while the
vertex grid is still 2 by 2, so that `GetHeight` at the far corner of the terrain
indexes outside the grid. A `Load` of an image that could not be decoded leaves `rows`
and `cols` as they were. -/
theorem Load_rejected_overwrites_dimensions :
    Load Rat.sqrt sampleMesh sampleContext (some rejectedImage)
      = some (false, staleMesh, sampleContext) ∧
    GetRows sampleMesh = 2 ∧ GetCols sampleMesh = 2 ∧
    GetRows staleMesh = 5 ∧ GetCols staleMesh = 7 ∧
    staleMesh.VertexData = sampleMesh.VertexData ∧
    staleMesh.VertexData.Shape 2 2 ∧
    ¬ staleMesh.VertexData.Shape (GetRows staleMesh) (GetCols staleMesh) ∧
    heightRow staleMesh ⟨5, 0, 5⟩ = some 4 ∧ heightColumn staleMesh ⟨5, 0, 5⟩ = some 6 ∧
    staleMesh.VertexData.at 4 6 = none ∧ GetHeight staleMesh ⟨5, 0, 5⟩ = none ∧
    (∃ m'' : CHeightMap ℚ, Load Rat.sqrt sampleMesh sampleContext none
      = some (false, m'', sampleContext) ∧ GetRows m'' = 2 ∧ GetCols m'' = 2) := by
  have hrow : heightRow staleMesh ⟨5, 0, 5⟩ = some 4 := by
    rw [heightRow_eq _ _ (by simp [staleMesh, sampleMesh])]
    have e : (((5 : ℚ) + (10 : ℚ) * 0.5) * ((5 : Int) : ℚ) / (10 : ℚ)) = ((5 : Int) : ℚ) := by
      norm_num
    simp only [staleMesh, sampleMesh, e, truncate_intCast]
    rfl
  have hcol : heightColumn staleMesh ⟨5, 0, 5⟩ = some 6 := by
    rw [heightColumn_eq _ _ (by simp [staleMesh, sampleMesh])]
    have e : (((5 : ℚ) + (10 : ℚ) * 0.5) * ((7 : Int) : ℚ) / (10 : ℚ)) = ((7 : Int) : ℚ) := by
      norm_num
    simp only [staleMesh, sampleMesh, e, truncate_intCast]
    rfl
  have hat : staleMesh.VertexData.at 4 6 = none := by
    simp [Grid.at, staleMesh, sampleMesh]
  refine ⟨?_, rfl, rfl, rfl, rfl, rfl, sampleMesh_shape, ?_, hrow, hcol, hat, ?_, ?_⟩
  · rw [Load_of_rejected Rat.sqrt sampleMesh sampleContext rejectedImage rfl]
    rfl
  · intro h
    have := h.1
    revert this
    decide
  · unfold GetHeight
    rw [hcol, hrow]
    simp only [Option.bind_eq_bind, Option.some_bind]
    rw [hat]
    rfl
  · refine ⟨{ sampleMesh with loaded := false }, ?_, rfl, rfl⟩
    unfold Load
    rw [Load_prologue]

/-! ## The sampled positions -/

theorem u32_of_lt (x : Int) (h0 : 0 ≤ x) (h : x < 4294967296) : u32 x = x.toNat := by
  unfold u32
  rw [Int.emod_eq_of_lt h0 h]

/-- Without wrap-around the byte read for cell `(i, j)` is the one at offset
`bpp * cols * i + bpp * j`. -/
theorem VertexHeight_offset {K : Type} [LinearOrderedField K] (DataPtr : Nat → Fin 256)
    (bpp : Nat) (rows cols i j : Int) (hb : 1 ≤ bpp) (hi0 : 0 ≤ i) (hi : i < rows)
    (hj0 : 0 ≤ j) (hj : j < cols)
    (hsize : (bpp : Int) * cols * rows < 4294967296) :
    (VertexHeight DataPtr (u32 bpp) (u32 (((u32 bpp : Nat) : Int) * cols)) i j : K)
      = ((DataPtr ((bpp : Int) * cols * i + (bpp : Int) * j).toNat).val : K) / 255 := by
  have hB : (1 : Int) ≤ (bpp : Int) := by exact_mod_cast hb
  have hc1 : 1 ≤ cols := by omega
  have hr1 : 1 ≤ rows := by omega
  have hBW : 0 ≤ (bpp : Int) * cols := by positivity
  have h1 : (bpp : Int) * cols * i ≤ (bpp : Int) * cols * (rows - 1) :=
    mul_le_mul_of_nonneg_left (by omega) hBW
  have h1' : 0 ≤ (bpp : Int) * cols * i := by positivity
  have h2 : (bpp : Int) * cols * 1 ≤ (bpp : Int) * cols * rows :=
    mul_le_mul_of_nonneg_left hr1 hBW
  have h3 : (bpp : Int) * 1 ≤ (bpp : Int) * cols :=
    mul_le_mul_of_nonneg_left hc1 (by omega)
  have h4 : j * (bpp : Int) ≤ (cols - 1) * (bpp : Int) :=
    mul_le_mul_of_nonneg_right (by omega) (by omega)
  have h4' : 0 ≤ j * (bpp : Int) := by positivity
  have h5 : (bpp : Int) * cols * (rows - 1) = (bpp : Int) * cols * rows - (bpp : Int) * cols := by
    ring
  have h6 : (cols - 1) * (bpp : Int) = (bpp : Int) * cols - (bpp : Int) := by ring
  have e1 : u32 (bpp : Int) = bpp := by
    rw [u32_of_lt _ (by omega) (by omega)]; simp
  have e2 : u32 (((bpp : Nat) : Int) * cols) = ((bpp : Int) * cols).toNat :=
    u32_of_lt _ hBW (by omega)
  unfold VertexHeight
  rw [e1, e2, Int.toNat_of_nonneg hBW, u32_of_lt _ h1' (by omega), u32_of_lt _ h4' (by omega)]
  congr 4
  have : (bpp : Int) * j = j * (bpp : Int) := by ring
  omega

/-- C13. For an accepted image of `rows ≥ 2` by `cols ≥ 2` pixels (of less than `2^32`
bytes, as every SDL surface is), the position that `Load` stores for cell `(i, j)` is
`(j / (cols - 1) - 0.5, b / 255, i / (rows - 1) - 0.5)`, where `b` is the byte at offset
`bpp * cols * i + bpp * j`. Hence X and Z lie in `[-0.5, 0.5]`, with `-0.5` exactly in
the first column or row and `0.5` exactly in the last, and Y lies in `[0, 1]`. -/
theorem Load_positions {K : Type} [LinearOrderedField K] (sqrt : K → K)
    (hsqrt : ∀ x : K, 0 < x → 0 < sqrt x) (m : CHeightMap K) (gl : GLContext)
    (s : SDL_Surface) (DataPtr : Nat → Fin 256) (hp : s.pixels = some DataPtr)
    (hr : 2 ≤ s.h) (hc : 2 ≤ s.w)
    (hb : s.BytesPerPixel = 1 ∨ s.BytesPerPixel = 3 ∨ s.BytesPerPixel = 4)
    (hsize : (s.BytesPerPixel : Int) * s.w * s.h < 4294967296) :
    ∃ (m' : CHeightMap K) (gl' : GLContext),
      Load sqrt m gl (some s) = some (true, m', gl') ∧ m'.rows = s.h ∧ m'.cols = s.w ∧
      ∀ i j : Int, 0 ≤ i → i < m'.rows → 0 ≤ j → j < m'.cols →
        ∃ v : vec3 K, m'.VertexData.at i j = some v ∧
          v.x = (j : K) / ((m'.cols - 1 : Int) : K) - 0.5 ∧
          v.y = ((DataPtr ((s.BytesPerPixel : Int) * m'.cols * i
                  + (s.BytesPerPixel : Int) * j).toNat).val : K) / 255 ∧
          v.z = (i : K) / ((m'.rows - 1 : Int) : K) - 0.5 ∧
          -0.5 ≤ v.x ∧ v.x ≤ 0.5 ∧ -0.5 ≤ v.z ∧ v.z ≤ 0.5 ∧ 0 ≤ v.y ∧ v.y ≤ 1 ∧
          (v.x = -0.5 ↔ j = 0) ∧ (v.x = 0.5 ↔ j = m'.cols - 1) ∧
          (v.z = -0.5 ↔ i = 0) ∧ (v.z = 0.5 ↔ i = m'.rows - 1) := by
  obtain ⟨m', gl', hL, _, hrows, hcols, hV, _⟩ :=
    Load_succeeds sqrt hsqrt m gl s DataPtr hp hr hc hb
  refine ⟨m', gl', hL, hrows, hcols, ?_⟩
  rw [hrows, hcols]
  intro i j hi0 hi hj0 hj
  have hfrac : ∀ (n d : Int), 0 ≤ n → n ≤ d → 0 < d →
      (0 : K) ≤ (n : K) / (d : K) ∧ (n : K) / (d : K) ≤ 1 ∧
      ((n : K) / (d : K) = 0 ↔ n = 0) ∧ ((n : K) / (d : K) = 1 ↔ n = d) := by
    intro n d hn hnd hd
    have hdK : (0 : K) < (d : K) := by exact_mod_cast hd
    have hnK : (0 : K) ≤ (n : K) := by exact_mod_cast hn
    have hndK : (n : K) ≤ (d : K) := by exact_mod_cast hnd
    refine ⟨div_nonneg hnK (le_of_lt hdK), (div_le_one hdK).mpr hndK, ?_, ?_⟩
    · rw [div_eq_zero_iff]
      constructor
      · rintro (h | h)
        · exact_mod_cast h
        · exact absurd h (ne_of_gt hdK)
      · intro h; left; exact_mod_cast h
    · rw [div_eq_one_iff_eq (ne_of_gt hdK)]
      exact_mod_cast Iff.rfl
  obtain ⟨hx0, hx1, hxz, hxo⟩ := hfrac j (s.w - 1) hj0 (by omega) (by omega)
  obtain ⟨hz0, hz1, hzz, hzo⟩ := hfrac i (s.h - 1) hi0 (by omega) (by omega)
  have hy : (VertexHeight DataPtr (u32 s.BytesPerPixel)
      (u32 (((u32 s.BytesPerPixel : Nat) : Int) * s.w)) i j : K)
      = ((DataPtr ((s.BytesPerPixel : Int) * s.w * i
          + (s.BytesPerPixel : Int) * j).toNat).val : K) / 255 :=
    VertexHeight_offset DataPtr s.BytesPerPixel s.h s.w i j (by omega) hi0 hi hj0 hj hsize
  have hbyte : ∀ b : Fin 256, (0 : K) ≤ (b.val : K) / 255 ∧ (b.val : K) / 255 ≤ 1 := by
    intro b
    have h1 : (b.val : K) ≤ 255 := by exact_mod_cast (by omega : b.val ≤ 255)
    have h0 : (0 : K) ≤ (b.val : K) := by positivity
    constructor
    · positivity
    · rw [div_le_one (by norm_num)]; exact h1
  have h05 : (0.5 : K) = 1 / 2 := by norm_num
  refine ⟨_, by rw [hV]; exact Grid.ofFn_at _ _ _ i j hi0 hi hj0 hj, ?_⟩
  dsimp only
  generalize (j : K) / ((s.w - 1 : Int) : K) = a at hx0 hx1 hxz hxo
  generalize (i : K) / ((s.h - 1 : Int) : K) = b at hz0 hz1 hzz hzo
  rw [h05]
  refine ⟨by ring, hy, by ring, by linarith, by linarith, by linarith, by linarith,
    by rw [hy]; exact (hbyte _).1, by rw [hy]; exact (hbyte _).2, ?_, ?_, ?_, ?_⟩
  · rw [← hxz]; constructor <;> intro h <;> linarith
  · rw [← hxo]; constructor <;> intro h <;> linarith
  · rw [← hzz]; constructor <;> intro h <;> linarith
  · rw [← hzo]; constructor <;> intro h <;> linarith

/-! ## Orientation of the face normals -/

/-- The cross product of either triangle of a quad has the Y component
`1 / ((rows - 1) * (cols - 1))`, whatever the heights. -/
theorem triangle_cross_y {K : Type} [LinearOrderedField K] (rows cols : Int)
    (hr : 2 ≤ rows) (hc : 2 ≤ cols) (height : Int → Int → K) (k : Nat) (i j : Int)
    (hi0 : 0 ≤ i) (hi : i < rows - 1) (hj0 : 0 ≤ j) (hj : j < cols - 1) :
    ∃ v0 v1 v2 : vec3 K,
      readTriangle (Grid.ofFn rows cols (fun i j =>
          (⟨-0.5 + (j : K) / ((cols - 1 : Int) : K), height i j,
            -0.5 + (i : K) / ((rows - 1 : Int) : K)⟩ : vec3 K))) k i j = some (v0, v1, v2) ∧
      (cross (v0 - v1) (v1 - v2)).y
        = 1 / (((rows - 1 : Int) : K) * ((cols - 1 : Int) : K)) := by
  have hcK : ((cols - 1 : Int) : K) ≠ 0 := by
    exact_mod_cast (by omega : cols - 1 ≠ 0)
  have hrK : ((rows - 1 : Int) : K) ≠ 0 := by
    exact_mod_cast (by omega : rows - 1 ≠ 0)
  have hi1 : ((i + 1 : Int) : K) = (i : K) + 1 := by push_cast; ring
  have hj1 : ((j + 1 : Int) : K) = (j : K) + 1 := by push_cast; ring
  rw [readTriangle_ofFn rows cols _ k i j hi0 hi hj0 hj]
  refine ⟨_, _, _, rfl, ?_⟩
  by_cases hk : k = 0
  · simp only [triangleCorners, hk, if_true, cross, vec3.sub_def, hi1, hj1]
    generalize ((rows - 1 : Int) : K) = R at hrK
    generalize ((cols - 1 : Int) : K) = C at hcK
    field_simp
  · simp only [triangleCorners, hk, if_false, cross, vec3.sub_def, hi1, hj1]
    generalize ((rows - 1 : Int) : K) = R at hrK
    generalize ((cols - 1 : Int) : K) = C at hcK
    field_simp

/-- The face normals of a quad are the normalized cross products of its two triangles. -/
theorem faceNormals_of_triangles {K : Type} [LinearOrderedField K] (sqrt : K → K)
    (VertexData : Grid (vec3 K)) (i j : Int) (t0 t1 : vec3 K × vec3 K × vec3 K)
    (n0 n1 : vec3 K) (h0 : readTriangle VertexData 0 i j = some t0)
    (h1 : readTriangle VertexData 1 i j = some t1)
    (hn0 : glm.normalize sqrt (cross (t0.1 - t0.2.1) (t0.2.1 - t0.2.2)) = some n0)
    (hn1 : glm.normalize sqrt (cross (t1.1 - t1.2.1) (t1.2.1 - t1.2.2)) = some n1) :
    faceNormals sqrt VertexData i j = some (n0, n1) := by
  unfold faceNormals
  rw [h0, h1]
  simp only [Option.bind_eq_bind, Option.some_bind]
  rw [hn0, hn1]
  rfl

/-- The entry `Normals[k][r][c]` is face normal `k` of quad `(r, c)`. -/
theorem buildNormals_normalAt {K : Type} [LinearOrderedField K] (sqrt : K → K)
    (rows cols : Int) (VertexData : Grid (vec3 K))
    (hdef : ∀ i j : Int, 0 ≤ i → i < rows - 1 → 0 ≤ j → j < cols - 1 →
      (faceNormals sqrt VertexData i j).isSome = true) :
    ∃ Normals : List (Grid (vec3 K)),
      buildNormals sqrt rows cols VertexData = some Normals ∧
      ∀ (k : Nat) (r c : Int), k < 2 → 0 ≤ r → r < rows - 1 → 0 ≤ c → c < cols - 1 →
        normalAt Normals (k, r, c)
          = (faceNormals sqrt VertexData r c).map (fun p => if k = 0 then p.1 else p.2) := by
  refine ⟨[(Grid.ofFn (rows - 1) (cols - 1) (fun i j =>
      (faceNormals sqrt VertexData i j).getD ((0 : vec3 K), (0 : vec3 K)))).map
        (fun row => row.map Prod.fst),
    (Grid.ofFn (rows - 1) (cols - 1) (fun i j =>
      (faceNormals sqrt VertexData i j).getD ((0 : vec3 K), (0 : vec3 K)))).map
        (fun row => row.map Prod.snd)], ?_, ?_⟩
  · unfold buildNormals
    rw [tabulate2_defined (rows - 1) (cols - 1) _ ((0 : vec3 K), (0 : vec3 K))
      (fun i j hi hj => hdef i j (by omega) (by omega) (by omega) (by omega))]
    rfl
  · intro k r c hk hr0 hr1 hc0 hc1
    rw [normalAt_pair _ k r c hk,
      Grid.ofFn_getD_at _ _ _ _ r c hr0 hr1 hc0 hc1 (hdef r c hr0 hr1 hc0 hc1)]

theorem vec3_ne_zero_of_pos_y {K : Type} [LinearOrderedField K] (v : vec3 K) (h : 0 < v.y) :
    v ≠ 0 := by
  intro hv
  rw [hv, vec3.zero_def] at h
  exact lt_irrefl _ h

theorem normalize_divisor_ne_zero {K : Type} [LinearOrderedField K] (sqrt : K → K)
    (hsqrt : ∀ x : K, 0 < x → 0 < sqrt x) (v : vec3 K) (hv : 0 < v.y) :
    sqrt (dot v v) ≠ 0 := by
  have hd : 0 < dot v v := by
    unfold dot
    have h1 : 0 ≤ v.x * v.x := mul_self_nonneg _
    have h2 : 0 < v.y * v.y := mul_pos hv hv
    have h3 : 0 ≤ v.z * v.z := mul_self_nonneg _
    linarith
  exact ne_of_gt (hsqrt _ hd)

/-- C14. For `rows ≥ 2`, `cols ≥ 2` and every elevation grid, the cross product
`(v0 - v1) x (v1 - v2)` of both triangles of every quad has the Y component
`1 / ((rows - 1) * (cols - 1)) > 0`, so it is not zero; every face normal has positive
Y; and the sum of face normals of every vertex has positive Y, so it is not zero and
its normalization does not divide by zero. The square root is positive on positive
values. -/
theorem face_normals_upward {K : Type} [LinearOrderedField K] (sqrt : K → K)
    (hsqrt : ∀ x : K, 0 < x → 0 < sqrt x) (rows cols : Int) (hr : 2 ≤ rows) (hc : 2 ≤ cols)
    (height : Int → Int → K) :
    ∃ (VertexData : Grid (vec3 K)) (CoordsData : Grid (vec2 K))
      (Normals : List (Grid (vec3 K))) (FinalNormals : Grid (vec3 K)),
      sampleGrids rows cols height = some (VertexData, CoordsData) ∧
      buildNormals sqrt rows cols VertexData = some Normals ∧
      buildFinalNormals sqrt rows cols Normals = some FinalNormals ∧
      (∀ (k : Nat) (r c : Int), k < 2 → 0 ≤ r → r < rows - 1 → 0 ≤ c → c < cols - 1 →
        ∃ v0 v1 v2 n : vec3 K,
          readTriangle VertexData k r c = some (v0, v1, v2) ∧
          (cross (v0 - v1) (v1 - v2)).y
            = 1 / (((rows - 1 : Int) : K) * ((cols - 1 : Int) : K)) ∧
          0 < (cross (v0 - v1) (v1 - v2)).y ∧ cross (v0 - v1) (v1 - v2) ≠ 0 ∧
          sqrt (dot (cross (v0 - v1) (v1 - v2)) (cross (v0 - v1) (v1 - v2))) ≠ 0 ∧
          glm.normalize sqrt (cross (v0 - v1) (v1 - v2)) = some n ∧
          normalAt Normals (k, r, c) = some n ∧ 0 < n.y) ∧
      (∀ i j : Int, 0 ≤ i → i < rows → 0 ≤ j → j < cols →
        ∃ s n : vec3 K,
          normalSum Normals rows cols i j = some s ∧ 0 < s.y ∧ s ≠ 0 ∧
          sqrt (dot s s) ≠ 0 ∧ glm.normalize sqrt s = some n ∧
          FinalNormals.at i j = some n) := by
  have hcK : (0 : K) < ((cols - 1 : Int) : K) := by
    exact_mod_cast (by omega : 0 < cols - 1)
  have hrK : (0 : K) < ((rows - 1 : Int) : K) := by
    exact_mod_cast (by omega : 0 < rows - 1)
  have hpos : (0 : K) < 1 / (((rows - 1 : Int) : K) * ((cols - 1 : Int) : K)) := by
    positivity
  have hface : ∀ (k : Nat) (r c : Int), 0 ≤ r → r < rows - 1 → 0 ≤ c → c < cols - 1 →
      ∃ v0 v1 v2 n : vec3 K,
        readTriangle (Grid.ofFn rows cols (fun i j =>
          (⟨-0.5 + (j : K) / ((cols - 1 : Int) : K), height i j,
            -0.5 + (i : K) / ((rows - 1 : Int) : K)⟩ : vec3 K))) k r c = some (v0, v1, v2) ∧
        (cross (v0 - v1) (v1 - v2)).y
          = 1 / (((rows - 1 : Int) : K) * ((cols - 1 : Int) : K)) ∧
        glm.normalize sqrt (cross (v0 - v1) (v1 - v2)) = some n ∧ 0 < n.y := by
    intro k r c hr0 hr1 hc0 hc1
    obtain ⟨v0, v1, v2, ht, hy⟩ := triangle_cross_y rows cols hr hc height k r c hr0 hr1 hc0 hc1
    obtain ⟨n, hn, hny⟩ := normalize_pos_y sqrt hsqrt (cross (v0 - v1) (v1 - v2))
      (by rw [hy]; exact hpos)
    exact ⟨v0, v1, v2, n, ht, hy, hn, hny⟩
  have hfn : ∀ (r c : Int), 0 ≤ r → r < rows - 1 → 0 ≤ c → c < cols - 1 →
      ∀ (v0 v1 v2 n v0' v1' v2' n' : vec3 K),
        readTriangle (Grid.ofFn rows cols (fun i j =>
          (⟨-0.5 + (j : K) / ((cols - 1 : Int) : K), height i j,
            -0.5 + (i : K) / ((rows - 1 : Int) : K)⟩ : vec3 K))) 0 r c = some (v0, v1, v2) →
        glm.normalize sqrt (cross (v0 - v1) (v1 - v2)) = some n →
        readTriangle (Grid.ofFn rows cols (fun i j =>
          (⟨-0.5 + (j : K) / ((cols - 1 : Int) : K), height i j,
            -0.5 + (i : K) / ((rows - 1 : Int) : K)⟩ : vec3 K))) 1 r c = some (v0', v1', v2') →
        glm.normalize sqrt (cross (v0' - v1') (v1' - v2')) = some n' →
        faceNormals sqrt (Grid.ofFn rows cols (fun i j =>
          (⟨-0.5 + (j : K) / ((cols - 1 : Int) : K), height i j,
            -0.5 + (i : K) / ((rows - 1 : Int) : K)⟩ : vec3 K))) r c = some (n, n') := by
    intro r c _ _ _ _ v0 v1 v2 n v0' v1' v2' n' h0 hn0 h1 hn1
    exact faceNormals_of_triangles sqrt _ r c (v0, v1, v2) (v0', v1', v2') n n' h0 h1 hn0 hn1
  obtain ⟨Normals, hNeq, hNat⟩ := buildNormals_normalAt sqrt rows cols
    (Grid.ofFn rows cols (fun i j =>
          (⟨-0.5 + (j : K) / ((cols - 1 : Int) : K), height i j,
            -0.5 + (i : K) / ((rows - 1 : Int) : K)⟩ : vec3 K)))
    (fun i j hi0 hi hj0 hj => by
      obtain ⟨n0, n1, h, _⟩ := faceNormals_defined sqrt hsqrt rows cols height i j hi0 hi hj0 hj
      rw [h]; rfl)
  have hquad : ∀ (k : Nat) (r c : Int), k < 2 → 0 ≤ r → r < rows - 1 → 0 ≤ c → c < cols - 1 →
      ∃ v0 v1 v2 n : vec3 K,
        readTriangle (Grid.ofFn rows cols (fun i j =>
          (⟨-0.5 + (j : K) / ((cols - 1 : Int) : K), height i j,
            -0.5 + (i : K) / ((rows - 1 : Int) : K)⟩ : vec3 K))) k r c = some (v0, v1, v2) ∧
        (cross (v0 - v1) (v1 - v2)).y
          = 1 / (((rows - 1 : Int) : K) * ((cols - 1 : Int) : K)) ∧
        0 < (cross (v0 - v1) (v1 - v2)).y ∧ cross (v0 - v1) (v1 - v2) ≠ 0 ∧
        sqrt (dot (cross (v0 - v1) (v1 - v2)) (cross (v0 - v1) (v1 - v2))) ≠ 0 ∧
        glm.normalize sqrt (cross (v0 - v1) (v1 - v2)) = some n ∧
        normalAt Normals (k, r, c) = some n ∧ 0 < n.y := by
    intro k r c hk hr0 hr1 hc0 hc1
    obtain ⟨a0, a1, a2, na, hta, hya, hna, hnay⟩ := hface 0 r c hr0 hr1 hc0 hc1
    obtain ⟨b0, b1, b2, nb, htb, hyb, hnb, hnby⟩ := hface 1 r c hr0 hr1 hc0 hc1
    have hF := hfn r c hr0 hr1 hc0 hc1 a0 a1 a2 na b0 b1 b2 nb hta hna htb hnb
    have hk' : k = 0 ∨ k = 1 := by omega
    rcases hk' with rfl | rfl
    · have hp : 0 < (cross (a0 - a1) (a1 - a2)).y := by rw [hya]; exact hpos
      refine ⟨a0, a1, a2, na, hta, hya, hp, vec3_ne_zero_of_pos_y _ hp,
        normalize_divisor_ne_zero sqrt hsqrt _ hp, hna, ?_, hnay⟩
      rw [hNat 0 r c (by omega) hr0 hr1 hc0 hc1, hF]
      rfl
    · have hp : 0 < (cross (b0 - b1) (b1 - b2)).y := by rw [hyb]; exact hpos
      refine ⟨b0, b1, b2, nb, htb, hyb, hp, vec3_ne_zero_of_pos_y _ hp,
        normalize_divisor_ne_zero sqrt hsqrt _ hp, hnb, ?_, hnby⟩
      rw [hNat 1 r c (by omega) hr0 hr1 hc0 hc1, hF]
      rfl
  have hN : ∀ (k : Nat) (r c : Int), k < 2 → 0 ≤ r → r < rows - 1 → 0 ≤ c → c < cols - 1 →
      ∃ n : vec3 K, normalAt Normals (k, r, c) = some n ∧ 0 < n.y := by
    intro k r c hk hr0 hr1 hc0 hc1
    obtain ⟨_, _, _, n, _, _, _, _, _, _, hn, hy⟩ := hquad k r c hk hr0 hr1 hc0 hc1
    exact ⟨n, hn, hy⟩
  have hFin := buildFinalNormals_defined sqrt hsqrt rows cols hr hc Normals hN
  refine ⟨_, _, Normals, _, sampleGrids_eq rows cols height hr hc, hNeq, hFin, hquad, ?_⟩
  intro i j hi0 hi hj0 hj
  obtain ⟨s, n, hs, hsy, hn, _⟩ :=
    finalNormal_defined sqrt hsqrt rows cols hr hc Normals hN i j hi0 hi hj0 hj
  have hn' : glm.normalize sqrt s = some n := by
    unfold finalNormal at hn
    rw [hs] at hn
    exact hn
  refine ⟨s, n, hs, hsy, vec3_ne_zero_of_pos_y _ hsy,
    normalize_divisor_ne_zero sqrt hsqrt _ hsy, hn', ?_⟩
  rw [Grid.ofFn_at _ _ _ i j hi0 hi hj0 hj, hn]
  rfl

/-! ## The scale matrices -/

theorem SetSize_eq {K : Type} [LinearOrderedField K] (m : CHeightMap K) (x h z : K)
    (hr : 1 ≤ m.rows) (hc : 1 ≤ m.cols) :
    SetSize m x h z = some { m with
      RenderScale := ⟨x, h, z⟩
      RenderScaleMatrix := glm.scale ⟨x, h, z⟩
      NormalScaleMatrix :=
        ⟨⟨x / (m.rows : K), 0, 0⟩, ⟨0, h / (m.cols : K), 0⟩, ⟨0, 0, z / (m.rows : K)⟩⟩ } := by
  have hrK : (m.rows : K) ≠ 0 := by
    have : (0 : K) < (m.rows : K) := by exact_mod_cast (by omega : (0 : Int) < m.rows)
    exact ne_of_gt this
  have hcK : (m.cols : K) ≠ 0 := by
    have : (0 : K) < (m.cols : K) := by exact_mod_cast (by omega : (0 : Int) < m.cols)
    exact ne_of_gt this
  unfold SetSize
  rw [fdiv_of_ne _ _ hrK, fdiv_of_ne _ _ hcK, fdiv_of_ne _ _ hrK]
  rfl

theorem SetSizeQuad_eq {K : Type} [LinearOrderedField K] (m : CHeightMap K) (QuadSize Height : K)
    (hr : 1 ≤ m.rows) (hc : 1 ≤ m.cols) :
    SetSizeQuad m QuadSize Height = some { m with
      RenderScale := ⟨(m.cols : K) * QuadSize, Height, (m.rows : K) * QuadSize⟩
      RenderScaleMatrix := glm.scale ⟨(m.cols : K) * QuadSize, Height, (m.rows : K) * QuadSize⟩
      NormalScaleMatrix :=
        ⟨⟨QuadSize / (m.rows : K), 0, 0⟩, ⟨0, Height / (m.cols : K), 0⟩,
          ⟨0, 0, QuadSize / (m.rows : K)⟩⟩ } := by
  have hrK : (m.rows : K) ≠ 0 := by
    have : (0 : K) < (m.rows : K) := by exact_mod_cast (by omega : (0 : Int) < m.rows)
    exact ne_of_gt this
  have hcK : (m.cols : K) ≠ 0 := by
    have : (0 : K) < (m.cols : K) := by exact_mod_cast (by omega : (0 : Int) < m.cols)
    exact ne_of_gt this
  unfold SetSizeQuad
  simp only [fdiv_of_ne _ _ hrK, fdiv_of_ne _ _ hcK]
  rfl

/-- C15, as amended. For a mesh with `rows ≥ 1`, `cols ≥ 1` and non-zero extents
`(x, h, z)`, the normal matrix that `SetSize` derives is
`diag(x / rows, h / cols, z / rows)`. It is a scalar multiple of
`diag(1 / x, 1 / h, 1 / z)`, and equivalently keeps every rescaled normal perpendicular
to every scaled tangent, exactly when `x * x * cols = h * h * rows` and
`x * x = z * z`. -/
theorem SetSize_normal_matrix {K : Type} [LinearOrderedField K] (m : CHeightMap K)
    (x h z : K) (hr : 1 ≤ m.rows) (hc : 1 ≤ m.cols) (hx : x ≠ 0) (hh : h ≠ 0) (hz : z ≠ 0) :
    ∃ m' : CHeightMap K, SetSize m x h z = some m' ∧
      m'.RenderScaleMatrix = glm.scale ⟨x, h, z⟩ ∧
      m'.NormalScaleMatrix =
        ⟨⟨x / (m.rows : K), 0, 0⟩, ⟨0, h / (m.cols : K), 0⟩, ⟨0, 0, z / (m.rows : K)⟩⟩ ∧
      ((∃ c : K, m'.NormalScaleMatrix =
          ⟨⟨c * (1 / x), 0, 0⟩, ⟨0, c * (1 / h), 0⟩, ⟨0, 0, c * (1 / z)⟩⟩) ↔
        (x * x * (m.cols : K) = h * h * (m.rows : K) ∧ x * x = z * z)) ∧
      ((∀ n t : vec3 K, dot n t = 0 →
          dot (mulVec m'.NormalScaleMatrix n) (mulDir m'.RenderScaleMatrix t) = 0) ↔
        (x * x * (m.cols : K) = h * h * (m.rows : K) ∧ x * x = z * z)) := by
  have hrK : (m.rows : K) ≠ 0 := by
    have : (0 : K) < (m.rows : K) := by exact_mod_cast (by omega : (0 : Int) < m.rows)
    exact ne_of_gt this
  have hcK : (m.cols : K) ≠ 0 := by
    have : (0 : K) < (m.cols : K) := by exact_mod_cast (by omega : (0 : Int) < m.cols)
    exact ne_of_gt this
  refine ⟨_, SetSize_eq m x h z hr hc, rfl, rfl, ?_, ?_⟩
  · dsimp only
    generalize (m.rows : K) = R at hrK
    generalize (m.cols : K) = C at hcK
    constructor
    · rintro ⟨c, hc'⟩
      simp only [mat3.mk.injEq, vec3.mk.injEq, and_true, true_and] at hc'
      obtain ⟨h1, h2, h3⟩ := hc'
      field_simp at h1 h2 h3
      constructor
      · linear_combination C * h1 - R * h2
      · linear_combination h1 - h3
    · rintro ⟨h1, h2⟩
      refine ⟨x * x / R, ?_⟩
      simp only [mat3.mk.injEq, vec3.mk.injEq, and_true, true_and]
      refine ⟨?_, ?_, ?_⟩
      · field_simp
        ring
      · field_simp
        linear_combination -h1
      · field_simp
        linear_combination -R * h2
  · dsimp only
    generalize (m.rows : K) = R at hrK
    generalize (m.cols : K) = C at hcK
    constructor
    · intro hperp
      have e1 := hperp ⟨1, -1, 0⟩ ⟨1, 1, 0⟩ (by simp [dot])
      have e2 := hperp ⟨1, 0, -1⟩ ⟨1, 0, 1⟩ (by simp [dot])
      simp only [dot, mulVec, mulDir, glm.scale] at e1 e2
      field_simp at e1 e2
      constructor
      · linear_combination e1
      · linear_combination e2
    · rintro ⟨h1, h2⟩ n t hnt
      simp only [dot, mulVec, mulDir, glm.scale] at hnt ⊢
      have hh2 : h * h / C = x * x / R := by
        field_simp
        linear_combination -h1
      have hz2 : z * z / R = x * x / R := by rw [h2]
      have : x / R * n.x * (x * t.x) + h / C * n.y * (h * t.y) + z / R * n.z * (z * t.z)
          = x * x / R * (n.x * t.x + n.y * t.y + n.z * t.z) := by
        have a1 : h / C * n.y * (h * t.y) = h * h / C * (n.y * t.y) := by ring
        have a2 : z / R * n.z * (z * t.z) = z * z / R * (n.z * t.z) := by ring
        rw [a1, a2, hh2, hz2]
        ring
      simp only [mul_zero, zero_mul, add_zero, zero_add]
      rw [this, hnt, mul_zero]

/-- The mesh `sampleMesh` is in the state that `SetSize(10, 4, 10)` leaves. -/
theorem SetSize_sampleMesh : SetSize sampleMesh 10 4 10 = some sampleMesh := by
  rw [SetSize_eq sampleMesh 10 4 10 (by decide) (by decide)]
  simp [sampleMesh]
  norm_num

/-- C15 fails as stated: for the 2 by 2 mesh with extents `(10, 4, 10)` the normal
matrix is `diag(5, 2, 5)`, which is not a multiple of `diag(1/10, 1/4, 1/10)`, and it
maps the normal `(1, -1, 0)` of the tangent `(1, 1, 0)` to a vector that is not
perpendicular to the scaled tangent. -/
theorem SetSize_normal_matrix_counterexample :
    SetSize sampleMesh 10 4 10 = some sampleMesh ∧
    sampleMesh.NormalScaleMatrix = ⟨⟨5, 0, 0⟩, ⟨0, 2, 0⟩, ⟨0, 0, 5⟩⟩ ∧
    (¬ ∃ c : ℚ, sampleMesh.NormalScaleMatrix =
        ⟨⟨c * (1 / 10), 0, 0⟩, ⟨0, c * (1 / 4), 0⟩, ⟨0, 0, c * (1 / 10)⟩⟩) ∧
    dot (⟨1, -1, 0⟩ : vec3 ℚ) ⟨1, 1, 0⟩ = 0 ∧
    dot (mulVec sampleMesh.NormalScaleMatrix ⟨1, -1, 0⟩)
        (mulDir sampleMesh.RenderScaleMatrix ⟨1, 1, 0⟩) = 42 := by
  refine ⟨SetSize_sampleMesh, rfl, ?_, ?_, ?_⟩
  · rintro ⟨c, hc⟩
    simp only [sampleMesh, mat3.mk.injEq, vec3.mk.injEq, and_true, true_and] at hc
    obtain ⟨h1, h2, _⟩ := hc
    linarith
  · simp [dot]
  · simp only [dot, mulVec, mulDir, glm.scale, sampleMesh]
    norm_num

/-- The two overloads of `SetSize` store the same extents and the same scale matrix. -/
theorem SetSizeQuad_extents {K : Type} [LinearOrderedField K] (m : CHeightMap K)
    (QuadSize Height : K) (hr : 1 ≤ m.rows) (hc : 1 ≤ m.cols) :
    ∃ a b : CHeightMap K,
      SetSizeQuad m QuadSize Height = some a ∧
      SetSize m ((m.cols : K) * QuadSize) Height ((m.rows : K) * QuadSize) = some b ∧
      a.RenderScale = b.RenderScale ∧ a.RenderScaleMatrix = b.RenderScaleMatrix :=
  ⟨_, _, SetSizeQuad_eq m QuadSize Height hr hc, SetSize_eq m _ _ _ hr hc, rfl, rfl⟩

/-- C19 fails on the code. On the 2 by 2 mesh `sampleMesh`, `SetSize(1, 4)` and
`SetSize(cols * 1, 4, rows * 1)` store the same extents and the same scale matrix, but
the first stores the normal matrix `diag(1/2, 2, 1/2)` and the second `diag(1, 2, 1)`. -/
theorem SetSize_overloads_differ :
    ∃ a b : CHeightMap ℚ,
      SetSizeQuad sampleMesh 1 4 = some a ∧
      SetSize sampleMesh ((sampleMesh.cols : ℚ) * 1) 4 ((sampleMesh.rows : ℚ) * 1) = some b ∧
      a.RenderScale = b.RenderScale ∧ a.RenderScaleMatrix = b.RenderScaleMatrix ∧
      a.NormalScaleMatrix = ⟨⟨1 / 2, 0, 0⟩, ⟨0, 2, 0⟩, ⟨0, 0, 1 / 2⟩⟩ ∧
      b.NormalScaleMatrix = ⟨⟨1, 0, 0⟩, ⟨0, 2, 0⟩, ⟨0, 0, 1⟩⟩ ∧
      a.NormalScaleMatrix ≠ b.NormalScaleMatrix := by
  refine ⟨_, _, SetSizeQuad_eq sampleMesh 1 4 (by decide) (by decide),
    SetSize_eq sampleMesh _ _ _ (by decide) (by decide), rfl, rfl, ?_, ?_, ?_⟩
  · simp only [sampleMesh]
    norm_num
  · simp only [sampleMesh]
    norm_num
  · intro h
    have := congrArg (fun M : mat3 ℚ => M.c0.x) h
    simp only [sampleMesh] at this
    norm_num at this

/-! ## Degenerate images -/

theorem allSome_none {α : Type} :
    ∀ l : List (Option α), none ∈ l → allSome l = none := by
  intro l
  induction l with
  | nil => intro h; exact absurd h (List.not_mem_nil _)
  | cons a l ih =>
    intro h
    cases a with
    | none => rfl
    | some a =>
      have hl : none ∈ l := by
        rcases List.mem_cons.mp h with h | h
        · exact absurd h (by simp)
        · exact h
      simp [allSome, ih hl]

theorem tabulate_none {α : Type} (n : Int) (f : Int → Option α) (i : Nat)
    (hi : i < n.toNat) (h : f (i : Int) = none) : tabulate n f = none := by
  unfold tabulate
  apply allSome_none
  rw [List.mem_map]
  exact ⟨i, List.mem_range.mpr hi, h⟩

/-- With one row or one column the sampling loop has no value for any cell. -/
theorem sampleCell_degenerate {K : Type} [LinearOrderedField K] (rows cols : Int)
    (h : rows = 1 ∨ cols = 1) (height : Int → Int → K) (i j : Int) :
    sampleCell rows cols height i j = none := by
  unfold sampleCell
  rcases h with h | h
  · subst h
    cases hc : fdiv (j : K) ((cols - 1 : Int) : K) with
    | none => rfl
    | some a => simp [fdiv]
  · subst h
    simp [fdiv]

/-- C16. An image with one row or one column (pixels present, 1, 3 or 4 bytes per
pixel, the other dimension at least 1) passes the format test of `Load`, and the
sampling loop then divides by `rows - 1 = 0` or by `cols - 1 = 0`: no cell has a
position, and `Load` has no value. -/
theorem Load_degenerate_dimensions {K : Type} [LinearOrderedField K] (sqrt : K → K)
    (m : CHeightMap K) (gl : GLContext) (s : SDL_Surface) (DataPtr : Nat → Fin 256)
    (hp : s.pixels = some DataPtr)
    (hb : s.BytesPerPixel = 1 ∨ s.BytesPerPixel = 3 ∨ s.BytesPerPixel = 4)
    (hr : 1 ≤ s.h) (hc : 1 ≤ s.w) (hdeg : s.h = 1 ∨ s.w = 1) :
    formatRejected s = false ∧
    (((s.h - 1 : Int) : K) = 0 ∨ ((s.w - 1 : Int) : K) = 0) ∧
    (∀ (j : Int), s.w = 1 → fdiv (j : K) ((s.w - 1 : Int) : K) = none) ∧
    (∀ (i : Int), s.h = 1 → fdiv (i : K) ((s.h - 1 : Int) : K) = none) ∧
    (∀ (height : Int → Int → K) (i j : Int), sampleCell s.h s.w height i j = none) ∧
    (∀ height : Int → Int → K, sampleGrids s.h s.w height = none) ∧
    Load sqrt m gl (some s) = none := by
  have hacc : formatRejected s = false := by
    cases h : formatRejected s
    · rfl
    · have := (formatRejected_iff s).mp h
      rw [hp] at this
      simp only [reduceCtorEq, false_or] at this
      omega
  have hcell : ∀ (height : Int → Int → K) (i j : Int), sampleCell s.h s.w height i j = none :=
    sampleCell_degenerate s.h s.w hdeg
  have hgrid : ∀ height : Int → Int → K, sampleGrids s.h s.w height = none := by
    intro height
    unfold sampleGrids tabulate2
    rw [tabulate_none s.h _ 0 (by omega)
      (tabulate_none s.w _ 0 (by omega) (hcell height _ _))]
    rfl
  refine ⟨hacc, ?_, ?_, ?_, hcell, hgrid, ?_⟩
  · rcases hdeg with h | h
    · left; rw [h]; simp
    · right; rw [h]; simp
  · intro j h; rw [h]; simp [fdiv]
  · intro i h; rw [h]; simp [fdiv]
  · unfold Load
    rw [Load_prologue]
    simp only [hacc, Bool.false_eq_true, if_false, hp]
    rw [hgrid]
    rfl

/-! ## The height query at the vertices -/

/-- The clamped cell index of the scaled position of vertex `j` of `C ≥ 2` vertices:
`j * C / (C - 1)` truncates to `j`, or to `C` for the last vertex, which the clamp
brings back to `C - 1`. -/
theorem clamp_truncate_vertex {K : Type} [LinearOrderedField K] [FloorRing K] (C j : Int)
    (hC : 2 ≤ C) (hj0 : 0 ≤ j) (hj : j < C) :
    max (min (truncate ((j : K) * (C : K) / ((C - 1 : Int) : K))) (C - 1)) 0 = j := by
  have hd : (0 : K) < ((C - 1 : Int) : K) := by exact_mod_cast (by omega : 0 < C - 1)
  have hjK : (0 : K) ≤ (j : K) := by exact_mod_cast hj0
  have hCK : (0 : K) ≤ (C : K) := by exact_mod_cast (by omega : (0 : Int) ≤ C)
  have h0 : (0 : K) ≤ (j : K) * (C : K) / ((C - 1 : Int) : K) := by positivity
  have hcast : ((C - 1 : Int) : K) = (C : K) - 1 := by push_cast; ring
  by_cases hlast : j = C - 1
  · have e : (j : K) * (C : K) / ((C - 1 : Int) : K) = ((C : Int) : K) := by
      rw [hlast, mul_comm, mul_div_assoc, div_self (ne_of_gt hd), mul_one]
    rw [e, truncate_intCast]
    rw [min_eq_right (by omega), max_eq_left (by omega)]
    omega
  · have hjlt : j < C - 1 := by omega
    have hjltK : (j : K) < (C : K) - 1 := by
      rw [← hcast]; exact_mod_cast hjlt
    have hfl : truncate ((j : K) * (C : K) / ((C - 1 : Int) : K)) = j := by
      rw [truncate, if_pos h0, Int.floor_eq_iff]
      constructor
      · rw [le_div_iff₀ hd, hcast]
        nlinarith
      · rw [div_lt_iff₀ hd, hcast]
        nlinarith
    rw [hfl, min_eq_left (by omega), max_eq_left hj0]

/-- The round trip at the vertices in exact arithmetic, without any rounding: for a
mesh with a vertex grid of `rows ≥ 2` by `cols ≥ 2` entries and positive width and
depth, `GetHeight` at `x = (j / (cols - 1) - 0.5) * width` and
`z = (i / (rows - 1) - 0.5) * depth` returns `VertexData[i][j].y * RenderScale.y`. The
section on the vertices in binary32 has the statement with the rounding of the
machine. -/
theorem GetHeight_at_vertex {K : Type} [LinearOrderedField K] [FloorRing K]
    (m : CHeightMap K) (i j : Int) (y : K)
    (hshape : m.VertexData.Shape m.rows m.cols) (hr : 2 ≤ m.rows) (hc : 2 ≤ m.cols)
    (hi0 : 0 ≤ i) (hi : i < m.rows) (hj0 : 0 ≤ j) (hj : j < m.cols)
    (hx : 0 < m.RenderScale.x) (hz : 0 < m.RenderScale.z) :
    ∃ v : vec3 K, m.VertexData.at i j = some v ∧
      GetHeight m
        ⟨((j : K) / ((m.cols - 1 : Int) : K) - 0.5) * m.RenderScale.x, y,
         ((i : K) / ((m.rows - 1 : Int) : K) - 0.5) * m.RenderScale.z⟩
        = some (v.y * m.RenderScale.y, m) := by
  obtain ⟨v, hv⟩ := Grid.at_of_shape m.VertexData m.rows m.cols i j hshape hi0 hi hj0 hj
  refine ⟨v, hv, ?_⟩
  have hx' := ne_of_gt hx
  have hz' := ne_of_gt hz
  have ec : ∀ (a D n w : K), w ≠ 0 →
      ((a / D - 0.5) * w + w * 0.5) * n / w = a * n / D := by
    intro a D n w hw
    by_cases hD : D = 0
    · subst hD
      simp only [div_zero, zero_sub]
      field_simp
      ring
    · field_simp
      ring
  have hcol := heightColumn_eq m
    ⟨((j : K) / ((m.cols - 1 : Int) : K) - 0.5) * m.RenderScale.x, y,
     ((i : K) / ((m.rows - 1 : Int) : K) - 0.5) * m.RenderScale.z⟩ hx'
  have hrow := heightRow_eq m
    ⟨((j : K) / ((m.cols - 1 : Int) : K) - 0.5) * m.RenderScale.x, y,
     ((i : K) / ((m.rows - 1 : Int) : K) - 0.5) * m.RenderScale.z⟩ hz'
  simp only [ec _ _ _ _ hx', ec _ _ _ _ hz', clamp_truncate_vertex m.cols j hc hj0 hj,
    clamp_truncate_vertex m.rows i hr hi0 hi] at hcol hrow
  unfold GetHeight
  rw [hcol, hrow]
  simp [hv]

/-! ## The strips and the triangles of the normals -/

/-- The 8 floats of vertex `(i, j)` start at position `8 * vertexIndex cols i j` of the
data appended to `HeightMapData`. -/
theorem interleave_vertex {K : Type} [LinearOrderedField K] (rows cols : Nat)
    (P N : Int → Int → vec3 K) (T : Int → Int → vec2 K) (i j t : Nat)
    (hi : i < rows) (hj : j < cols) (ht : t < 8) :
    ∃ vertices : List K,
      interleave (rows : Int) (cols : Int) (Grid.ofFn rows cols P) (Grid.ofFn rows cols T)
        (Grid.ofFn rows cols N) = some vertices ∧
      vertices[8 * (vertexIndex cols i j).toNat + t]?
        = [(P i j).x, (P i j).y, (P i j).z, (T i j).x, (T i j).y,
            (N i j).x, (N i j).y, (N i j).z][t]? := by
  have hI : interleave (rows : Int) (cols : Int) (Grid.ofFn rows cols P) (Grid.ofFn rows cols T)
      (Grid.ofFn rows cols N) = some ((List.range rows).flatMap (fun (i : Nat) =>
        (List.range cols).flatMap (fun (j : Nat) =>
          [(P i j).x, (P i j).y, (P i j).z, (T i j).x, (T i j).y,
            (N i j).x, (N i j).y, (N i j).z]))) := by
    unfold interleave
    rw [tabulate2_eq_some (rows : Int) (cols : Int) _ (fun i j =>
      [(P i j).x, (P i j).y, (P i j).z, (T i j).x, (T i j).y, (N i j).x, (N i j).y, (N i j).z])]
    · simp only [Option.map_some', Grid.ofFn, Int.toNat_ofNat, List.flatten_flatten,
        List.map_map, List.flatMap_def]
      rfl
    · intro i j hi hj
      rw [Grid.ofFn_at _ _ _ _ _ (by omega) (by omega) (by omega) (by omega),
        Grid.ofFn_at _ _ _ _ _ (by omega) (by omega) (by omega) (by omega),
        Grid.ofFn_at _ _ _ _ _ (by omega) (by omega) (by omega) (by omega)]
      rfl
  refine ⟨_, hI, ?_⟩
  have hrowlen : ∀ i : Nat, ((List.range cols).flatMap (fun (j : Nat) =>
          [(P i j).x, (P i j).y, (P i j).z, (T i j).x, (T i j).y,
            (N i j).x, (N i j).y, (N i j).z])).length = cols * 8 :=
    fun i => length_flatMap_block (fun (j : Nat) =>
          [(P i j).x, (P i j).y, (P i j).z, (T i j).x, (T i j).y,
            (N i j).x, (N i j).y, (N i j).z]) 8 (fun _ => rfl) cols
  have hidx : 8 * (vertexIndex (cols : Int) (i : Int) (j : Int)).toNat + t
      = i * (cols * 8) + (j * 8 + t) := by
    have : (vertexIndex (cols : Int) (i : Int) (j : Int)).toNat = i * cols + j := by
      unfold vertexIndex
      have : (i : Int) * (cols : Int) + (j : Int) = ((i * cols + j : Nat) : Int) := by
        push_cast; ring
      rw [this, Int.toNat_ofNat]
    rw [this]
    ring
  rw [hidx, flatMap_block_get _ (cols * 8) hrowlen rows i (j * 8 + t) hi (by omega)]
  exact flatMap_block_get (fun (j : Nat) =>
          [(P i j).x, (P i j).y, (P i j).z, (T i j).x, (T i j).y,
            (N i j).x, (N i j).y, (N i j).z]) 8 (fun _ => rfl) cols j t hj ht

/-- An entry of a strip before its restart index is a vertex index. -/
theorem strip_entry_lt (rows cols i p : Nat) (hi : i + 1 < rows) (hp : p < 2 * cols) :
    ∃ v : Int, (emitIndices (rows : Int) (cols : Int) [])[i * (2 * cols + 1) + p]? = some v ∧
      0 ≤ v ∧ v < (rows : Int) * (cols : Int) := by
  have hcn : ((cols : Int)).toNat = cols := by simp
  have h := emitIndices_get rows cols i p (by omega) (by omega)
  rw [hcn] at h
  have hs := strip_get rows cols i (p / 2) (by rw [hcn]; omega)
  rw [hcn] at hs
  have hb := strip_index_lt rows cols i (p / 2) hi (by omega)
  rcases Nat.mod_two_eq_zero_or_one p with hpar | hpar
  · have hp2 : p = 2 * (p / 2) := by omega
    refine ⟨_, by rw [h, hp2, hs.1]; rw [← hp2], ?_, hb.1⟩
    positivity
  · have hp2 : p = 2 * (p / 2) + 1 := by omega
    exact ⟨_, by rw [h, hp2, hs.2]; rw [← hp2], hb.2.2, hb.2.1⟩

/-- C18. For `rows ≥ 2`, `cols ≥ 2`, a row `i ≤ rows - 2` and a quad column
`j ≤ cols - 2`, the index triple of strip `i` that starts at offset `2 * j` has the
vertices of `Triangle0` of quad `(i, j)` and the triple that starts at offset
`2 * j + 1` has the vertices of `Triangle1`; a triple within the `2 * cols` indices of
the strip holds vertex indices only, never the restart index. -/
theorem strip_triples_match_triangles (rows cols i j : Nat) (hr : 2 ≤ rows) (hc : 2 ≤ cols)
    (hi : i ≤ rows - 2) (hj : j ≤ cols - 2) :
    ∃ a b c d : Int,
      (emitIndices (rows : Int) (cols : Int) [])[i * (2 * cols + 1) + 2 * j]? = some a ∧
      (emitIndices (rows : Int) (cols : Int) [])[i * (2 * cols + 1) + 2 * j + 1]? = some b ∧
      (emitIndices (rows : Int) (cols : Int) [])[i * (2 * cols + 1) + 2 * j + 2]? = some c ∧
      (emitIndices (rows : Int) (cols : Int) [])[i * (2 * cols + 1) + 2 * j + 3]? = some d ∧
      [a, b, c].Perm (triangleIndices (cols : Int) 0 (i : Int) (j : Int)) ∧
      [b, c, d].Perm (triangleIndices (cols : Int) 1 (i : Int) (j : Int)) ∧
      (∀ q t : Nat, q + 2 < 2 * cols → t ≤ 2 →
        ∃ v : Int,
          (emitIndices (rows : Int) (cols : Int) [])[i * (2 * cols + 1) + q + t]? = some v ∧
          v ≠ (rows : Int) * (cols : Int) ∧ 0 ≤ v ∧ v < (rows : Int) * (cols : Int)) := by
  have hi' : i < ((rows : Int) - 1).toNat := by omega
  have hcn : ((cols : Int)).toNat = cols := by simp
  have g0 := emitIndices_get rows cols i (2 * j) hi' (by omega)
  have g1 := emitIndices_get rows cols i (2 * j + 1) hi' (by omega)
  have g2 := emitIndices_get rows cols i (2 * (j + 1)) hi' (by omega)
  have g3 := emitIndices_get rows cols i (2 * (j + 1) + 1) hi' (by omega)
  have s0 := strip_get rows cols i j (by rw [hcn]; omega)
  have s1 := strip_get rows cols i (j + 1) (by rw [hcn]; omega)
  rw [hcn] at g0 g1 g2 g3 s0 s1
  refine ⟨((i : Int) + 1) * (cols : Int) + (j : Int), (i : Int) * (cols : Int) + (j : Int),
    ((i : Int) + 1) * (cols : Int) + ((j + 1 : Nat) : Int),
    (i : Int) * (cols : Int) + ((j + 1 : Nat) : Int), ?_, ?_, ?_, ?_, ?_, ?_, ?_⟩
  · rw [g0]; exact s0.1
  · rw [Nat.add_assoc, g1]; exact s0.2
  · rw [show i * (2 * cols + 1) + 2 * j + 2 = i * (2 * cols + 1) + 2 * (j + 1) by omega, g2]
    exact s1.1
  · rw [show i * (2 * cols + 1) + 2 * j + 3 = i * (2 * cols + 1) + (2 * (j + 1) + 1) by omega,
      g3]
    exact s1.2
  · have e : triangleIndices (cols : Int) 0 (i : Int) (j : Int)
        = [(i : Int) * (cols : Int) + (j : Int), ((i : Int) + 1) * (cols : Int) + (j : Int),
            ((i : Int) + 1) * (cols : Int) + ((j + 1 : Nat) : Int)] := by
      simp [triangleIndices, triangleCorners, vertexIndex]
    rw [e]
    exact List.Perm.swap _ _ _
  · have e : triangleIndices (cols : Int) 1 (i : Int) (j : Int)
        = [((i : Int) + 1) * (cols : Int) + ((j + 1 : Nat) : Int),
            (i : Int) * (cols : Int) + ((j + 1 : Nat) : Int),
            (i : Int) * (cols : Int) + (j : Int)] := by
      simp [triangleIndices, triangleCorners, vertexIndex]
    rw [e]
    exact (List.perm_append_comm :
      List.Perm ([(i : Int) * (cols : Int) + (j : Int)] ++
        [((i : Int) + 1) * (cols : Int) + ((j + 1 : Nat) : Int),
          (i : Int) * (cols : Int) + ((j + 1 : Nat) : Int)]) _)
  · intro q t hq ht
    obtain ⟨v, hv, h0, hlt⟩ := strip_entry_lt rows cols i (q + t) (by omega) (by omega)
    rw [← Nat.add_assoc] at hv
    exact ⟨v, hv, ne_of_lt hlt, h0, hlt⟩

/-! ## Bounds of the accesses -/

/-- C20. For `rows ≥ 1` and `cols ≥ 1`, every access `Normals[k][r][c]` of the averaging
loop has `k < 2`, `0 ≤ r < rows - 1` and `0 ≤ c < cols - 1`, and every access to
`VertexData` of the face normal loop is inside the `rows` by `cols` grid; on vectors of
these sizes every one of these accesses has a value. -/
theorem loop_accesses_in_bounds (K : Type) (rows cols : Int) (_hr : 1 ≤ rows) (_hc : 1 ≤ cols) :
    (∀ i j : Int, 0 ≤ i → i < rows → 0 ≤ j → j < cols →
      ∀ a ∈ accumulated rows cols i j,
        a.1 < 2 ∧ 0 ≤ a.2.1 ∧ a.2.1 < rows - 1 ∧ 0 ≤ a.2.2 ∧ a.2.2 < cols - 1) ∧
    (∀ i j : Int, 0 ≤ i → i < rows - 1 → 0 ≤ j → j < cols - 1 → ∀ k : Nat,
      (0 ≤ (triangleCorners k i j).1.1 ∧ (triangleCorners k i j).1.1 < rows ∧
        0 ≤ (triangleCorners k i j).1.2 ∧ (triangleCorners k i j).1.2 < cols) ∧
      (0 ≤ (triangleCorners k i j).2.1.1 ∧ (triangleCorners k i j).2.1.1 < rows ∧
        0 ≤ (triangleCorners k i j).2.1.2 ∧ (triangleCorners k i j).2.1.2 < cols) ∧
      (0 ≤ (triangleCorners k i j).2.2.1 ∧ (triangleCorners k i j).2.2.1 < rows ∧
        0 ≤ (triangleCorners k i j).2.2.2 ∧ (triangleCorners k i j).2.2.2 < cols)) ∧
    (∀ (g0 g1 : Grid (vec3 K)), g0.Shape (rows - 1) (cols - 1) → g1.Shape (rows - 1) (cols - 1) →
      ∀ i j : Int, 0 ≤ i → i < rows → 0 ≤ j → j < cols →
        ∀ a ∈ accumulated rows cols i j, (normalAt [g0, g1] a).isSome = true) ∧
    (∀ VertexData : Grid (vec3 K), VertexData.Shape rows cols →
      ∀ i j : Int, 0 ≤ i → i < rows - 1 → 0 ≤ j → j < cols - 1 → ∀ k : Nat,
        (readTriangle VertexData k i j).isSome = true) := by
  have hcorner : ∀ i j : Int, 0 ≤ i → i < rows - 1 → 0 ≤ j → j < cols - 1 → ∀ k : Nat,
      (0 ≤ (triangleCorners k i j).1.1 ∧ (triangleCorners k i j).1.1 < rows ∧
        0 ≤ (triangleCorners k i j).1.2 ∧ (triangleCorners k i j).1.2 < cols) ∧
      (0 ≤ (triangleCorners k i j).2.1.1 ∧ (triangleCorners k i j).2.1.1 < rows ∧
        0 ≤ (triangleCorners k i j).2.1.2 ∧ (triangleCorners k i j).2.1.2 < cols) ∧
      (0 ≤ (triangleCorners k i j).2.2.1 ∧ (triangleCorners k i j).2.2.1 < rows ∧
        0 ≤ (triangleCorners k i j).2.2.2 ∧ (triangleCorners k i j).2.2.2 < cols) := by
    intro i j hi0 hi hj0 hj k
    unfold triangleCorners
    split <;> (simp only; omega)
  refine ⟨fun i j hi0 hi hj0 hj a ha => accumulated_in_range rows cols i j hi0 hi hj0 hj a ha,
    hcorner, ?_, ?_⟩
  · intro g0 g1 h0 h1 i j hi0 hi hj0 hj a ha
    obtain ⟨hk, hr0, hr1, hc0, hc1⟩ := accumulated_in_range rows cols i j hi0 hi hj0 hj a ha
    obtain ⟨k, r, c⟩ := a
    simp only at hk hr0 hr1 hc0 hc1
    have hk' : k = 0 ∨ k = 1 := by omega
    rcases hk' with rfl | rfl
    · obtain ⟨v, hv⟩ := Grid.at_of_shape g0 _ _ r c h0 hr0 hr1 hc0 hc1
      simp [normalAt, hv]
    · obtain ⟨v, hv⟩ := Grid.at_of_shape g1 _ _ r c h1 hr0 hr1 hc0 hc1
      simp [normalAt, hv]
  · intro VertexData hV i j hi0 hi hj0 hj k
    obtain ⟨⟨a1, a2, a3, a4⟩, ⟨b1, b2, b3, b4⟩, ⟨c1, c2, c3, c4⟩⟩ := hcorner i j hi0 hi hj0 hj k
    obtain ⟨v0, h0⟩ := Grid.at_of_shape VertexData _ _ _ _ hV a1 a2 a3 a4
    obtain ⟨v1, h1⟩ := Grid.at_of_shape VertexData _ _ _ _ hV b1 b2 b3 b4
    obtain ⟨v2, h2⟩ := Grid.at_of_shape VertexData _ _ _ _ hV c1 c2 c3 c4
    unfold readTriangle
    simp only [h0, h1, h2, Option.bind_eq_bind, Option.some_bind]
    rfl

/-! ## More theorems at concrete inputs -/

theorem Load_positions_witness :
    ∃ DataPtr : Nat → Fin 256, sampleImage.pixels = some DataPtr ∧
    ∃ (m' : CHeightMap ℚ) (gl' : GLContext),
      Load Rat.sqrt sampleMesh sampleContext (some sampleImage) = some (true, m', gl') ∧
      m'.rows = sampleImage.h ∧ m'.cols = sampleImage.w ∧
      ∀ i j : Int, 0 ≤ i → i < m'.rows → 0 ≤ j → j < m'.cols →
        ∃ v : vec3 ℚ, m'.VertexData.at i j = some v ∧
          v.x = (j : ℚ) / ((m'.cols - 1 : Int) : ℚ) - 0.5 ∧
          v.y = ((DataPtr ((sampleImage.BytesPerPixel : Int) * m'.cols * i
                  + (sampleImage.BytesPerPixel : Int) * j).toNat).val : ℚ) / 255 ∧
          v.z = (i : ℚ) / ((m'.rows - 1 : Int) : ℚ) - 0.5 ∧
          -0.5 ≤ v.x ∧ v.x ≤ 0.5 ∧ -0.5 ≤ v.z ∧ v.z ≤ 0.5 ∧ 0 ≤ v.y ∧ v.y ≤ 1 ∧
          (v.x = -0.5 ↔ j = 0) ∧ (v.x = 0.5 ↔ j = m'.cols - 1) ∧
          (v.z = -0.5 ↔ i = 0) ∧ (v.z = 0.5 ↔ i = m'.rows - 1) :=
  ⟨_, rfl, Load_positions Rat.sqrt Rat_sqrt_pos sampleMesh sampleContext sampleImage _ rfl
    (by decide) (by decide) (Or.inl rfl) (by decide)⟩

theorem face_normals_upward_witness :
    ∃ (VertexData : Grid (vec3 ℚ)) (CoordsData : Grid (vec2 ℚ))
      (Normals : List (Grid (vec3 ℚ))) (FinalNormals : Grid (vec3 ℚ)),
      sampleGrids 3 3 peakHeights = some (VertexData, CoordsData) ∧
      buildNormals Rat.sqrt 3 3 VertexData = some Normals ∧
      buildFinalNormals Rat.sqrt 3 3 Normals = some FinalNormals ∧
      (∀ (k : Nat) (r c : Int), k < 2 → 0 ≤ r → r < 3 - 1 → 0 ≤ c → c < 3 - 1 →
        ∃ v0 v1 v2 n : vec3 ℚ,
          readTriangle VertexData k r c = some (v0, v1, v2) ∧
          (cross (v0 - v1) (v1 - v2)).y
            = 1 / ((((3 : Int) - 1 : Int) : ℚ) * (((3 : Int) - 1 : Int) : ℚ)) ∧
          0 < (cross (v0 - v1) (v1 - v2)).y ∧ cross (v0 - v1) (v1 - v2) ≠ 0 ∧
          Rat.sqrt (dot (cross (v0 - v1) (v1 - v2)) (cross (v0 - v1) (v1 - v2))) ≠ 0 ∧
          glm.normalize Rat.sqrt (cross (v0 - v1) (v1 - v2)) = some n ∧
          normalAt Normals (k, r, c) = some n ∧ 0 < n.y) ∧
      (∀ i j : Int, 0 ≤ i → i < 3 → 0 ≤ j → j < 3 →
        ∃ s n : vec3 ℚ,
          normalSum Normals 3 3 i j = some s ∧ 0 < s.y ∧ s ≠ 0 ∧
          Rat.sqrt (dot s s) ≠ 0 ∧ glm.normalize Rat.sqrt s = some n ∧
          FinalNormals.at i j = some n) :=
  face_normals_upward Rat.sqrt Rat_sqrt_pos 3 3 (by decide) (by decide) peakHeights

theorem SetSize_normal_matrix_witness :
    ∃ m' : CHeightMap ℚ, SetSize sampleMesh 10 4 10 = some m' ∧
      m'.RenderScaleMatrix = glm.scale ⟨10, 4, 10⟩ ∧
      m'.NormalScaleMatrix =
        ⟨⟨10 / (sampleMesh.rows : ℚ), 0, 0⟩, ⟨0, 4 / (sampleMesh.cols : ℚ), 0⟩,
          ⟨0, 0, 10 / (sampleMesh.rows : ℚ)⟩⟩ ∧
      ((∃ c : ℚ, m'.NormalScaleMatrix =
          ⟨⟨c * (1 / 10), 0, 0⟩, ⟨0, c * (1 / 4), 0⟩, ⟨0, 0, c * (1 / 10)⟩⟩) ↔
        ((10 : ℚ) * 10 * (sampleMesh.cols : ℚ) = 4 * 4 * (sampleMesh.rows : ℚ) ∧
          (10 : ℚ) * 10 = 10 * 10)) ∧
      ((∀ n t : vec3 ℚ, dot n t = 0 →
          dot (mulVec m'.NormalScaleMatrix n) (mulDir m'.RenderScaleMatrix t) = 0) ↔
        ((10 : ℚ) * 10 * (sampleMesh.cols : ℚ) = 4 * 4 * (sampleMesh.rows : ℚ) ∧
          (10 : ℚ) * 10 = 10 * 10)) :=
  SetSize_normal_matrix sampleMesh 10 4 10 (by decide) (by decide) (by norm_num)
    (by norm_num) (by norm_num)

theorem Load_degenerate_dimensions_witness :
    formatRejected singleRowImage = false ∧
    Load Rat.sqrt sampleMesh sampleContext (some singleRowImage) = none :=
  ⟨(Load_degenerate_dimensions Rat.sqrt sampleMesh sampleContext singleRowImage _ rfl
      (Or.inl rfl) (by decide) (by decide) (Or.inl rfl)).1,
   (Load_degenerate_dimensions Rat.sqrt sampleMesh sampleContext singleRowImage _ rfl
      (Or.inl rfl) (by decide) (by decide) (Or.inl rfl)).2.2.2.2.2.2⟩

theorem GetHeight_at_vertex_witness :
    ∃ v : vec3 ℚ, sampleMesh.VertexData.at 1 1 = some v ∧
      GetHeight sampleMesh
        ⟨((((1 : Int) : ℚ)) / ((sampleMesh.cols - 1 : Int) : ℚ) - 0.5) * sampleMesh.RenderScale.x,
         3,
         ((((1 : Int) : ℚ)) / ((sampleMesh.rows - 1 : Int) : ℚ) - 0.5) * sampleMesh.RenderScale.z⟩
        = some (v.y * sampleMesh.RenderScale.y, sampleMesh) :=
  GetHeight_at_vertex sampleMesh 1 1 3 sampleMesh_shape (by decide) (by decide) (by decide)
    (by decide) (by decide) (by decide) (by simp [sampleMesh]) (by simp [sampleMesh])

theorem strip_triples_match_triangles_witness :
    ∃ a b c d : Int,
      (emitIndices ((3 : Nat) : Int) ((3 : Nat) : Int) [])[1 * (2 * 3 + 1) + 2 * 0]? = some a ∧
      (emitIndices ((3 : Nat) : Int) ((3 : Nat) : Int) [])[1 * (2 * 3 + 1) + 2 * 0 + 1]?
        = some b ∧
      (emitIndices ((3 : Nat) : Int) ((3 : Nat) : Int) [])[1 * (2 * 3 + 1) + 2 * 0 + 2]?
        = some c ∧
      (emitIndices ((3 : Nat) : Int) ((3 : Nat) : Int) [])[1 * (2 * 3 + 1) + 2 * 0 + 3]?
        = some d ∧
      [a, b, c].Perm (triangleIndices ((3 : Nat) : Int) 0 ((1 : Nat) : Int) ((0 : Nat) : Int)) ∧
      [b, c, d].Perm (triangleIndices ((3 : Nat) : Int) 1 ((1 : Nat) : Int) ((0 : Nat) : Int)) ∧
      (∀ q t : Nat, q + 2 < 2 * 3 → t ≤ 2 →
        ∃ v : Int,
          (emitIndices ((3 : Nat) : Int) ((3 : Nat) : Int) [])[1 * (2 * 3 + 1) + q + t]?
            = some v ∧
          v ≠ ((3 : Nat) : Int) * ((3 : Nat) : Int) ∧ 0 ≤ v ∧
          v < ((3 : Nat) : Int) * ((3 : Nat) : Int)) :=
  strip_triples_match_triangles 3 3 1 0 (by decide) (by decide) (by decide) (by decide)

theorem loop_accesses_in_bounds_witness :
    (((1 : Nat), (1 : Int), (0 : Int)) ∈ accumulated 3 2 1 1 ∧
      (1 : Nat) < 2 ∧ (0 : Int) ≤ 1 ∧ (1 : Int) < 3 - 1 ∧ (0 : Int) ≤ 0 ∧ (0 : Int) < 2 - 1) ∧
    (readTriangle sampleMesh.VertexData 1 0 0).isSome = true :=
  ⟨⟨by decide,
    (loop_accesses_in_bounds ℚ 3 2 (by decide) (by decide)).1 1 1 (by decide) (by decide)
      (by decide) (by decide) ((1 : Nat), (1 : Int), (0 : Int)) (by decide)⟩,
   (loop_accesses_in_bounds ℚ 2 2 (by decide) (by decide)).2.2.2 sampleMesh.VertexData
      sampleMesh_shape 0 0 (by decide) (by decide) (by decide) (by decide) 1⟩

/-! ## Rounding to binary32 -/

/-- The binade of a value between two consecutive powers of two. -/
theorem Int_log_two_eq (q : ℚ) (e : Int) (h1 : (2 : ℚ) ^ e ≤ |q|) (h2 : |q| < (2 : ℚ) ^ (e + 1)) :
    Int.log 2 |q| = e := by
  have hpos : 0 < |q| := lt_of_lt_of_le (by positivity) h1
  have a : e ≤ Int.log 2 |q| := (Int.zpow_le_iff_le_log (by norm_num) hpos).mp (by exact_mod_cast h1)
  have b : Int.log 2 |q| < e + 1 := (Int.lt_zpow_iff_log_lt (by norm_num) hpos).mp (by exact_mod_cast h2)
  omega

/-- Evaluation of `round32` on a value of binade `e`, in the normal range. -/
theorem round32_eq (q : ℚ) (e n : Int) (h1 : (2 : ℚ) ^ e ≤ |q|) (h2 : |q| < (2 : ℚ) ^ (e + 1))
    (he : -126 ≤ e) (hn : roundHalfEven (q / (2 : ℚ) ^ (e - 23)) = n)
    (hlt : |(n : ℚ) * (2 : ℚ) ^ (e - 23)| < 340282366920938463463374607431768211456) :
    round32 q = some ((n : ℚ) * (2 : ℚ) ^ (e - 23)) := by
  have hq : q ≠ 0 := by
    intro h
    rw [h, abs_zero] at h1
    exact absurd h1 (not_le.mpr (by positivity))
  unfold round32
  rw [if_neg hq, Int_log_two_eq q e h1 h2, max_eq_left (by omega), hn]
  simp only
  rw [if_neg (not_le.mpr hlt)]

theorem roundHalfEven_intCast (n : Int) : roundHalfEven (n : ℚ) = n := by
  unfold roundHalfEven
  simp

theorem roundHalfEven_down (x : ℚ) (f : Int) (h1 : (f : ℚ) ≤ x) (h2 : x < (f : ℚ) + 1 / 2) :
    roundHalfEven x = f := by
  have hf : Int.floor x = f := by
    rw [Int.floor_eq_iff]; constructor <;> linarith
  unfold roundHalfEven
  rw [hf, if_pos (by linarith)]

theorem roundHalfEven_up (x : ℚ) (f : Int) (h1 : (f : ℚ) + 1 / 2 < x) (h2 : x < (f : ℚ) + 1) :
    roundHalfEven x = f + 1 := by
  have hf : Int.floor x = f := by
    rw [Int.floor_eq_iff]; constructor <;> linarith
  unfold roundHalfEven
  rw [hf, if_neg (by linarith), if_pos (by linarith)]

theorem roundHalfEven_tie_odd (x : ℚ) (f : Int) (h : x = (f : ℚ) + 1 / 2) (hodd : f % 2 = 1) :
    roundHalfEven x = f + 1 := by
  have hf : Int.floor x = f := by
    rw [Int.floor_eq_iff]; constructor <;> linarith
  unfold roundHalfEven
  rw [hf, if_neg (by linarith), if_neg (by linarith), if_neg (by omega)]

/-- Evaluation of `round32` on a positive value of binade `e`, in the normal range. -/
theorem round32_pos (q : ℚ) (e n : Int) (h1 : (2 : ℚ) ^ e ≤ q) (h2 : q < (2 : ℚ) ^ (e + 1))
    (he : -126 ≤ e) (hn : roundHalfEven (q / (2 : ℚ) ^ (e - 23)) = n)
    (hlt : (n : ℚ) * (2 : ℚ) ^ (e - 23) < 340282366920938463463374607431768211456) (r : ℚ)
    (hr : (n : ℚ) * (2 : ℚ) ^ (e - 23) = r) (hr0 : 0 ≤ r) :
    round32 q = some r := by
  have hq : 0 < q := lt_of_lt_of_le (by positivity) h1
  rw [← hr]
  rw [← hr] at hr0
  exact round32_eq q e n (by rwa [abs_of_pos hq]) (by rwa [abs_of_pos hq]) he hn
    (by rwa [abs_of_nonneg hr0])

theorem roundHalfEven_exact (x : ℚ) (n : Int) (h : x = (n : ℚ)) : roundHalfEven x = n := by
  rw [h]; exact roundHalfEven_intCast n

theorem roundHalfEven_err (x : ℚ) : |(roundHalfEven x : ℚ) - x| ≤ 1 / 2 := by
  have h1 := Int.floor_le x
  have h2 := Int.lt_floor_add_one x
  unfold roundHalfEven
  rw [abs_le]
  split_ifs <;> push_cast <;> constructor <;> linarith

/-- The error of a rounding to binary32: half a unit in the last place, which is at
most `2^(-24)` of the value in the normal range and `2^(-150)` below it; values up to
`2^127` in size do not overflow. -/
theorem round32_err (q : ℚ) (hq : |q| ≤ 170141183460469231731687303715884105728) :
    ∃ r : ℚ, round32 q = some r ∧ |r - q| ≤ |q| / 16777216 + 1 / 1427247692705959881058285969449495136382746624 := by
  by_cases h0 : q = 0
  · refine ⟨0, by simp [round32, h0], ?_⟩
    rw [h0]
    norm_num
  · have hpos : 0 < |q| := abs_pos.mpr h0
    have hlog : (2 : ℚ) ^ Int.log 2 |q| ≤ |q| := Int.zpow_log_le_self (by norm_num) hpos
    have ht : (0 : ℚ) < (2 : ℚ) ^ (max (Int.log 2 |q| - 23) (-149)) := by positivity
    have herr := roundHalfEven_err (q / (2 : ℚ) ^ (max (Int.log 2 |q| - 23) (-149)))
    have hhalf : (2 : ℚ) ^ (max (Int.log 2 |q| - 23) (-149)) / 2 ≤ |q| / 2 ^ 24 + 1 / 2 ^ 150 := by
      rcases max_choice (Int.log 2 |q| - 23) (-149) with h | h
      · rw [h, zpow_sub₀ (by norm_num : (2 : ℚ) ≠ 0)]
        have : (0 : ℚ) ≤ 1 / 2 ^ 150 := by positivity
        have e : (2 : ℚ) ^ Int.log 2 |q| / 2 ^ (23 : Int) / 2 = (2 : ℚ) ^ Int.log 2 |q| / 2 ^ 24 := by
          norm_num
          ring
        rw [e]
        have : (2 : ℚ) ^ Int.log 2 |q| / 2 ^ 24 ≤ |q| / 2 ^ 24 :=
          div_le_div_of_nonneg_right hlog (by positivity)
        linarith
      · rw [h]
        have : (0 : ℚ) ≤ |q| / 2 ^ 24 := by positivity
        have e : (2 : ℚ) ^ (-149 : Int) / 2 = 1 / 2 ^ 150 := by norm_num
        linarith
    have hdiff : |(roundHalfEven (q / (2 : ℚ) ^ (max (Int.log 2 |q| - 23) (-149))) : ℚ)
          * (2 : ℚ) ^ (max (Int.log 2 |q| - 23) (-149)) - q|
        ≤ |q| / 2 ^ 24 + 1 / 2 ^ 150 := by
      have e : (roundHalfEven (q / (2 : ℚ) ^ (max (Int.log 2 |q| - 23) (-149))) : ℚ)
          * (2 : ℚ) ^ (max (Int.log 2 |q| - 23) (-149)) - q
          = ((roundHalfEven (q / (2 : ℚ) ^ (max (Int.log 2 |q| - 23) (-149))) : ℚ)
              - q / (2 : ℚ) ^ (max (Int.log 2 |q| - 23) (-149)))
            * (2 : ℚ) ^ (max (Int.log 2 |q| - 23) (-149)) := by
        field_simp
      rw [e, abs_mul, abs_of_pos ht]
      have := mul_le_mul_of_nonneg_right herr (le_of_lt ht)
      linarith
    have e24 : (2 : ℚ) ^ 24 = 16777216 := by norm_num
    have e150 : (2 : ℚ) ^ 150 = 1427247692705959881058285969449495136382746624 := by norm_num
    refine ⟨_, ?_, by rw [e24, e150] at hdiff; exact hdiff⟩
    unfold round32
    rw [if_neg h0]
    simp only
    rw [if_neg]
    rw [not_le]
    have h3 := abs_sub_abs_le_abs_sub
      ((roundHalfEven (q / (2 : ℚ) ^ (max (Int.log 2 |q| - 23) (-149))) : ℚ)
          * (2 : ℚ) ^ (max (Int.log 2 |q| - 23) (-149))) q
    have h4 : |q| / 2 ^ 24 ≤ 170141183460469231731687303715884105728 / 2 ^ 24 :=
      div_le_div_of_nonneg_right hq (by positivity)
    have h5 : (170141183460469231731687303715884105728 : ℚ) / 2 ^ 24 + 1 / 2 ^ 150
        + 170141183460469231731687303715884105728
        < 340282366920938463463374607431768211456 := by norm_num
    linarith

/-- Whole numbers below `2^24` are binary32 values. -/
theorem round32_intCast (n : Int) (h0 : 0 ≤ n) (h : n < 16777216) :
    round32 (n : ℚ) = some (n : ℚ) := by
  by_cases hn : n = 0
  · simp [round32, hn]
  · have hq0 : (n : ℚ) ≠ 0 := by exact_mod_cast hn
    have hpos : (0 : ℚ) < (n : ℚ) := by exact_mod_cast (by omega : 0 < n)
    have h1 : (1 : ℚ) ≤ (n : ℚ) := by exact_mod_cast (by omega : 1 ≤ n)
    have hlog : Int.log 2 |(n : ℚ)| = (Nat.log 2 n.toNat : Int) := by
      rw [abs_of_pos hpos, Int.log_of_one_le_right 2 h1]
      rw [← Int.floor_toNat, Int.floor_intCast]
    have hk : Nat.log 2 n.toNat < 24 :=
      Nat.log_lt_of_lt_pow (by omega) (by norm_num; omega)
    generalize Nat.log 2 n.toNat = k at hlog hk
    have hmax : max ((k : Int) - 23) (-149) = -((23 - k : Nat) : Int) := by
      rw [max_eq_left (by omega)]
      omega
    have hz : (2 : ℚ) ^ (-((23 - k : Nat) : Int)) = 1 / (2 : ℚ) ^ (23 - k) := by
      rw [zpow_neg, zpow_natCast, one_div]
    have hp : (0 : ℚ) < (2 : ℚ) ^ (23 - k) := by positivity
    have hr : roundHalfEven ((n : ℚ) / (1 / (2 : ℚ) ^ (23 - k))) = n * 2 ^ (23 - k) := by
      apply roundHalfEven_exact
      push_cast
      field_simp
    unfold round32
    rw [if_neg hq0, hlog, hmax, hz, hr]
    simp only
    have e : (((n * 2 ^ (23 - k) : Int)) : ℚ) * (1 / (2 : ℚ) ^ (23 - k)) = (n : ℚ) := by
      push_cast
      field_simp
    rw [e, if_neg]
    rw [not_le, abs_of_pos hpos]
    have : (n : ℚ) < 16777216 := by exact_mod_cast h
    linarith

theorem F32.add_some (x y : ℚ) : F32.add (some x) (some y) = round32 (x + y) := rfl

theorem F32.mul_some (x y : ℚ) : F32.mul (some x) (some y) = round32 (x * y) := rfl

theorem F32.div_some (x y : ℚ) (hy : y ≠ 0) :
    F32.div (some x) (some y) = round32 (x / y) := by
  show (if y = 0 then none else round32 (x / y)) = _
  rw [if_neg hy]

theorem F32.div_zero (a : F32) : F32.div a (some 0) = none := by
  cases a with
  | none => rfl
  | some x =>
    show (if (0 : ℚ) = 0 then none else round32 (x / 0)) = _
    rw [if_pos rfl]

theorem F32.ofInt_eq (n : Int) (h0 : 0 ≤ n) (h : n < 16777216) : F32.ofInt n = some (n : ℚ) :=
  round32_intCast n h0 h

theorem abs_mul_le_of (t w c : ℚ) (hw : 0 ≤ w) (ht : |t| ≤ c) : |t * w| ≤ c * w := by
  rw [abs_mul, abs_of_nonneg hw]
  exact mul_le_mul_of_nonneg_right ht hw

/-- A rounding to binary32 of a value of size at most `c`, where `c ≤ 2^127`. -/
theorem round32_err_le (v c : ℚ) (hv : |v| ≤ c)
    (hc : c ≤ 170141183460469231731687303715884105728) :
    ∃ r : ℚ, round32 v = some r ∧
      -(c / 16777216 + 1 / 1427247692705959881058285969449495136382746624) ≤ r - v ∧
      r - v ≤ c / 16777216 + 1 / 1427247692705959881058285969449495136382746624 := by
  obtain ⟨r, hr, he⟩ := round32_err v (le_trans hv hc)
  refine ⟨r, hr, abs_le.mp (le_trans he (add_le_add_right
    (div_le_div_of_nonneg_right hv (by norm_num)) _))⟩

theorem F32.toInt_of_range (undef : F32 → Int) (q : ℚ) (h1 : -2147483649 < q)
    (h2 : q < 2147483648) : F32.toInt undef (some q) = truncate q := by
  show (if -2147483649 < q ∧ q < 2147483648 then truncate q else undef _) = _
  rw [if_pos ⟨h1, h2⟩]

theorem F32.toInt_of_large (undef : F32 → Int) (q : ℚ) (h : 2147483648 ≤ q) :
    F32.toInt undef (some q) = undef (some q) := by
  show (if -2147483649 < q ∧ q < 2147483648 then truncate q else undef _) = _
  rw [if_neg (fun hc => absurd hc.2 (not_lt.mpr h))]

/-! ## The height query in binary32 -/

theorem heightColumn32_bounds (undef : F32 → Int) (m : CHeightMap F32) (position : vec3 F32)
    (hc : 1 ≤ m.cols) :
    0 ≤ heightColumn32 undef m position ∧ heightColumn32 undef m position ≤ m.cols - 1 := by
  unfold heightColumn32
  constructor
  · exact le_max_right _ _
  · exact max_le (min_le_right _ _) (by omega)

theorem heightRow32_bounds (undef : F32 → Int) (m : CHeightMap F32) (position : vec3 F32)
    (hr : 1 ≤ m.rows) :
    0 ≤ heightRow32 undef m position ∧ heightRow32 undef m position ≤ m.rows - 1 := by
  unfold heightRow32
  constructor
  · exact le_max_right _ _
  · exact max_le (min_le_right _ _) (by omega)

/-- C4. For a mesh over binary32 whose vertex grid has `rows ≥ 1` rows of `cols ≥ 1`
entries, for every position (finite or not), all extents (zero, infinite and NaN
included) and every result `undef` of the conversions to `int` that C++ leaves
undefined, the row and the column that `GetHeight` computes by truncation and clamping
satisfy `0 ≤ row ≤ rows - 1` and `0 ≤ column ≤ cols - 1`, the lookup
`VertexData[row][column]` is inside the grid, `GetHeight` returns its `y` times
`RenderScale.y`, and the mesh is left as it was. -/
theorem GetHeight32_total (undef : F32 → Int) (m : CHeightMap F32) (position : vec3 F32)
    (hshape : m.VertexData.Shape m.rows m.cols) (hr : 1 ≤ m.rows) (hc : 1 ≤ m.cols) :
    ∃ v : vec3 F32,
      0 ≤ heightRow32 undef m position ∧ heightRow32 undef m position ≤ m.rows - 1 ∧
      0 ≤ heightColumn32 undef m position ∧ heightColumn32 undef m position ≤ m.cols - 1 ∧
      m.VertexData.at (heightRow32 undef m position) (heightColumn32 undef m position)
        = some v ∧
      GetHeight32 undef m position = some (F32.mul v.y m.RenderScale.y, m) := by
  obtain ⟨hr0, hr1⟩ := heightRow32_bounds undef m position hr
  obtain ⟨hc0, hc1⟩ := heightColumn32_bounds undef m position hc
  obtain ⟨v, hv⟩ := Grid.at_of_shape m.VertexData m.rows m.cols _ _ hshape hr0 (by omega)
    hc0 (by omega)
  refine ⟨v, hr0, hr1, hc0, hc1, hv, ?_⟩
  unfold GetHeight32
  rw [hv]
  rfl

/-! ## The height query at the vertices, in binary32 -/

/-- The rounding errors of the position of a vertex: for `0 ≤ A ≤ 1`, the binary32
value of `-0.5 + A` is within `2^(-22)` of `A - 1/2`. -/
theorem vertex_coordinate32 (A : ℚ) (hA0 : 0 ≤ A) (hA1 : A ≤ 1) :
    ∃ x : ℚ, F32.add (some (-1 / 2)) (round32 A) = some x ∧
      |x - (A - 1 / 2)| ≤ 1 / 4194304 ∧ |x| ≤ 1 := by
  obtain ⟨a, ha, ha1, ha2⟩ := round32_err_le A 1 (by rw [abs_of_nonneg hA0]; exact hA1)
    (by norm_num)
  rw [ha, F32.add_some]
  have hv2 : |(-1 / 2 + a : ℚ)| ≤ 1 := by
    rw [abs_le]
    constructor <;> linarith
  obtain ⟨x, hx, hx1, hx2⟩ := round32_err_le (-1 / 2 + a) 1 hv2 (by norm_num)
  refine ⟨x, hx, ?_, ?_⟩ <;> rw [abs_le] <;> constructor <;> linarith

/-- The rounding errors of the shift of `GetHeight`: for a coordinate `x` within
`2^(-22)` of `A - 1/2` and a width `w` between `2^(-100)` and `2^100`, the binary32
value of `x * w + w * 0.5` is within `9 * 2^(-24) * w` of `A * w`. -/
theorem shifted_position32 (A x w : ℚ) (hA0 : 0 ≤ A) (hA1 : A ≤ 1)
    (hxA : |x - (A - 1 / 2)| ≤ 1 / 4194304) (hxa : |x| ≤ 1)
    (hw1 : 1 / 1267650600228229401496703205376 ≤ w)
    (hw2 : w ≤ 1267650600228229401496703205376) :
    ∃ s : ℚ, F32.add (F32.mul (some x) (some w)) (F32.mul (some w) (some (1 / 2))) = some s ∧
      |s - A * w| ≤ 9 / 16777216 * w := by
  have hw0 : (0 : ℚ) < w := lt_of_lt_of_le (by norm_num) hw1
  obtain ⟨px, hpx, hpx1, hpx2⟩ := round32_err_le (x * w) (1 * w)
    (abs_mul_le_of x w 1 (le_of_lt hw0) hxa) (by linarith)
  have hv4 : |w * (1 / 2)| ≤ 1 * w := by
    rw [abs_of_nonneg (by linarith)]
    linarith
  obtain ⟨h, hh, hh1, hh2⟩ := round32_err_le (w * (1 / 2)) (1 * w) hv4 (by linarith)
  rw [F32.mul_some, F32.mul_some, hpx, hh, F32.add_some]
  have hxA' := abs_le.mp (abs_mul_le_of _ w _ (le_of_lt hw0) hxA)
  have hAw : 0 ≤ A * w := mul_nonneg hA0 (le_of_lt hw0)
  have hAw1 : A * w ≤ 1 * w := mul_le_mul_of_nonneg_right hA1 (le_of_lt hw0)
  clear hxA hxa hv4 hpx hh
  have hv5 : |px + h| ≤ 2 * w := by
    rw [abs_le]
    constructor <;> linarith
  obtain ⟨s, hs, hs1, hs2⟩ := round32_err_le (px + h) (2 * w) hv5 (by linarith)
  refine ⟨s, hs, ?_⟩
  clear hv5 hs
  rw [abs_le]
  constructor <;> linarith

/-- The rounding errors of the index expression of `GetHeight`: for a shifted position
`s` within `9 * 2^(-24) * w` of `A * w` and `2 ≤ c ≤ 1024`, the binary32 value of
`s * c / w` is within `1/1024` of `A * c`. -/
theorem index_quotient32 (A s w c : ℚ) (hA0 : 0 ≤ A) (hA1 : A ≤ 1)
    (hsA : |s - A * w| ≤ 9 / 16777216 * w) (hc2 : 2 ≤ c) (hc1024 : c ≤ 1024)
    (hw1 : 1 / 1267650600228229401496703205376 ≤ w)
    (hw2 : w ≤ 1267650600228229401496703205376) :
    ∃ q : ℚ, F32.div (F32.mul (some s) (some c)) (some w) = some q ∧
      |q - A * c| ≤ 1 / 1024 := by
  have hw0 : (0 : ℚ) < w := lt_of_lt_of_le (by norm_num) hw1
  have hAw : 0 ≤ A * w := mul_nonneg hA0 (le_of_lt hw0)
  have hAw1 : A * w ≤ 1 * w := mul_le_mul_of_nonneg_right hA1 (le_of_lt hw0)
  have hsa : |s| ≤ 3 * w := by
    rw [abs_le]
    have := abs_le.mp hsA
    constructor <;> linarith
  have hv6 : |s * c| ≤ 3 * w * 1024 := by
    rw [abs_mul, abs_of_nonneg (by linarith : (0 : ℚ) ≤ c)]
    exact mul_le_mul hsa hc1024 (by linarith) (by linarith)
  obtain ⟨p, hp, hp1, hp2⟩ := round32_err_le (s * c) (3 * w * 1024) hv6 (by linarith)
  rw [F32.mul_some, hp, F32.div_some _ _ (ne_of_gt hw0)]
  have hsAc : |(s - A * w) * c| ≤ 9 / 16777216 * w * 1024 := by
    rw [abs_mul, abs_of_nonneg (by linarith : (0 : ℚ) ≤ c)]
    exact mul_le_mul hsA hc1024 (by linarith) (by linarith)
  have hsAc' := abs_le.mp hsAc
  have ht : p / w * w = p := div_mul_cancel₀ p (ne_of_gt hw0)
  have hAc0 : 0 ≤ A * c := mul_nonneg hA0 (by linarith)
  have hAc1 : A * c ≤ 1 * 1024 := mul_le_mul hA1 hc1024 (by linarith) (by linarith)
  clear hsAc hv6 hsa hsA hp
  have hq1 : p / w - A * c ≤ 12288 / 16777216 + 1 / 1125899906842624 := by
    apply le_of_mul_le_mul_right _ hw0
    linarith
  have hq2 : -(12288 / 16777216 + 1 / 1125899906842624) ≤ p / w - A * c := by
    apply le_of_mul_le_mul_right _ hw0
    linarith
  have hv7 : |p / w| ≤ 1025 := by
    rw [abs_le]
    constructor <;> linarith
  obtain ⟨q, hq, hq3, hq4⟩ := round32_err_le (p / w) 1025 hv7 (by norm_num)
  refine ⟨q, hq, ?_⟩
  rw [abs_le]
  constructor <;> linarith

/-- The rounding errors of the scaled position of vertex `j` of `C ≤ 1024` and of the
index expression of `GetHeight` there: the quotient `q` that is converted to `int` is
within `1/1024` of `j * C / (C - 1)`. -/
theorem vertex_quotient32 (C j : Int) (w : ℚ) (hC : 2 ≤ C) (hC' : C ≤ 1024)
    (hj0 : 0 ≤ j) (hj : j < C) (hw1 : 1 / 2 ^ 100 ≤ w) (hw2 : w ≤ 2 ^ 100) :
    ∃ q : ℚ,
      F32.div (F32.mul (F32.add (F32.mul (F32.add (some (-1 / 2))
          (F32.div (F32.ofInt j) (F32.ofInt (C - 1)))) (some w))
        (F32.mul (some w) (some (1 / 2)))) (F32.ofInt C)) (some w) = some q ∧
      |q - (j : ℚ) / ((C - 1 : Int) : ℚ) * (C : ℚ)| ≤ 1 / 1024 := by
  have hw1' : (1 : ℚ) / 1267650600228229401496703205376 ≤ w := by
    norm_num at hw1 ⊢
    exact hw1
  have hw2' : w ≤ 1267650600228229401496703205376 := by
    norm_num at hw2
    exact hw2
  clear hw1 hw2
  have hn0 : (0 : ℚ) < ((C - 1 : Int) : ℚ) := by exact_mod_cast (by omega : 0 < C - 1)
  have hjq : (0 : ℚ) ≤ (j : ℚ) := by exact_mod_cast hj0
  have hjn : (j : ℚ) ≤ ((C - 1 : Int) : ℚ) := by exact_mod_cast (by omega : j ≤ C - 1)
  have hc2 : (2 : ℚ) ≤ (C : ℚ) := by exact_mod_cast hC
  have hc1024 : (C : ℚ) ≤ 1024 := by exact_mod_cast hC'
  have hA0 : (0 : ℚ) ≤ (j : ℚ) / ((C - 1 : Int) : ℚ) := div_nonneg hjq (le_of_lt hn0)
  have hA1 : (j : ℚ) / ((C - 1 : Int) : ℚ) ≤ 1 := (div_le_one hn0).mpr hjn
  rw [F32.ofInt_eq j hj0 (by omega), F32.ofInt_eq (C - 1) (by omega) (by omega),
    F32.ofInt_eq C (by omega) (by omega), F32.div_some _ _ (ne_of_gt hn0)]
  obtain ⟨x, hx, hxA, hxa⟩ := vertex_coordinate32 _ hA0 hA1
  rw [hx]
  obtain ⟨s, hs, hsA⟩ := shifted_position32 _ x w hA0 hA1 hxA hxa hw1' hw2'
  rw [hs]
  exact index_quotient32 _ s w _ hA0 hA1 hsA hc2 hc1024 hw1' hw2'

/-- The clamped cell index of a quotient within `1/1024` of `j * C / (C - 1)`, for
vertex `j` of `C ≤ 1024`: truncation gives `j`, or at least `C - 1` for the last
vertex. -/
theorem clamp_toInt_vertex (undef : F32 → Int) (C j : Int) (q : ℚ) (hC : 2 ≤ C)
    (hC' : C ≤ 1024) (hj0 : 0 ≤ j) (hj : j < C)
    (hq : |q - (j : ℚ) / ((C - 1 : Int) : ℚ) * (C : ℚ)| ≤ 1 / 1024) :
    max (min (F32.toInt undef (some q)) (C - 1)) 0 = j := by
  have hn0 : (0 : ℚ) < ((C - 1 : Int) : ℚ) := by exact_mod_cast (by omega : 0 < C - 1)
  have hn1 : ((C - 1 : Int) : ℚ) ≤ 1023 := by exact_mod_cast (by omega : C - 1 ≤ 1023)
  have hjq : (0 : ℚ) ≤ (j : ℚ) := by exact_mod_cast hj0
  have hjn : (j : ℚ) ≤ ((C - 1 : Int) : ℚ) := by exact_mod_cast (by omega : j ≤ C - 1)
  have hcast : (C : ℚ) = ((C - 1 : Int) : ℚ) + 1 := by push_cast; ring
  have hD0 : (0 : ℚ) ≤ (j : ℚ) / ((C - 1 : Int) : ℚ) := div_nonneg hjq (le_of_lt hn0)
  have hD1 : (j : ℚ) / ((C - 1 : Int) : ℚ) ≤ 1 := (div_le_one hn0).mpr hjn
  have hDn : (j : ℚ) / ((C - 1 : Int) : ℚ) * ((C - 1 : Int) : ℚ) = (j : ℚ) :=
    div_mul_cancel₀ _ (ne_of_gt hn0)
  rw [hcast] at hq
  generalize (j : ℚ) / ((C - 1 : Int) : ℚ) = D at hq hD0 hD1 hDn
  have hq' := abs_le.mp hq
  have hexp : D * (((C - 1 : Int) : ℚ) + 1) = (j : ℚ) + D := by rw [mul_add, hDn, mul_one]
  rw [hexp] at hq'
  have hrange : -2147483649 < q ∧ q < 2147483648 := by
    constructor <;> linarith
  rw [F32.toInt_of_range undef q hrange.1 hrange.2]
  rcases lt_or_le 0 j with hjpos | hjz
  · have hj1 : (1 : ℚ) ≤ (j : ℚ) := by exact_mod_cast (by omega : 1 ≤ j)
    have hDlow : 1 / 1023 ≤ D := by
      have := mul_nonneg hD0 (by linarith : (0 : ℚ) ≤ 1023 - ((C - 1 : Int) : ℚ))
      linarith
    have hq0 : 0 ≤ q := by linarith
    rcases lt_or_le j (C - 1) with hlt | hge
    · have hjn1 : (j : ℚ) + 1 ≤ ((C - 1 : Int) : ℚ) := by exact_mod_cast (by omega : j + 1 ≤ C - 1)
      have hDup : D ≤ 1 - 1 / 1023 := by
        have := mul_nonneg (by linarith : (0 : ℚ) ≤ 1 - D)
          (by linarith : (0 : ℚ) ≤ 1023 - ((C - 1 : Int) : ℚ))
        linarith
      have hfl : truncate q = j := by
        rw [truncate, if_pos hq0, Int.floor_eq_iff]
        constructor <;> linarith
      rw [hfl, min_eq_left (by omega), max_eq_left hj0]
    · have hjC : j = C - 1 := by omega
      have hD : D = 1 := by
        have : (j : ℚ) = ((C - 1 : Int) : ℚ) := by exact_mod_cast hjC
        rw [this] at hDn
        exact mul_right_cancel₀ (ne_of_gt hn0) (by rw [hDn, one_mul])
      have hfl : C - 1 ≤ truncate q := by
        rw [truncate, if_pos hq0, Int.le_floor]
        rw [hD] at hq'
        have : (j : ℚ) = ((C - 1 : Int) : ℚ) := by exact_mod_cast hjC
        linarith
      rw [min_eq_right hfl, max_eq_left (by omega)]
      omega
  · have hjz' : j = 0 := by omega
    subst hjz'
    have hD : D = 0 := by
      rw [Int.cast_zero] at hDn
      rcases mul_eq_zero.mp hDn with h | h
      · exact h
      · exact absurd h (ne_of_gt hn0)
    rw [hD] at hq'
    simp only [Int.cast_zero, add_zero] at hq'
    have hfl : truncate q = 0 := by
      unfold truncate
      split_ifs with h
      · rw [Int.floor_eq_iff]
        constructor
        · simpa using h
        · norm_num
          linarith
      · rw [Int.ceil_eq_iff]
        constructor
        · norm_num
          linarith
        · norm_num
          linarith
    rw [hfl]
    simp

theorem heightColumn32_at_vertex (undef : F32 → Int) (m : CHeightMap F32) (j : Int)
    (w : ℚ) (y z : F32) (hc : 2 ≤ m.cols) (hc' : m.cols ≤ 1024) (hj0 : 0 ≤ j)
    (hj : j < m.cols) (hx : m.RenderScale.x = some w) (hw1 : 1 / 2 ^ 100 ≤ w)
    (hw2 : w ≤ 2 ^ 100) :
    heightColumn32 undef m ⟨F32.mul (vertexX32 m.cols j) m.RenderScale.x, y, z⟩ = j := by
  obtain ⟨q, hq, hqe⟩ := vertex_quotient32 m.cols j w hc hc' hj0 hj hw1 hw2
  unfold heightColumn32 vertexX32
  simp only [hx]
  rw [hq]
  exact clamp_toInt_vertex undef m.cols j q hc hc' hj0 hj hqe

theorem heightRow32_at_vertex (undef : F32 → Int) (m : CHeightMap F32) (i : Int)
    (d : ℚ) (x y : F32) (hr : 2 ≤ m.rows) (hr' : m.rows ≤ 1024) (hi0 : 0 ≤ i)
    (hi : i < m.rows) (hz : m.RenderScale.z = some d) (hd1 : 1 / 2 ^ 100 ≤ d)
    (hd2 : d ≤ 2 ^ 100) :
    heightRow32 undef m ⟨x, y, F32.mul (vertexZ32 m.rows i) m.RenderScale.z⟩ = i := by
  obtain ⟨q, hq, hqe⟩ := vertex_quotient32 m.rows i d hr hr' hi0 hi hd1 hd2
  unfold heightRow32 vertexZ32
  simp only [hz]
  rw [hq]
  exact clamp_toInt_vertex undef m.rows i q hr hr' hi0 hi hqe

/-- C17, as amended. In binary32, for a mesh with a vertex grid of `2 ≤ rows ≤ 1024` by
`2 ≤ cols ≤ 1024` entries and a width and a depth between `2^(-100)` and `2^100`,
`GetHeight` at the scaled position of vertex `(i, j)`, whose `x` is the product of the
vertex's `-0.5f + float(j) / float(cols - 1)` with the width and whose `z` is the
product of `-0.5f + float(i) / float(rows - 1)` with the depth, returns
`VertexData[i][j].y * RenderScale.y`. -/
theorem GetHeight32_at_vertex (undef : F32 → Int) (m : CHeightMap F32) (i j : Int)
    (w d : ℚ) (y : F32) (hshape : m.VertexData.Shape m.rows m.cols)
    (hr : 2 ≤ m.rows) (hr' : m.rows ≤ 1024) (hc : 2 ≤ m.cols) (hc' : m.cols ≤ 1024)
    (hi0 : 0 ≤ i) (hi : i < m.rows) (hj0 : 0 ≤ j) (hj : j < m.cols)
    (hx : m.RenderScale.x = some w) (hz : m.RenderScale.z = some d)
    (hw1 : 1 / 2 ^ 100 ≤ w) (hw2 : w ≤ 2 ^ 100) (hd1 : 1 / 2 ^ 100 ≤ d)
    (hd2 : d ≤ 2 ^ 100) :
    ∃ v : vec3 F32, m.VertexData.at i j = some v ∧
      GetHeight32 undef m
        ⟨F32.mul (vertexX32 m.cols j) m.RenderScale.x, y,
         F32.mul (vertexZ32 m.rows i) m.RenderScale.z⟩
        = some (F32.mul v.y m.RenderScale.y, m) := by
  obtain ⟨v, hv⟩ := Grid.at_of_shape m.VertexData m.rows m.cols i j hshape hi0 hi hj0 hj
  refine ⟨v, hv, ?_⟩
  unfold GetHeight32
  rw [heightColumn32_at_vertex undef m j w y _ hc hc' hj0 hj hx hw1 hw2,
    heightRow32_at_vertex undef m i d _ y hr hr' hi0 hi hz hd1 hd2, hv]
  rfl

/-! ## Evaluations in binary32 -/

theorem F32_ofInt_4094 : F32.ofInt 4094 = some 4094 := by
  unfold F32.ofInt
  exact round32_pos _ (11) 16769024 (by norm_num) (by norm_num) (by norm_num)
    (roundHalfEven_exact _ 16769024 (by norm_num))
    (by norm_num) 4094 (by norm_num) (by norm_num)

theorem F32_ofInt_4095 : F32.ofInt 4095 = some 4095 := by
  unfold F32.ofInt
  exact round32_pos _ (11) 16773120 (by norm_num) (by norm_num) (by norm_num)
    (roundHalfEven_exact _ 16773120 (by norm_num))
    (by norm_num) 4095 (by norm_num) (by norm_num)

theorem F32_ofInt_4096 : F32.ofInt 4096 = some 4096 := by
  unfold F32.ofInt
  exact round32_pos _ (12) 8388608 (by norm_num) (by norm_num) (by norm_num)
    (roundHalfEven_exact _ 8388608 (by norm_num))
    (by norm_num) 4096 (by norm_num) (by norm_num)

theorem F32_ofInt_1 : F32.ofInt 1 = some 1 := by
  unfold F32.ofInt
  exact round32_pos _ (0) 8388608 (by norm_num) (by norm_num) (by norm_num)
    (roundHalfEven_exact _ 8388608 (by norm_num))
    (by norm_num) 1 (by norm_num) (by norm_num)

theorem F32_ofInt_2 : F32.ofInt 2 = some 2 := by
  unfold F32.ofInt
  exact round32_pos _ (1) 8388608 (by norm_num) (by norm_num) (by norm_num)
    (roundHalfEven_exact _ 8388608 (by norm_num))
    (by norm_num) 2 (by norm_num) (by norm_num)

theorem F32_step_scaleC :
    F32.div (some (4094)) (some (4095)) = some (16773119 / 16777216) := by
  rw [F32.div_some _ _ (by norm_num)]
  exact round32_pos _ (-1) 16773119 (by norm_num) (by norm_num) (by norm_num)
    (roundHalfEven_up _ 16773118 (by norm_num) (by norm_num))
    (by norm_num) (16773119 / 16777216) (by norm_num) (by norm_num)

theorem F32_step_x :
    F32.add (some (-1 / 2)) (some (16773119 / 16777216)) = some (8384511 / 16777216) := by
  rw [F32.add_some]
  exact round32_pos _ (-2) 16769022 (by norm_num) (by norm_num) (by norm_num)
    (roundHalfEven_exact _ 16769022 (by norm_num))
    (by norm_num) (8384511 / 16777216) (by norm_num) (by norm_num)

theorem F32_step_worldX :
    F32.mul (some (8384511 / 16777216)) (some (10)) = some (10480639 / 2097152) := by
  rw [F32.mul_some]
  exact round32_pos _ (2) 10480639 (by norm_num) (by norm_num) (by norm_num)
    (roundHalfEven_up _ 10480638 (by norm_num) (by norm_num))
    (by norm_num) (10480639 / 2097152) (by norm_num) (by norm_num)

theorem F32_step_half :
    F32.mul (some (10)) (some (1 / 2)) = some (5) := by
  rw [F32.mul_some]
  exact round32_pos _ (2) 10485760 (by norm_num) (by norm_num) (by norm_num)
    (roundHalfEven_exact _ 10485760 (by norm_num))
    (by norm_num) (5) (by norm_num) (by norm_num)

theorem F32_step_shiftX :
    F32.add (some (10480639 / 2097152)) (some (5)) = some (20475 / 2048) := by
  rw [F32.add_some]
  exact round32_pos _ (3) 10483200 (by norm_num) (by norm_num) (by norm_num)
    (roundHalfEven_tie_odd _ 10483199 (by norm_num) (by norm_num))
    (by norm_num) (20475 / 2048) (by norm_num) (by norm_num)

theorem F32_step_timesCols :
    F32.mul (some (20475 / 2048)) (some (4096)) = some (40950) := by
  rw [F32.mul_some]
  exact round32_pos _ (15) 10483200 (by norm_num) (by norm_num) (by norm_num)
    (roundHalfEven_exact _ 10483200 (by norm_num))
    (by norm_num) (40950) (by norm_num) (by norm_num)

theorem F32_step_column :
    F32.div (some (40950)) (some (10)) = some (4095) := by
  rw [F32.div_some _ _ (by norm_num)]
  exact round32_pos _ (11) 16773120 (by norm_num) (by norm_num) (by norm_num)
    (roundHalfEven_exact _ 16773120 (by norm_num))
    (by norm_num) (4095) (by norm_num) (by norm_num)

theorem F32_step_scaleR :
    F32.div (some (1)) (some (1)) = some (1) := by
  rw [F32.div_some _ _ (by norm_num)]
  exact round32_pos _ (0) 8388608 (by norm_num) (by norm_num) (by norm_num)
    (roundHalfEven_exact _ 8388608 (by norm_num))
    (by norm_num) (1) (by norm_num) (by norm_num)

theorem F32_step_z :
    F32.add (some (-1 / 2)) (some (1)) = some (1 / 2) := by
  rw [F32.add_some]
  exact round32_pos _ (-1) 8388608 (by norm_num) (by norm_num) (by norm_num)
    (roundHalfEven_exact _ 8388608 (by norm_num))
    (by norm_num) (1 / 2) (by norm_num) (by norm_num)

theorem F32_step_worldZ :
    F32.mul (some (1 / 2)) (some (10)) = some (5) := by
  rw [F32.mul_some]
  exact round32_pos _ (2) 10485760 (by norm_num) (by norm_num) (by norm_num)
    (roundHalfEven_exact _ 10485760 (by norm_num))
    (by norm_num) (5) (by norm_num) (by norm_num)

theorem F32_step_shiftZ :
    F32.add (some (5)) (some (5)) = some (10) := by
  rw [F32.add_some]
  exact round32_pos _ (3) 10485760 (by norm_num) (by norm_num) (by norm_num)
    (roundHalfEven_exact _ 10485760 (by norm_num))
    (by norm_num) (10) (by norm_num) (by norm_num)

theorem F32_step_timesRows :
    F32.mul (some (10)) (some (2)) = some (20) := by
  rw [F32.mul_some]
  exact round32_pos _ (4) 10485760 (by norm_num) (by norm_num) (by norm_num)
    (roundHalfEven_exact _ 10485760 (by norm_num))
    (by norm_num) (20) (by norm_num) (by norm_num)

theorem F32_step_row :
    F32.div (some (20)) (some (10)) = some (2) := by
  rw [F32.div_some _ _ (by norm_num)]
  exact round32_pos _ (1) 8388608 (by norm_num) (by norm_num) (by norm_num)
    (roundHalfEven_exact _ 8388608 (by norm_num))
    (by norm_num) (2) (by norm_num) (by norm_num)

theorem F32_step_result :
    F32.mul (some (1)) (some (4)) = some (4) := by
  rw [F32.mul_some]
  exact round32_pos _ (2) 8388608 (by norm_num) (by norm_num) (by norm_num)
    (roundHalfEven_exact _ 8388608 (by norm_num))
    (by norm_num) (4) (by norm_num) (by norm_num)

theorem F32_step_farShift :
    F32.add (some (1099511627776)) (some (5)) = some (1099511627776) := by
  rw [F32.add_some]
  exact round32_pos _ (40) 8388608 (by norm_num) (by norm_num) (by norm_num)
    (roundHalfEven_down _ 8388608 (by norm_num) (by norm_num))
    (by norm_num) (1099511627776) (by norm_num) (by norm_num)

theorem F32_step_farTimes :
    F32.mul (some (1099511627776)) (some (2)) = some (2199023255552) := by
  rw [F32.mul_some]
  exact round32_pos _ (41) 8388608 (by norm_num) (by norm_num) (by norm_num)
    (roundHalfEven_exact _ 8388608 (by norm_num))
    (by norm_num) (2199023255552) (by norm_num) (by norm_num)

theorem F32_step_farColumn :
    F32.div (some (2199023255552)) (some (10)) = some (219902328832) := by
  rw [F32.div_some _ _ (by norm_num)]
  exact round32_pos _ (37) 13421773 (by norm_num) (by norm_num) (by norm_num)
    (roundHalfEven_up _ 13421772 (by norm_num) (by norm_num))
    (by norm_num) (219902328832) (by norm_num) (by norm_num)

theorem vertexX32_4096_4094 : vertexX32 4096 4094 = some (8384511 / 16777216) := by
  unfold vertexX32
  rw [show (4096 - 1 : Int) = 4095 by norm_num, F32_ofInt_4094, F32_ofInt_4095,
    F32_step_scaleC, F32_step_x]

theorem vertexZ32_2_1 : vertexZ32 2 1 = some (1 / 2) := by
  unfold vertexZ32
  rw [show (2 - 1 : Int) = 1 by norm_num, F32_ofInt_1, F32_step_scaleR, F32_step_z]

theorem truncate_4095 : truncate (4095 : ℚ) = 4095 := by
  have h : (4095 : ℚ) = ((4095 : Int) : ℚ) := by norm_num
  rw [h, truncate_intCast]

theorem truncate_2 : truncate (2 : ℚ) = 2 := by
  have h : (2 : ℚ) = ((2 : Int) : ℚ) := by norm_num
  rw [h, truncate_intCast]

theorem wideMesh32_column :
    heightColumn32 integerIndefinite wideMesh32 ⟨some (10480639 / 2097152), some 0, some 5⟩
      = 4095 := by
  unfold heightColumn32
  simp only [wideMesh32]
  rw [F32_step_half, F32_step_shiftX, F32_ofInt_4096, F32_step_timesCols, F32_step_column,
    F32.toInt_of_range _ _ (by norm_num) (by norm_num), truncate_4095]
  decide

theorem wideMesh32_row :
    heightRow32 integerIndefinite wideMesh32 ⟨some (10480639 / 2097152), some 0, some 5⟩
      = 1 := by
  unfold heightRow32
  simp only [wideMesh32]
  rw [F32_step_half, F32_step_shiftZ, F32_ofInt_2, F32_step_timesRows, F32_step_row,
    F32.toInt_of_range _ _ (by norm_num) (by norm_num), truncate_2]
  decide

/-- With a width of zero the quotient of `GetHeight` is an infinity or a NaN, whose
conversion to `int` is undefined; with the x86 result of the conversion the clamped
column is 0, at every position. -/
theorem heightColumn32_zero_width (position : vec3 F32) :
    heightColumn32 integerIndefinite zeroWidthMesh32 position = 0 := by
  unfold heightColumn32
  have h : zeroWidthMesh32.RenderScale.x = some 0 := rfl
  rw [h, F32.div_zero]
  decide

/-- At `x = 2^40`, far outside a terrain 10 wide, the quotient of `GetHeight` is beyond
the range of `int`; with the x86 result of the conversion the clamped column is 0. -/
theorem heightColumn32_far_position :
    heightColumn32 integerIndefinite sampleMesh32 ⟨some 1099511627776, some 0, some 0⟩
      = 0 := by
  unfold heightColumn32
  simp only [sampleMesh32]
  rw [F32_step_half, F32_step_farShift, F32_ofInt_2, F32_step_farTimes, F32_step_farColumn,
    F32.toInt_of_large _ _ (by norm_num)]
  decide

/-! ## The binary32 theorems at concrete inputs -/

theorem sampleMesh32_shape :
    sampleMesh32.VertexData.Shape sampleMesh32.rows sampleMesh32.cols := by
  constructor
  · rfl
  · intro r hr
    simp only [sampleMesh32, List.mem_cons, List.mem_singleton, List.not_mem_nil, or_false] at hr
    rcases hr with rfl | rfl <;> rfl

theorem GetHeight32_total_witness :
    ∃ v : vec3 F32,
      0 ≤ heightRow32 integerIndefinite zeroWidthMesh32 ⟨some 1000000000000, some 0, none⟩ ∧
      heightRow32 integerIndefinite zeroWidthMesh32 ⟨some 1000000000000, some 0, none⟩
        ≤ zeroWidthMesh32.rows - 1 ∧
      0 ≤ heightColumn32 integerIndefinite zeroWidthMesh32
        ⟨some 1000000000000, some 0, none⟩ ∧
      heightColumn32 integerIndefinite zeroWidthMesh32 ⟨some 1000000000000, some 0, none⟩
        ≤ zeroWidthMesh32.cols - 1 ∧
      zeroWidthMesh32.VertexData.at
        (heightRow32 integerIndefinite zeroWidthMesh32 ⟨some 1000000000000, some 0, none⟩)
        (heightColumn32 integerIndefinite zeroWidthMesh32
          ⟨some 1000000000000, some 0, none⟩) = some v ∧
      GetHeight32 integerIndefinite zeroWidthMesh32 ⟨some 1000000000000, some 0, none⟩
        = some (F32.mul v.y zeroWidthMesh32.RenderScale.y, zeroWidthMesh32) :=
  GetHeight32_total integerIndefinite zeroWidthMesh32 ⟨some 1000000000000, some 0, none⟩
    sampleMesh32_shape (by decide) (by decide)

theorem GetHeight32_at_vertex_witness :
    ∃ v : vec3 F32, sampleMesh32.VertexData.at 1 1 = some v ∧
      GetHeight32 integerIndefinite sampleMesh32
        ⟨F32.mul (vertexX32 sampleMesh32.cols 1) sampleMesh32.RenderScale.x, some 3,
         F32.mul (vertexZ32 sampleMesh32.rows 1) sampleMesh32.RenderScale.z⟩
        = some (F32.mul v.y sampleMesh32.RenderScale.y, sampleMesh32) :=
  GetHeight32_at_vertex integerIndefinite sampleMesh32 1 1 10 10 (some 3) sampleMesh32_shape
    (by decide) (by decide) (by decide) (by decide) (by decide) (by decide) (by decide)
    (by decide) rfl rfl (by norm_num) (by norm_num) (by norm_num) (by norm_num)

theorem wideMesh32_shape :
    wideMesh32.VertexData.Shape wideMesh32.rows wideMesh32.cols := by
  simp only [wideMesh32]
  exact Grid.ofFn_shape 2 4096 _ (by decide) (by decide)

/-- C17 fails as stated, in binary32. On `wideMesh32` (2 rows of 4096 vertices, 10 wide,
4 high, 10 deep), the scaled position of vertex `(1, 4094)` has
`x = 10480639 / 2097152`; there the index expression of `GetHeight` rounds to `4095`
exactly, so that `GetHeight` reads vertex `(1, 4095)` and returns `1 * 4 = 4`, while
`VertexData[1][4094].y * RenderScale.y` is `0 * 4 = 0`. -/
theorem GetHeight32_vertex_counterexample :
    wideMesh32.VertexData.Shape wideMesh32.rows wideMesh32.cols ∧
    2 ≤ wideMesh32.rows ∧ 2 ≤ wideMesh32.cols ∧
    wideMesh32.RenderScale = ⟨some 10, some 4, some 10⟩ ∧
    wideMesh32.VertexData.at 1 4094
      = some ⟨vertexX32 wideMesh32.cols 4094, some 0, vertexZ32 wideMesh32.rows 1⟩ ∧
    F32.mul (vertexX32 wideMesh32.cols 4094) wideMesh32.RenderScale.x
      = some (10480639 / 2097152) ∧
    F32.mul (vertexZ32 wideMesh32.rows 1) wideMesh32.RenderScale.z = some 5 ∧
    heightColumn32 integerIndefinite wideMesh32
      ⟨F32.mul (vertexX32 wideMesh32.cols 4094) wideMesh32.RenderScale.x, some 0,
       F32.mul (vertexZ32 wideMesh32.rows 1) wideMesh32.RenderScale.z⟩ = 4095 ∧
    heightRow32 integerIndefinite wideMesh32
      ⟨F32.mul (vertexX32 wideMesh32.cols 4094) wideMesh32.RenderScale.x, some 0,
       F32.mul (vertexZ32 wideMesh32.rows 1) wideMesh32.RenderScale.z⟩ = 1 ∧
    GetHeight32 integerIndefinite wideMesh32
      ⟨F32.mul (vertexX32 wideMesh32.cols 4094) wideMesh32.RenderScale.x, some 0,
       F32.mul (vertexZ32 wideMesh32.rows 1) wideMesh32.RenderScale.z⟩
      = some (some 4, wideMesh32) ∧
    F32.mul (some 0) wideMesh32.RenderScale.y = some 0 ∧
    GetHeight32 integerIndefinite wideMesh32
      ⟨F32.mul (vertexX32 wideMesh32.cols 4094) wideMesh32.RenderScale.x, some 0,
       F32.mul (vertexZ32 wideMesh32.rows 1) wideMesh32.RenderScale.z⟩
      ≠ some (F32.mul (some 0) wideMesh32.RenderScale.y, wideMesh32) := by
  have hpx : F32.mul (vertexX32 wideMesh32.cols 4094) wideMesh32.RenderScale.x
      = some (10480639 / 2097152) := by
    show F32.mul (vertexX32 4096 4094) (some 10) = _
    rw [vertexX32_4096_4094, F32_step_worldX]
  have hpz : F32.mul (vertexZ32 wideMesh32.rows 1) wideMesh32.RenderScale.z = some 5 := by
    show F32.mul (vertexZ32 2 1) (some 10) = _
    rw [vertexZ32_2_1, F32_step_worldZ]
  have h94 : wideMesh32.VertexData.at 1 4094
      = some ⟨vertexX32 4096 4094, some 0, vertexZ32 2 1⟩ := by
    simp only [wideMesh32]
    rw [Grid.ofFn_at 2 4096 _ 1 4094 (by decide) (by decide) (by decide) (by decide)]
    norm_num
  have h95 : wideMesh32.VertexData.at 1 4095
      = some ⟨vertexX32 4096 4095, some 1, vertexZ32 2 1⟩ := by
    simp only [wideMesh32]
    rw [Grid.ofFn_at 2 4096 _ 1 4095 (by decide) (by decide) (by decide) (by decide)]
    norm_num
  have hget : GetHeight32 integerIndefinite wideMesh32
      ⟨F32.mul (vertexX32 wideMesh32.cols 4094) wideMesh32.RenderScale.x, some 0,
       F32.mul (vertexZ32 wideMesh32.rows 1) wideMesh32.RenderScale.z⟩
      = some (some 4, wideMesh32) := by
    unfold GetHeight32
    rw [hpx, hpz, wideMesh32_column, wideMesh32_row, h95]
    show some (F32.mul (some 1) (some 4), wideMesh32) = _
    rw [F32_step_result]
  have hzero : F32.mul (some 0) wideMesh32.RenderScale.y = some 0 := by
    show round32 (0 * 4) = some 0
    simp [round32]
  refine ⟨wideMesh32_shape, by decide, by decide, rfl, h94,
    hpx, hpz, ?_, ?_, hget, hzero, ?_⟩
  · rw [hpx, hpz]
    exact wideMesh32_column
  · rw [hpx, hpz]
    exact wideMesh32_row
  · rw [hget, hzero]
    intro h
    have h4 : (4 : ℚ) = 0 := Option.some.inj (congrArg Prod.fst (Option.some.inj h))
    norm_num at h4
